import Mathlib

/-!
# Muscollo problem model: bounds, variable infos and phases

A shallow embedding of `Muscollo/MucoProblem.cpp`.

Conventions of the embedding.

* A C++ `double` that is a number is an exact rational number.  The value read
  from a bounds object is a `Double`: a number, or not-a-number, which is what
  unset bounds hold; the comparisons `<` and `>` of the source are false as
  soon as one side is not-a-number.
* A member function that may throw returns `Except Exception α`.  A member
  function that both mutates its object and may throw returns the outcome
  together with the object as the call leaves it, so that the state after a
  failed call can be talked about.
* A list property of the object framework is a `List`.
-/

namespace OpenSim

/-! ## Exceptions -/

/-- The throw sites of `MucoProblem.cpp`.  The source throws one class,
`OpenSim::Exception`, with a formatted message; the embedding keeps which
check threw and the name the message mentions. -/
inductive Exception where
  /-- Line 51: initial lower bound below the lower bound. -/
  | initialLowerBound (var : String)
  /-- Line 56: final lower bound below the lower bound. -/
  | finalLowerBound (var : String)
  /-- Line 61: initial upper bound above the upper bound. -/
  | initialUpperBound (var : String)
  /-- Line 66: final upper bound above the upper bound. -/
  | finalUpperBound (var : String)
  /-- Lines 141, 149, 157: the object to add has no name. -/
  | emptyName
  /-- Lines 144, 152, 161: an object with this name already exists. -/
  | alreadyExists (name : String)
  /-- Lines 210, 218, 226, 234, 242, 253, 263: lookup by name found nothing. -/
  | notFound (name : String)
  /-- Line 346: state info provided for a nonexistent state. -/
  | nonexistentState (name : String)
  /-- Line 359: control info provided for a nonexistent actuator. -/
  | nonexistentActuator (name : String)
  /-- Line 442: wrong number of parameter values. -/
  | parameterCount (declared provided : Nat)
  /-- Thrown by code outside this file (component hooks). -/
  | external (what : String)
  deriving DecidableEq, Repr

deriving instance DecidableEq for Except

/-- Whether an outcome is a normal return. -/
def succeeds {α : Type} (r : Except Exception α) : Bool :=
  match r with
  | .ok _ => true
  | .error _ => false

/-- Whether an outcome is a thrown exception. -/
def fails {α : Type} (r : Except Exception α) : Bool :=
  match r with
  | .ok _ => false
  | .error _ => true

/-! ## MucoBounds -/

/-- The value that `getLower()` or `getUpper()` reads from a bounds object: a
number, or not-a-number, which is what unset bounds hold. -/
inductive Double where
  | nan
  | num (value : ℚ)
  deriving DecidableEq, Repr

namespace Double

/-- `operator<` of two doubles: the order of the numbers, and false as soon as
one side is not-a-number. -/
def lt (a b : Double) : Prop :=
  match a, b with
  | num x, num y => x < y
  | _, _ => False

/-- `operator<=` of two doubles: the order of the numbers, and false as soon as
one side is not-a-number. -/
def le (a b : Double) : Prop :=
  match a, b with
  | num x, num y => x ≤ y
  | _, _ => False

instance : LT Double := ⟨lt⟩

instance : LE Double := ⟨le⟩

instance (a b : Double) : Decidable (a < b) :=
  match a, b with
  | nan, nan => isFalse (fun h => h)
  | nan, num _ => isFalse (fun h => h)
  | num _, nan => isFalse (fun h => h)
  | num x, num y => inferInstanceAs (Decidable (x < y))

instance (a b : Double) : Decidable (a ≤ b) :=
  match a, b with
  | nan, nan => isFalse (fun h => h)
  | nan, num _ => isFalse (fun h => h)
  | num _, nan => isFalse (fun h => h)
  | num x, num y => inferInstanceAs (Decidable (x ≤ y))

end Double

/-- Modelled from the spec: the class `MucoBounds` (declared in `MucoProblem.h`,
which is not among the sources).  The spec describes it as a pair
(lower, upper) with an "unset" state distinct from any numeric value: the
bounds are either unset, which is what the default constructor
`MucoBounds()` makes, or a pair of numbers. -/
inductive MucoBounds where
  | unset
  | range (lower upper : ℚ)
  deriving DecidableEq, Repr

/-- The class `MucoInitialBounds`, a `MucoBounds` for the initial time. -/
abbrev MucoInitialBounds := MucoBounds

/-- The class `MucoFinalBounds`, a `MucoBounds` for the final time. -/
abbrev MucoFinalBounds := MucoBounds

namespace MucoBounds

/-- `isSet()`: whether the bounds hold numbers. -/
def isSet (b : MucoBounds) : Bool :=
  match b with
  | unset => false
  | range _ _ => true

/-- `getLower()`: the lower number, and not-a-number for unset bounds. -/
def getLower (b : MucoBounds) : Double :=
  match b with
  | unset => .nan
  | range lower _ => .num lower

/-- `getUpper()`: the upper number, and not-a-number for unset bounds. -/
def getUpper (b : MucoBounds) : Double :=
  match b with
  | unset => .nan
  | range _ upper => .num upper

/-- Modelled from the spec: the constructor `MucoBounds(double lower, double upper)`
on two values read from other bounds (lines 375-378): a pair of numbers when
both are numbers, and the unset state when they are not-a-number. -/
def ofDoubles (lower upper : Double) : MucoBounds :=
  match lower, upper with
  | .num l, .num u => range l u
  | _, _ => unset

/-- Modelled from the spec: the constructor `MucoBounds(double value)`, used as
`MucoBounds(0)` on line 112: both ends equal `value`. -/
def ofValue (value : ℚ) : MucoBounds := ofDoubles (.num value) (.num value)

/-- Modelled from the spec: the constructor `MucoBounds(double lower, double upper)`
on two numbers, used on line 113. -/
def ofRange (lower upper : ℚ) : MucoBounds := ofDoubles (.num lower) (.num upper)

end MucoBounds

/-! ## MucoVariableInfo -/

/-- The class `MucoVariableInfo`: the object name and the three properties
`bounds`, `initial_bounds`, `final_bounds` (lines 90-94). -/
structure MucoVariableInfo where
  name : String
  bounds : MucoBounds
  initial_bounds : MucoInitialBounds
  final_bounds : MucoFinalBounds
  deriving DecidableEq, Repr

namespace MucoVariableInfo

def getName (v : MucoVariableInfo) : String := v.name

def getBounds (v : MucoVariableInfo) : MucoBounds := v.bounds

def getInitialBounds (v : MucoVariableInfo) : MucoInitialBounds := v.initial_bounds

def getFinalBounds (v : MucoVariableInfo) : MucoFinalBounds := v.final_bounds

/-- Lines 90-94, `constructProperties`, reached from the default constructor
(lines 31-33): the three properties start as default-constructed bounds and
the object name is empty. -/
def constructProperties : MucoVariableInfo :=
  { name := "", bounds := MucoBounds.unset, initial_bounds := MucoBounds.unset,
    final_bounds := MucoBounds.unset }

def setName (v : MucoVariableInfo) (name : String) : MucoVariableInfo :=
  { v with name := name }

def set_bounds (v : MucoVariableInfo) (b : MucoBounds) : MucoVariableInfo :=
  { v with bounds := b }

def set_initial_bounds (v : MucoVariableInfo) (b : MucoInitialBounds) : MucoVariableInfo :=
  { v with initial_bounds := b }

def set_final_bounds (v : MucoVariableInfo) (b : MucoFinalBounds) : MucoVariableInfo :=
  { v with final_bounds := b }

/-- Lines 45-71, `MucoVariableInfo::validate`: four `OPENSIM_THROW_IF` checks in
the order of the source. -/
def validate (v : MucoVariableInfo) : Except Exception Unit :=
  let n := v.getName
  let b := v.getBounds
  let ib := v.getInitialBounds
  let fb := v.getFinalBounds
  if ib.isSet = true ∧ ib.getLower < b.getLower then .error (.initialLowerBound n)
  else if fb.isSet = true ∧ fb.getLower < b.getLower then .error (.finalLowerBound n)
  else if ib.isSet = true ∧ ib.getUpper > b.getUpper then .error (.initialUpperBound n)
  else if fb.isSet = true ∧ fb.getUpper > b.getUpper then .error (.finalUpperBound n)
  else .ok ()

/-- Lines 35-43, the four-argument constructor: default construction, the four
setters, then `validate()`; an exception of `validate` leaves no object. -/
def new (name : String) (bounds : MucoBounds) (initial : MucoInitialBounds)
    (final : MucoFinalBounds) : Except Exception MucoVariableInfo :=
  let v := constructProperties
  let v := v.setName name
  let v := v.set_bounds bounds
  let v := v.set_initial_bounds initial
  let v := v.set_final_bounds final
  match v.validate with
  | .error e => .error e
  | .ok () => .ok v

end MucoVariableInfo

/-! ## Components declared by the user and the model -/

/-- Modelled from the spec: the class `MucoParameter` (its header is not among
the sources).  `MucoProblem.cpp` reads only the object name; `rest` stands for
the remaining content of the object, which only its own member functions
read. -/
structure MucoParameter where
  name : String
  rest : String
  deriving DecidableEq, Repr

/-- Modelled from the spec: the class `MucoCost` (its header is not among the
sources); see `MucoParameter`. -/
structure MucoCost where
  name : String
  rest : String
  deriving DecidableEq, Repr

/-- Modelled from the spec: the class `MucoConstraintInfo` (its header is not
among the sources): a name, the number of scalar equations and one bounds
entry per equation. -/
structure MucoConstraintInfo where
  name : String
  numEquations : Nat
  bounds : List MucoBounds
  deriving DecidableEq, Repr

namespace MucoConstraintInfo

def getName (ci : MucoConstraintInfo) : String := ci.name

def getNumEquations (ci : MucoConstraintInfo) : Nat := ci.numEquations

/-- Modelled from the spec: `MucoConstraintInfo::setBounds`, which stores the
given per-equation bounds. -/
def setBounds (ci : MucoConstraintInfo) (bounds : List MucoBounds) : MucoConstraintInfo :=
  { ci with bounds := bounds }

end MucoConstraintInfo

/-- Modelled from the spec: the class `MucoPathConstraint` (its header is not
among the sources): the object name, its constraint info, and the remaining
content of the object. -/
structure MucoPathConstraint where
  name : String
  constraintInfo : MucoConstraintInfo
  rest : String
  deriving DecidableEq, Repr

namespace MucoPathConstraint

def getConstraintInfo (pc : MucoPathConstraint) : MucoConstraintInfo := pc.constraintInfo

end MucoPathConstraint

/-- Modelled from the spec: the class `MucoMultibodyConstraint` (its header is
not among the sources): the index of the constraint in the matter subsystem,
the numbers of position-, velocity- and acceleration-level equations, and
the constraint info it owns. -/
structure MucoMultibodyConstraint where
  index : Nat
  numPosition : Nat
  numVelocity : Nat
  numAcceleration : Nat
  constraintInfo : MucoConstraintInfo
  deriving DecidableEq, Repr

namespace MucoMultibodyConstraint

def getConstraintInfo (mc : MucoMultibodyConstraint) : MucoConstraintInfo := mc.constraintInfo

def setConstraintInfo (mc : MucoMultibodyConstraint) (ci : MucoConstraintInfo) :
    MucoMultibodyConstraint :=
  { mc with constraintInfo := ci }

/-- Modelled from the spec: the constructor
`MucoMultibodyConstraint(cid, mp, mv, ma)`.  The constraint info it owns has
`mp + mv + ma` equations.  How the constructor names the info is not in the
spec, so the name is the argument `infoName`; the per-equation bounds start
default-constructed. -/
def new (infoName : String) (cid mp mv ma : Nat) : MucoMultibodyConstraint :=
  { index := cid, numPosition := mp, numVelocity := mv, numAcceleration := ma,
    constraintInfo :=
      { name := infoName, numEquations := mp + mv + ma,
        bounds := List.replicate (mp + mv + ma) MucoBounds.unset } }

end MucoMultibodyConstraint

/-- One `SimTK::Constraint` of the matter subsystem, seen at the working state
of the model: what `isDisabled(state)` and
`getNumConstraintEquationsInUse(state, mp, mv, ma)` report (lines 387-388). -/
structure SimConstraint where
  isDisabled : Bool
  mp : Nat
  mv : Nat
  ma : Nat
  deriving DecidableEq, Repr

/-- What `MucoPhase::initialize` reads from the `Model` (lines 343-354 and
380-386): the state-variable names, for every actuator of the component list
the string of its absolute path made relative to the path of the model, and
the constraints of the matter subsystem in the order of their
`ConstraintIndex`. -/
structure Model where
  stateVariableNames : List String
  actuatorPaths : List String
  constraints : List SimConstraint
  deriving DecidableEq, Repr

/-- The default-constructed `Model()` of line 104. -/
def Model.empty : Model :=
  { stateVariableNames := [], actuatorPaths := [], constraints := [] }

/-- Member functions that `MucoProblem.cpp` calls and that are defined in other
files of the library: the `initialize` members of the parameters, costs and
path constraints (lines 365, 369, 434), each returning the object as the
call leaves it or throwing, and the name that the constructor of
`MucoMultibodyConstraint` gives to its constraint info. -/
structure Hooks where
  initParameter : MucoParameter → Model → Except Exception MucoParameter
  initCost : MucoCost → Model → Except Exception MucoCost
  initPathConstraint : MucoPathConstraint → Model → Nat → Except Exception MucoPathConstraint
  multibodyConstraintInfoName : Nat → Nat → Nat → Nat → String

/-! ## Lookup by name -/

/-- Modelled from the spec: `Property<T>::findIndexForName` (the property
framework is not among the sources), the loop
`for (i = 0; i < size; ++i) if (value[i].getName() == name) return i;`
followed by `return -1`.  `i` is the index of the head of the list. -/
def findIndexForNameFrom {α : Type} (getName : α → String) (name : String) :
    List α → Nat → Int
  | [], _ => -1
  | o :: rest, i =>
    if getName o = name then (i : Int) else findIndexForNameFrom getName name rest (i + 1)

/-- Modelled from the spec: `Property<T>::findIndexForName`: the index of the
first value whose name is `name`, or -1. -/
def findIndexForName {α : Type} (getName : α → String) (values : List α) (name : String) : Int :=
  findIndexForNameFrom getName name values 0

/-- Modelled from the spec: `OpenSim::Array<std::string>::findIndex` (lines 346
and 359): the index of the first element equal to `value`, or -1. -/
def arrayFindIndex (a : List String) (value : String) : Int :=
  findIndexForName (fun s => s) a value

/-! ## The multiplier map -/

/-- The member `m_multiplier_infos_map`, a `std::map` from the name of a
constraint info to the multiplier infos, as a list of its entries. -/
abbrev MultiplierInfosMap := List (String × List MucoVariableInfo)

namespace MultiplierInfosMap

/-- `std::map::find`: the value stored under `key`, if any. -/
def find (m : MultiplierInfosMap) (key : String) : Option (List MucoVariableInfo) :=
  match m with
  | [] => none
  | (k, v) :: rest => if k = key then some v else find rest key

/-- `std::map::insert`: adds the entry unless the key is already present, in
which case the map is left as it is. -/
def insert (m : MultiplierInfosMap) (key : String) (value : List MucoVariableInfo) :
    MultiplierInfosMap :=
  match find m key with
  | some _ => m
  | none => m ++ [(key, value)]

end MultiplierInfosMap

/-! ## MucoPhase -/

/-- The class `MucoPhase`: the properties constructed on lines 103-114 and the
mutable members `m_multibody_constraints`, `m_num_multibody_constraint_eqs`,
`m_num_path_constraint_eqs` and `m_multiplier_infos_map` that
`initialize` writes. -/
structure MucoPhase where
  model : Model
  time_initial_bounds : List ℚ
  time_final_bounds : List ℚ
  state_infos : List MucoVariableInfo
  control_infos : List MucoVariableInfo
  parameters : List MucoParameter
  costs : List MucoCost
  path_constraints : List MucoPathConstraint
  multibody_constraint_bounds : MucoBounds
  multiplier_bounds : MucoBounds
  m_multibody_constraints : List MucoMultibodyConstraint
  m_num_multibody_constraint_eqs : Nat
  m_num_path_constraint_eqs : Nat
  m_multiplier_infos_map : MultiplierInfosMap
  deriving DecidableEq, Repr

namespace MucoPhase

/-- Lines 100-114, the constructor `MucoPhase()` through `constructProperties`:
every list property is empty, the multibody-constraint bounds are
`MucoBounds(0)` and the multiplier bounds `MucoBounds(-1000.0, 1000.0)`.  The
mutable members start empty; the two counters, which the source leaves
uninitialised, start at 0. -/
def constructProperties : MucoPhase :=
  { model := Model.empty
    time_initial_bounds := []
    time_final_bounds := []
    state_infos := []
    control_infos := []
    parameters := []
    costs := []
    path_constraints := []
    multibody_constraint_bounds := MucoBounds.ofValue 0
    multiplier_bounds := MucoBounds.ofRange (-1000) 1000
    m_multibody_constraints := []
    m_num_multibody_constraint_eqs := 0
    m_num_path_constraint_eqs := 0
    m_multiplier_infos_map := [] }

/-- Lines 115-117. -/
def setModel (p : MucoPhase) (model : Model) : MucoPhase :=
  { p with model := model }

/-- Lines 123-130, `MucoPhase::setStateInfo`.  The index is looked up first, the
info is constructed next (its constructor may throw, before the collection
is touched), and the info is appended when the index is -1 and assigned to
the element at the index otherwise. -/
def setStateInfo (p : MucoPhase) (name : String) (bounds : MucoBounds)
    (initial : MucoInitialBounds) (final : MucoFinalBounds) : Except Exception Unit × MucoPhase :=
  let idx := findIndexForName MucoVariableInfo.getName p.state_infos name
  match MucoVariableInfo.new name bounds initial final with
  | .error e => (.error e, p)
  | .ok info =>
    if idx = -1 then (.ok (), { p with state_infos := p.state_infos ++ [info] })
    else (.ok (), { p with state_infos := p.state_infos.set idx.toNat info })

/-- Lines 131-139, `MucoPhase::setControlInfo`. -/
def setControlInfo (p : MucoPhase) (name : String) (bounds : MucoBounds)
    (initial : MucoInitialBounds) (final : MucoFinalBounds) : Except Exception Unit × MucoPhase :=
  let idx := findIndexForName MucoVariableInfo.getName p.control_infos name
  match MucoVariableInfo.new name bounds initial final with
  | .error e => (.error e, p)
  | .ok info =>
    if idx = -1 then (.ok (), { p with control_infos := p.control_infos ++ [info] })
    else (.ok (), { p with control_infos := p.control_infos.set idx.toNat info })

/-- Lines 140-147, `MucoPhase::addParameter`. -/
def addParameter (p : MucoPhase) (parameter : MucoParameter) : Except Exception Unit × MucoPhase :=
  if parameter.name = "" then (.error .emptyName, p)
  else
    let idx := findIndexForName MucoParameter.name p.parameters parameter.name
    if idx ≠ -1 then (.error (.alreadyExists parameter.name), p)
    else (.ok (), { p with parameters := p.parameters ++ [parameter] })

/-- Lines 148-155, `MucoPhase::addCost`. -/
def addCost (p : MucoPhase) (cost : MucoCost) : Except Exception Unit × MucoPhase :=
  if cost.name = "" then (.error .emptyName, p)
  else
    let idx := findIndexForName MucoCost.name p.costs cost.name
    if idx ≠ -1 then (.error (.alreadyExists cost.name), p)
    else (.ok (), { p with costs := p.costs ++ [cost] })

/-- Lines 156-165, `MucoPhase::addPathConstraint`. -/
def addPathConstraint (p : MucoPhase) (constraint : MucoPathConstraint) :
    Except Exception Unit × MucoPhase :=
  if constraint.name = "" then (.error .emptyName, p)
  else
    let idx := findIndexForName MucoPathConstraint.name p.path_constraints constraint.name
    if idx ≠ -1 then (.error (.alreadyExists constraint.name), p)
    else (.ok (), { p with path_constraints := p.path_constraints ++ [constraint] })

/-- Lines 207-213, `MucoPhase::getStateInfo`. -/
def getStateInfo (p : MucoPhase) (name : String) : Except Exception MucoVariableInfo :=
  let idx := findIndexForName MucoVariableInfo.getName p.state_infos name
  if idx = -1 then .error (.notFound name)
  else
    match p.state_infos[idx.toNat]? with
    | some info => .ok info
    | none => .error (.notFound name)

/-- Lines 214-221, `MucoPhase::getControlInfo`. -/
def getControlInfo (p : MucoPhase) (name : String) : Except Exception MucoVariableInfo :=
  let idx := findIndexForName MucoVariableInfo.getName p.control_infos name
  if idx = -1 then .error (.notFound name)
  else
    match p.control_infos[idx.toNat]? with
    | some info => .ok info
    | none => .error (.notFound name)

/-! ### MucoPhase::initialize (lines 340-439) -/

/-- Lines 344-348: for every state info in order, throw when its name is not
among the state-variable names of the model. -/
def checkStateInfos (stateNames : List String) : List MucoVariableInfo → Except Exception Unit
  | [] => .ok ()
  | info :: rest =>
    let name := info.getName
    if arrayFindIndex stateNames name = -1 then .error (.nonexistentState name)
    else checkStateInfos stateNames rest

/-- Lines 357-362: for every control info in order, throw when its name is not
among the actuator paths collected on lines 349-354. -/
def checkControlInfos (actuNames : List String) : List MucoVariableInfo → Except Exception Unit
  | [] => .ok ()
  | info :: rest =>
    let name := info.getName
    if arrayFindIndex actuNames name = -1 then .error (.nonexistentActuator name)
    else checkControlInfos actuNames rest

/-- Lines 364-366: every parameter is initialised on the model, in order; the
first exception ends the loop. -/
def initParameters (h : Hooks) (model : Model) : List MucoParameter → Except Exception (List MucoParameter)
  | [] => .ok []
  | x :: rest =>
    match h.initParameter x model with
    | .error e => .error e
    | .ok x1 =>
      match initParameters h model rest with
      | .error e => .error e
      | .ok rest1 => .ok (x1 :: rest1)

/-- Lines 368-370: every cost is initialised on the model, in order. -/
def initCosts (h : Hooks) (model : Model) : List MucoCost → Except Exception (List MucoCost)
  | [] => .ok []
  | x :: rest =>
    match h.initCost x model with
    | .error e => .error e
    | .ok x1 =>
      match initCosts h model rest with
      | .error e => .error e
      | .ok rest1 => .ok (x1 :: rest1)

/-- One of the loops of lines 413-427: for every `i` of `indices`, in order, a
`MucoVariableInfo` named `"lambda_cid" + to_string(cid) + kind + to_string(i)`
is constructed with the three multiplier bounds and pushed back on
`multInfos`. -/
def pushMultiplierInfos (cid : Nat) (kind : String) (multBounds : MucoBounds)
    (multInitBounds : MucoInitialBounds) (multFinalBounds : MucoFinalBounds) :
    List Nat → List MucoVariableInfo → Except Exception (List MucoVariableInfo)
  | [], multInfos => .ok multInfos
  | i :: rest, multInfos =>
    match MucoVariableInfo.new ("lambda_cid" ++ toString cid ++ kind ++ toString i)
        multBounds multInitBounds multFinalBounds with
    | .error e => .error e
    | .ok info =>
      pushMultiplierInfos cid kind multBounds multInitBounds multFinalBounds rest
        (multInfos ++ [info])

/-- Lines 412-427: the multiplier infos of one constraint, the `mp` position
ones, then the `mv` velocity ones, then the `ma` acceleration ones. -/
def createMultiplierInfos (cid mp mv ma : Nat) (multBounds : MucoBounds)
    (multInitBounds : MucoInitialBounds) (multFinalBounds : MucoFinalBounds) :
    Except Exception (List MucoVariableInfo) :=
  match pushMultiplierInfos cid "_p" multBounds multInitBounds multFinalBounds
      (List.range mp) [] with
  | .error e => .error e
  | .ok infos1 =>
    match pushMultiplierInfos cid "_v" multBounds multInitBounds multFinalBounds
        (List.range mv) infos1 with
    | .error e => .error e
    | .ok infos2 =>
      pushMultiplierInfos cid "_a" multBounds multInitBounds multFinalBounds
        (List.range ma) infos2

/-- Lines 385-430: the loop over the constraints of the matter subsystem.  The
list holds the constraints from index `cid` on.  A constraint that is not
disabled gets a `MucoMultibodyConstraint` whose info carries one copy of
`mcBounds` per equation; the equation counter is increased, the constraint
is pushed back on `m_multibody_constraints`, and its multiplier infos are
inserted in the map under the name of its info. -/
def discoverMultibodyConstraints (h : Hooks) (mcBounds multBounds : MucoBounds)
    (multInitBounds : MucoInitialBounds) (multFinalBounds : MucoFinalBounds) :
    List SimConstraint → Nat → MucoPhase → Except Exception MucoPhase
  | [], _, p => .ok p
  | constraint :: rest, cid, p =>
    if constraint.isDisabled = false then
      let mp := constraint.mp
      let mv := constraint.mv
      let ma := constraint.ma
      let mc := MucoMultibodyConstraint.new (h.multibodyConstraintInfoName cid mp mv ma)
        cid mp mv ma
      let mcInfo := mc.getConstraintInfo
      let mcBoundVec := List.replicate mc.getConstraintInfo.getNumEquations mcBounds
      let mcInfo := mcInfo.setBounds mcBoundVec
      let mc := mc.setConstraintInfo mcInfo
      let p := { p with m_num_multibody_constraint_eqs :=
        p.m_num_multibody_constraint_eqs + mc.getConstraintInfo.getNumEquations }
      let p := { p with m_multibody_constraints := p.m_multibody_constraints ++ [mc] }
      match createMultiplierInfos cid mp mv ma multBounds multInitBounds multFinalBounds with
      | .error e => .error e
      | .ok multInfos =>
        let p := { p with m_multiplier_infos_map :=
          p.m_multiplier_infos_map.insert mcInfo.getName multInfos }
        discoverMultibodyConstraints h mcBounds multBounds multInitBounds multFinalBounds
          rest (cid + 1) p
    else
      discoverMultibodyConstraints h mcBounds multBounds multInitBounds multFinalBounds
        rest (cid + 1) p

/-- Lines 433-438: every path constraint is initialised on the model with the
running number of path-constraint equations, which then grows by the number
of equations of that constraint.  Returns the path constraints as the calls
leave them and the final counter. -/
def initPathConstraints (h : Hooks) (model : Model) :
    List MucoPathConstraint → Nat → Except Exception (List MucoPathConstraint × Nat)
  | [], numEqs => .ok ([], numEqs)
  | x :: rest, numEqs =>
    match h.initPathConstraint x model numEqs with
    | .error e => .error e
    | .ok x1 =>
      match initPathConstraints h model rest
          (numEqs + x1.getConstraintInfo.getNumEquations) with
      | .error e => .error e
      | .ok (rest1, total) => .ok (x1 :: rest1, total)

/-- Lines 340-439, `MucoPhase::initialize(Model&)`, in the order of the source:
the state-name check, the control-name check, the parameters, the costs, the
multibody constraints with their multipliers, the path constraints.  The
result is the phase as a call that returns leaves it; the condition in which
a throwing call leaves the phase is not represented. -/
def initializeOnModel (h : Hooks) (p : MucoPhase) (model : Model) : Except Exception MucoPhase :=
  let stateNames := model.stateVariableNames
  match checkStateInfos stateNames p.state_infos with
  | .error e => .error e
  | .ok () =>
    let actuNames := model.actuatorPaths
    match checkControlInfos actuNames p.control_infos with
    | .error e => .error e
    | .ok () =>
      match initParameters h model p.parameters with
      | .error e => .error e
      | .ok parameters =>
        let p := { p with parameters := parameters }
        match initCosts h model p.costs with
        | .error e => .error e
        | .ok costs =>
          let p := { p with costs := costs }
          let mcBounds := p.multibody_constraint_bounds
          let multBounds := p.multiplier_bounds
          let multInitBounds := MucoBounds.ofDoubles multBounds.getLower multBounds.getUpper
          let multFinalBounds := MucoBounds.ofDoubles multBounds.getLower multBounds.getUpper
          let p := { p with m_num_multibody_constraint_eqs := 0 }
          match discoverMultibodyConstraints h mcBounds multBounds multInitBounds
              multFinalBounds model.constraints 0 p with
          | .error e => .error e
          | .ok p =>
            let p := { p with m_num_path_constraint_eqs := 0 }
            match initPathConstraints h model p.path_constraints 0 with
            | .error e => .error e
            | .ok (pathConstraints, total) =>
              .ok { p with path_constraints := pathConstraints,
                           m_num_path_constraint_eqs := total }

/-! ### Sequences of calls on a phase -/

/-- One call of a mutator of lines 123-165, with its arguments. -/
inductive Call where
  | setStateInfo (name : String) (bounds : MucoBounds) (initial : MucoInitialBounds)
      (final : MucoFinalBounds)
  | setControlInfo (name : String) (bounds : MucoBounds) (initial : MucoInitialBounds)
      (final : MucoFinalBounds)
  | addParameter (parameter : MucoParameter)
  | addCost (cost : MucoCost)
  | addPathConstraint (constraint : MucoPathConstraint)
  deriving DecidableEq, Repr

/-- The outcome of a call and the phase as the call leaves it. -/
def Call.run (c : Call) (p : MucoPhase) : Except Exception Unit × MucoPhase :=
  match c with
  | .setStateInfo name bounds initial final => p.setStateInfo name bounds initial final
  | .setControlInfo name bounds initial final => p.setControlInfo name bounds initial final
  | .addParameter parameter => p.addParameter parameter
  | .addCost cost => p.addCost cost
  | .addPathConstraint constraint => p.addPathConstraint constraint

/-- The phase after a sequence of calls made one after the other; a call that
throws is followed by the next call on the phase as the throwing call left
it. -/
def runCalls : List Call → MucoPhase → MucoPhase
  | [], p => p
  | c :: rest, p => runCalls rest (c.run p).2

/-- The `MucoMultibodyConstraint` that lines 389-397 build for the constraint
`c` at index `cid`: constructed from the index and the three counts, its
info then carrying one copy of `mcBounds` per equation. -/
def multibodyConstraintFor (h : Hooks) (mcBounds : MucoBounds) (cid : Nat) (c : SimConstraint) :
    MucoMultibodyConstraint :=
  let mc := MucoMultibodyConstraint.new (h.multibodyConstraintInfoName cid c.mp c.mv c.ma)
    cid c.mp c.mv c.ma
  mc.setConstraintInfo
    (mc.getConstraintInfo.setBounds
      (List.replicate mc.getConstraintInfo.getNumEquations mcBounds))

/-- The spec's uniqueness of names: in each of the five collections of declared
objects no two entries have the same name. -/
def namesUnique (p : MucoPhase) : Prop :=
  (p.state_infos.map MucoVariableInfo.getName).Nodup ∧
  (p.control_infos.map MucoVariableInfo.getName).Nodup ∧
  (p.parameters.map MucoParameter.name).Nodup ∧
  (p.costs.map MucoCost.name).Nodup ∧
  (p.path_constraints.map MucoPathConstraint.name).Nodup

instance (p : MucoPhase) : Decidable p.namesUnique := by
  unfold namesUnique; infer_instance

/-! ### Queries and setters used by the later sections -/

/-- Lines 246-255, `MucoPhase::getMultibodyConstraint`: the first multibody
constraint whose constraint info has the given name; an exception when there
is none. -/
def getMultibodyConstraint (p : MucoPhase) (name : String) :
    Except Exception MucoMultibodyConstraint :=
  match p.m_multibody_constraints.find? (fun mc => mc.getConstraintInfo.getName = name) with
  | some mc => .ok mc
  | none => .error (.notFound name)

/-- Lines 256-267, `MucoPhase::getMultiplierInfos`: the value the multiplier map
holds under the given name; an exception when the map has no such key. -/
def getMultiplierInfos (p : MucoPhase) (multibodyConstraintInfoName : String) :
    Except Exception (List MucoVariableInfo) :=
  match p.m_multiplier_infos_map.find multibodyConstraintInfoName with
  | some infos => .ok infos
  | none => .error (.notFound multibodyConstraintInfoName)

/-- Lines 118-122, `MucoPhase::setTimeBounds`.  `getAsArray` stands for
`MucoBounds::getAsArray`, which is declared in the absent header. -/
def setTimeBounds (getAsArray : MucoBounds → List ℚ) (p : MucoPhase)
    (initial : MucoInitialBounds) (final : MucoFinalBounds) : MucoPhase :=
  let p := { p with time_initial_bounds := getAsArray initial }
  { p with time_final_bounds := getAsArray final }

/-- Modelled from the spec: `MucoPhase::setMultibodyConstraintBounds`, defined in
the absent header: it sets the property `multibody_constraint_bounds`, the
bounds applied uniformly to every multibody-constraint equation. -/
def setMultibodyConstraintBounds (p : MucoPhase) (bounds : MucoBounds) : MucoPhase :=
  { p with multibody_constraint_bounds := bounds }

/-- Modelled from the spec: `MucoPhase::setMultiplierBounds`, defined in the
absent header: it sets the property `multiplier_bounds`, the bounds applied
uniformly to every multiplier. -/
def setMultiplierBounds (p : MucoPhase) (bounds : MucoBounds) : MucoPhase :=
  { p with multiplier_bounds := bounds }

/-- The loop of lines 447-449: `applyParameterToModel` is called on the
parameters in order, each with the value of the same index.  `apply` stands
for `MucoParameter::applyParameterToModel`, which is defined in another file
and may throw.  The second component lists the applications that returned,
in the order in which they were made. -/
def applyLoop (apply : MucoParameter → ℚ → Except Exception Unit) :
    List MucoParameter → List ℚ → List (MucoParameter × ℚ) →
      Except Exception Unit × List (MucoParameter × ℚ)
  | parameter :: parameters, value :: values, done =>
    match apply parameter value with
    | .error e => (.error e, done)
    | .ok () => applyLoop apply parameters values (done ++ [(parameter, value)])
  | _, _, done => (.ok (), done)

/-- Lines 440-450, `MucoPhase::applyParametersToModel`: an exception when the
number of values is not the number of parameters, before anything is
applied; otherwise the loop.  The member is `const` and assigns no member
of the phase, so the result is the outcome and the applications made. -/
def applyParametersToModel (apply : MucoParameter → ℚ → Except Exception Unit) (p : MucoPhase)
    (parameterValues : List ℚ) : Except Exception Unit × List (MucoParameter × ℚ) :=
  if parameterValues.length ≠ p.parameters.length then
    (.error (.parameterCount p.parameters.length parameterValues.length), [])
  else applyLoop apply p.parameters parameterValues []


/-- The multiplier infos as the spec describes them for the constraint with
index `cid` and the counts `mp`, `mv`, `ma`: the `mp` position-level ones
first, then the `mv` velocity-level ones, then the `ma` acceleration-level
ones, named `lambda_cid<cid>_p<i>`, `lambda_cid<cid>_v<i>`,
`lambda_cid<cid>_a<i>` with `i` counting from 0 within each kind, each with
the multiplier bounds as its bounds and with initial and final bounds made of
the lower and upper values read from the multiplier bounds. -/
def expectedMultiplierInfos (cid mp mv ma : Nat) (multBounds : MucoBounds) :
    List MucoVariableInfo :=
  (List.range mp).map (fun i =>
    ⟨"lambda_cid" ++ toString cid ++ "_p" ++ toString i, multBounds,
      MucoBounds.ofDoubles multBounds.getLower multBounds.getUpper,
      MucoBounds.ofDoubles multBounds.getLower multBounds.getUpper⟩) ++
  (List.range mv).map (fun i =>
    ⟨"lambda_cid" ++ toString cid ++ "_v" ++ toString i, multBounds,
      MucoBounds.ofDoubles multBounds.getLower multBounds.getUpper,
      MucoBounds.ofDoubles multBounds.getLower multBounds.getUpper⟩) ++
  (List.range ma).map (fun i =>
    ⟨"lambda_cid" ++ toString cid ++ "_a" ++ toString i, multBounds,
      MucoBounds.ofDoubles multBounds.getLower multBounds.getUpper,
      MucoBounds.ofDoubles multBounds.getLower multBounds.getUpper⟩)

/-- The constraints of a model that are not disabled, each with its index, in
increasing order of the index. -/
def enabledConstraints (model : Model) : List (Nat × SimConstraint) :=
  model.constraints.enum.filter (fun x => !x.2.isDisabled)


/-! ### The lists of names -/

/-- Lines 172-178, `MucoPhase::createStateInfoNames`: the vector `names` is
filled with the names of the state infos in order and returned.  The value
is what the function hands back to its caller. -/
def createStateInfoNames (p : MucoPhase) : Option (List String) :=
  let names := p.state_infos.map MucoVariableInfo.getName
  some names

/-- Lines 200-206, `MucoPhase::createMultibodyConstraintNames`: the vector
`names` is filled with the names of the constraint infos of
`m_multibody_constraints` in order, and the body ends on line 206 without a
`return` statement.  The first component is the local `names` when the body
ends; the second is what the function hands back to its caller, which is
nothing: the language leaves the result of the call undefined. -/
def createMultibodyConstraintNames (p : MucoPhase) : List String × Option (List String) :=
  let names := p.m_multibody_constraints.map (fun mc => mc.getConstraintInfo.getName)
  (names, none)


end MucoPhase

/-! ## MucoProblem -/

/-- The class `MucoProblem`: the list property `phases`. -/
structure MucoProblem where
  phases : List MucoPhase
  deriving DecidableEq, Repr

namespace MucoProblem

/-- Lines 457-459 and 506-508, the constructor `MucoProblem()` through
`constructProperties`: `Array<MucoPhase>(MucoPhase(), 1)`, one
default-constructed phase. -/
def constructProperties : MucoProblem :=
  { phases := List.replicate 1 MucoPhase.constructProperties }

/-- `upd_phases(0).f(...)` for a member `f` of the phase that may throw: the
member runs on the first phase, which is left as the call leaves it, and an
exception of the member is the exception of the call.  Modelled from the
spec: on a problem without phases the property framework throws for the
index 0 (the spec keeps the list at length at least 1). -/
def updPhase0 (f : MucoPhase → Except Exception Unit × MucoPhase) (problem : MucoProblem) :
    Except Exception Unit × MucoProblem :=
  match problem.phases with
  | [] => (.error (.external "phases index 0"), problem)
  | phase0 :: rest => ((f phase0).1, { phases := (f phase0).2 :: rest })

/-- Lines 464-467, `MucoProblem::setTimeBounds`. -/
def setTimeBounds (getAsArray : MucoBounds → List ℚ) (problem : MucoProblem)
    (initial : MucoInitialBounds) (final : MucoFinalBounds) : Except Exception Unit × MucoProblem :=
  updPhase0 (fun phase0 => (.ok (), phase0.setTimeBounds getAsArray initial final)) problem

/-- Lines 468-472, `MucoProblem::setStateInfo`. -/
def setStateInfo (problem : MucoProblem) (name : String) (bounds : MucoBounds)
    (initial : MucoInitialBounds) (final : MucoFinalBounds) : Except Exception Unit × MucoProblem :=
  updPhase0 (fun phase0 => phase0.setStateInfo name bounds initial final) problem

/-- Lines 473-477, `MucoProblem::setControlInfo`. -/
def setControlInfo (problem : MucoProblem) (name : String) (bounds : MucoBounds)
    (initial : MucoInitialBounds) (final : MucoFinalBounds) : Except Exception Unit × MucoProblem :=
  updPhase0 (fun phase0 => phase0.setControlInfo name bounds initial final) problem

/-- Lines 478-480, `MucoProblem::setMultibodyConstraintBounds`. -/
def setMultibodyConstraintBounds (problem : MucoProblem) (bounds : MucoBounds) :
    Except Exception Unit × MucoProblem :=
  updPhase0 (fun phase0 => (.ok (), phase0.setMultibodyConstraintBounds bounds)) problem

/-- Lines 481-483, `MucoProblem::setMultiplierBounds`. -/
def setMultiplierBounds (problem : MucoProblem) (bounds : MucoBounds) :
    Except Exception Unit × MucoProblem :=
  updPhase0 (fun phase0 => (.ok (), phase0.setMultiplierBounds bounds)) problem

/-- Lines 484-486, `MucoProblem::addParameter`. -/
def addParameter (problem : MucoProblem) (parameter : MucoParameter) :
    Except Exception Unit × MucoProblem :=
  updPhase0 (fun phase0 => phase0.addParameter parameter) problem

/-- Lines 487-489, `MucoProblem::addCost`. -/
def addCost (problem : MucoProblem) (cost : MucoCost) : Except Exception Unit × MucoProblem :=
  updPhase0 (fun phase0 => phase0.addCost cost) problem

/-- Lines 490-492, `MucoProblem::addPathConstraint`. -/
def addPathConstraint (problem : MucoProblem) (constraint : MucoPathConstraint) :
    Except Exception Unit × MucoProblem :=
  updPhase0 (fun phase0 => phase0.addPathConstraint constraint) problem

end MucoProblem


/-! ## MocoAccelerationTrackingGoal

A shallow embedding of `Moco/MocoGoal/MocoAccelerationTrackingGoal.cpp`.  A
frame of the model is identified by the path at which the model finds it. -/

/-- `SimTK::Vec3` with exact components. -/
structure Vec3 where
  x : ℚ
  y : ℚ
  z : ℚ
  deriving DecidableEq, Repr

namespace Vec3

/-- `operator-` of two `Vec3` (line 114). -/
def sub (a b : Vec3) : Vec3 := ⟨a.x - b.x, a.y - b.y, a.z - b.z⟩

/-- `Vec3::normSqr` (line 118): the sum of the squares of the components. -/
def normSqr (a : Vec3) : ℚ := a.x * a.x + a.y * a.y + a.z * a.z

end Vec3

/-- Modelled from the spec: the class `TimeSeriesTableVec3` (declared in the
absent table library): a time-indexed table of named 3-component columns,
as the independent column and the dependent columns, each with its label,
in the order of the table. -/
structure TimeSeriesTableVec3 where
  independentColumn : List ℚ
  columns : List (String × List Vec3)
  deriving DecidableEq, Repr

namespace TimeSeriesTableVec3

/-- The default-constructed table of line 32: no rows and no columns. -/
def empty : TimeSeriesTableVec3 := { independentColumn := [], columns := [] }

/-- The constructor from an independent column (lines 54-55): no dependent
column yet. -/
def ofIndependentColumn (times : List ℚ) : TimeSeriesTableVec3 :=
  { independentColumn := times, columns := [] }

def getNumColumns (t : TimeSeriesTableVec3) : Nat := t.columns.length

def getColumnLabels (t : TimeSeriesTableVec3) : List String := t.columns.map Prod.fst

def getIndependentColumn (t : TimeSeriesTableVec3) : List ℚ := t.independentColumn

/-- Modelled from the spec: `getDependentColumn(label)`, the data of the first
column with the label.  The source calls it on line 68 only for a label that
line 60 has found among the labels; for another label the result here is
the empty column. -/
def getDependentColumn (t : TimeSeriesTableVec3) (label : String) : List Vec3 :=
  match t.columns.find? (fun c => c.1 = label) with
  | some c => c.2
  | none => []

/-- Modelled from the spec: `appendColumn(label, column)` (line 67): the column
becomes the last column of the table. -/
def appendColumn (t : TimeSeriesTableVec3) (label : String) (column : List Vec3) :
    TimeSeriesTableVec3 :=
  { t with columns := t.columns ++ [(label, column)] }

end TimeSeriesTableVec3

/-- One spline of the `GCVSplineSet` of line 91: the interpolant of one scalar
column, kept as the label of the column and the samples it is fitted to.
Its `calcValue` is the interpolation primitive, which the theorems take as a
parameter. -/
structure Spline where
  name : String
  times : List ℚ
  values : List ℚ
  deriving DecidableEq, Repr

/-- Modelled from the spec: `GCVSplineSet(table.flatten(suffixes))` (lines
91-92): the per-frame 3-component signal is flattened into one spline per
scalar component, 3 splines per column in the order of the columns, tagged
by the component suffix. -/
def splinesOfTable (t : TimeSeriesTableVec3) : List Spline :=
  t.columns.flatMap (fun c =>
    [⟨c.1 ++ "/acceleration_x", t.independentColumn, c.2.map Vec3.x⟩,
     ⟨c.1 ++ "/acceleration_y", t.independentColumn, c.2.map Vec3.y⟩,
     ⟨c.1 ++ "/acceleration_z", t.independentColumn, c.2.map Vec3.z⟩])

/-- How a call of `initializeOnModelImpl` can end other than by returning: the
exceptions it throws or lets through, and the abort of a failed `assert`. -/
inductive GoalFailure where
  /-- Lines 59-65: a frame path is not among the labels of the reference. -/
  | framePathNotInLabels (path : String)
  /-- Line 75, thrown by `checkRedundantLabels`: a label appears twice. -/
  | redundantLabels
  /-- Line 81, thrown by `getComponent<Frame>`: the model has no such frame. -/
  | frameNotFound (path : String)
  /-- Line 40, thrown by `readTableFromFileT`. -/
  | readTable (file : String)
  /-- Lines 38 and 43: a failed `assert`, in a build that compiles them in. -/
  | assertion
  deriving DecidableEq, Repr

/-- What `initializeOnModelImpl` takes from outside the goal and the model:
the tables that `readTableFromFileT<Vec3>` reads from the files (line 40),
and whether the build compiles the `assert`s of lines 38 and 43 in. -/
structure GoalEnvironment where
  readTableFromFile : String → Except GoalFailure TimeSeriesTableVec3
  assertionsEnabled : Bool

/-- What `initializeOnModelImpl` reads from the `Model`: the paths at which
`getComponent<Frame>` finds a frame (line 81). -/
structure FrameModel where
  framePaths : List String
  deriving DecidableEq, Repr

/-- What `calcIntegrandImpl` reads from the `SimTK::State`: the time, and for
each frame its linear acceleration in ground once the model is realised to
acceleration (lines 99-100 and 107). -/
structure State where
  time : ℚ
  linearAccelerationInGround : String → Vec3

/-- The class `MocoAccelerationTrackingGoal`: the properties
`acceleration_reference_file`, `frame_paths` and `acceleration_weights` (a
set of named weights), the table `m_acceleration_table`, the mutable members
`m_frame_paths`, `m_model_frames`, `m_acceleration_weights` and
`m_ref_splines`, and the numbers set by `setNumIntegralsAndOutputs`. -/
structure MocoAccelerationTrackingGoal where
  acceleration_reference_file : String
  frame_paths : List String
  acceleration_weights : List (String × ℚ)
  m_acceleration_table : TimeSeriesTableVec3
  m_frame_paths : List String
  m_model_frames : List String
  m_acceleration_weights : List ℚ
  m_ref_splines : List Spline
  numIntegrals : Nat
  numOutputs : Nat
  deriving DecidableEq, Repr

namespace MocoAccelerationTrackingGoal

/-- Modelled from the spec: `checkRedundantLabels` (defined in the absent
`MocoUtilities`), which throws when a label appears more than once. -/
def checkRedundantLabels (labels : List String) : Except GoalFailure Unit :=
  if labels.Nodup then .ok () else .error .redundantLabels

/-- Lines 57-69: for every configured frame path in order, throw when it is not
among the labels of the reference; otherwise push it back on `m_frame_paths`
and append its column to `accelerationTable`. -/
def selectColumns (accelerationTableToUse : TimeSeriesTableVec3) (labels : List String) :
    List String → List String × TimeSeriesTableVec3 →
      Except GoalFailure (List String × TimeSeriesTableVec3)
  | [], result => .ok result
  | path :: rest, (m_frame_paths, accelerationTable) =>
    if path ∉ labels then .error (.framePathNotInLabels path)
    else
      selectColumns accelerationTableToUse labels rest
        (m_frame_paths ++ [path],
          accelerationTable.appendColumn path (accelerationTableToUse.getDependentColumn path))

/-- Lines 84-87: the weight named `path` of the weight set when the set
contains one, 1.0 otherwise. -/
def weightFor (acceleration_weights : List (String × ℚ)) (path : String) : ℚ :=
  match acceleration_weights.find? (fun w => w.1 = path) with
  | some w => w.2
  | none => 1

/-- Lines 79-89: for every path of `m_frame_paths` in order, the frame is looked
up in the model (an exception when it has none) and put at the back of
`m_model_frames`, and its weight is pushed back on
`m_acceleration_weights`. -/
def cacheFrames (model : FrameModel) (acceleration_weights : List (String × ℚ)) :
    List String → List String × List ℚ → Except GoalFailure (List String × List ℚ)
  | [], result => .ok result
  | path :: rest, (m_model_frames, m_acceleration_weights) =>
    if path ∉ model.framePaths then .error (.frameNotFound path)
    else
      let weight := weightFor acceleration_weights path
      cacheFrames model acceleration_weights rest
        (m_model_frames ++ [path], m_acceleration_weights ++ [weight])

/-- Lines 33-72: the reference table is chosen and, depending on `frame_paths`,
`m_frame_paths` and `accelerationTable` are set.  The test of line 50 is
`!getProperty_frame_paths().empty()`. -/
def resolveReference (env : GoalEnvironment) (g : MocoAccelerationTrackingGoal) :
    Except GoalFailure (MocoAccelerationTrackingGoal × TimeSeriesTableVec3) :=
  let accelerationTable := TimeSeriesTableVec3.empty
  if g.m_acceleration_table.getNumColumns ≠ 0 ∨ g.acceleration_reference_file ≠ "" then
    let accelerationTableToUse : Except GoalFailure TimeSeriesTableVec3 :=
      if g.acceleration_reference_file ≠ "" then
        if env.assertionsEnabled = true ∧ ¬ g.m_acceleration_table.getNumColumns = 0 then
          .error .assertion
        else env.readTableFromFile g.acceleration_reference_file
      else
        if env.assertionsEnabled = true ∧ ¬ g.acceleration_reference_file = "" then
          .error .assertion
        else .ok g.m_acceleration_table
    match accelerationTableToUse with
    | .error e => .error e
    | .ok accelerationTableToUse =>
      if ¬ g.frame_paths.isEmpty = true then
        .ok ({ g with m_frame_paths := accelerationTableToUse.getColumnLabels },
          accelerationTableToUse)
      else
        let accelerationTable :=
          TimeSeriesTableVec3.ofIndependentColumn accelerationTableToUse.getIndependentColumn
        let labels := accelerationTableToUse.getColumnLabels
        match selectColumns accelerationTableToUse labels g.frame_paths
            (g.m_frame_paths, accelerationTable) with
        | .error e => .error e
        | .ok (m_frame_paths, accelerationTable) =>
          .ok ({ g with m_frame_paths := m_frame_paths }, accelerationTable)
  else .ok (g, accelerationTable)

/-- Lines 29-95, `MocoAccelerationTrackingGoal::initializeOnModelImpl`: the
reference is resolved, the labels of `accelerationTable` are checked for
redundancy, the frames and weights are cached, the splines are built and
the numbers of integrals and outputs are set to 1.  The result is the goal
as a call that returns leaves it. -/
def initializeOnModelImpl (env : GoalEnvironment) (g : MocoAccelerationTrackingGoal)
    (model : FrameModel) : Except GoalFailure MocoAccelerationTrackingGoal :=
  match resolveReference env g with
  | .error e => .error e
  | .ok (g, accelerationTable) =>
    match checkRedundantLabels accelerationTable.getColumnLabels with
    | .error e => .error e
    | .ok () =>
      match cacheFrames model g.acceleration_weights g.m_frame_paths
          (g.m_model_frames, g.m_acceleration_weights) with
      | .error e => .error e
      | .ok (m_model_frames, m_acceleration_weights) =>
        .ok { g with
          m_model_frames := m_model_frames
          m_acceleration_weights := m_acceleration_weights
          m_ref_splines := splinesOfTable accelerationTable
          numIntegrals := 1
          numOutputs := 1 }

/-- Lines 110-113: the reference acceleration of the frame with index `iframe`,
the values at `time` of the splines `3*iframe`, `3*iframe + 1` and
`3*iframe + 2`; nothing when one of these indices is outside the spline
set, where the source reads out of range. -/
def referenceAcceleration (calcValue : Spline → ℚ → ℚ) (m_ref_splines : List Spline)
    (iframe : Nat) (time : ℚ) : Option Vec3 :=
  match m_ref_splines[3 * iframe + 0]?, m_ref_splines[3 * iframe + 1]?,
      m_ref_splines[3 * iframe + 2]? with
  | some sx, some sy, some sz => some ⟨calcValue sx time, calcValue sy time, calcValue sz time⟩
  | _, _, _ => none

/-- Lines 105-119: the loop over `m_model_frames` from the index `iframe` on,
with the integrand accumulated so far.  Nothing is returned when the loop
reads a spline or a weight outside its container. -/
def integrandLoop (calcValue : Spline → ℚ → ℚ) (g : MocoAccelerationTrackingGoal)
    (state : State) : List String → Nat → ℚ → Option ℚ
  | [], _, integrand => some integrand
  | frame :: rest, iframe, integrand =>
    let acceleration_model := state.linearAccelerationInGround frame
    match referenceAcceleration calcValue g.m_ref_splines iframe state.time,
        g.m_acceleration_weights[iframe]? with
    | some acceleration_ref, some weight =>
      let error := acceleration_model.sub acceleration_ref
      integrandLoop calcValue g state rest (iframe + 1) (integrand + weight * error.normSqr)
    | _, _ => none

/-- Lines 97-120, `MocoAccelerationTrackingGoal::calcIntegrandImpl`: the
integrand starts at 0 and the loop runs over all the cached frames. -/
def calcIntegrandImpl (calcValue : Spline → ℚ → ℚ) (g : MocoAccelerationTrackingGoal)
    (state : State) : Option ℚ :=
  integrandLoop calcValue g state g.m_model_frames 0 0

/-- The weight `w_i` of the frame with index `i` (0 outside the list). -/
def weightAt (g : MocoAccelerationTrackingGoal) (i : Nat) : ℚ :=
  g.m_acceleration_weights.getD i 0

/-- The live linear acceleration in ground `a_i` of the frame with index `i`. -/
def accelerationAt (g : MocoAccelerationTrackingGoal) (state : State) (i : Nat) : Vec3 :=
  match g.m_model_frames[i]? with
  | some frame => state.linearAccelerationInGround frame
  | none => ⟨0, 0, 0⟩

/-- The value `r_k(t)` of the spline with index `k` at the time `t` (0 outside
the spline set). -/
def referenceValue (calcValue : Spline → ℚ → ℚ) (g : MocoAccelerationTrackingGoal) (k : Nat)
    (t : ℚ) : ℚ :=
  match g.m_ref_splines[k]? with
  | some s => calcValue s t
  | none => 0

/-- The weighted squared tracking error of the frame with index `i` at the
state: `w_i * ((a_i.x - r_{3i}(t))^2 + (a_i.y - r_{3i+1}(t))^2 +
(a_i.z - r_{3i+2}(t))^2)`. -/
def weightedSquaredError (calcValue : Spline → ℚ → ℚ) (g : MocoAccelerationTrackingGoal)
    (state : State) (i : Nat) : ℚ :=
  g.weightAt i *
    (((g.accelerationAt state i).x - g.referenceValue calcValue (3 * i) state.time) ^ 2 +
      ((g.accelerationAt state i).y - g.referenceValue calcValue (3 * i + 1) state.time) ^ 2 +
      ((g.accelerationAt state i).z - g.referenceValue calcValue (3 * i + 2) state.time) ^ 2)

end MocoAccelerationTrackingGoal


/-! ### Tracked frames

The caches of an initialised goal, seen frame by frame, to state what it
means to permute frames or to remove one. -/

/-- One tracked frame with what the goal caches for it: the frame, its weight
and its three splines. -/
structure TrackedFrame where
  frame : String
  weight : ℚ
  splineX : Spline
  splineY : Spline
  splineZ : Spline
  deriving DecidableEq, Repr

namespace MocoAccelerationTrackingGoal

/-- The goal whose caches hold the given tracked frames in the given order: the
frames, the weights at the same indices, and the three splines of the frame
with index `i` at the indices `3*i`, `3*i + 1`, `3*i + 2`. -/
def withTrackedFrames (g : MocoAccelerationTrackingGoal) (frames : List TrackedFrame) :
    MocoAccelerationTrackingGoal :=
  { g with
    m_frame_paths := frames.map TrackedFrame.frame
    m_model_frames := frames.map TrackedFrame.frame
    m_acceleration_weights := frames.map TrackedFrame.weight
    m_ref_splines := frames.flatMap (fun f => [f.splineX, f.splineY, f.splineZ]) }

/-- The weighted squared error of one tracked frame at a state: what the frame
contributes to the integrand. -/
def trackedError (calcValue : Spline → ℚ → ℚ) (state : State) (f : TrackedFrame) : ℚ :=
  f.weight *
    (((state.linearAccelerationInGround f.frame).x - calcValue f.splineX state.time) ^ 2 +
      ((state.linearAccelerationInGround f.frame).y - calcValue f.splineY state.time) ^ 2 +
      ((state.linearAccelerationInGround f.frame).z - calcValue f.splineZ state.time) ^ 2)

end MocoAccelerationTrackingGoal


/-! ## Sample data -/

namespace Sample

/-- Hooks whose `initialize` members leave their object as it is and never
throw; the info of the constraint with index `cid` is named
`"constraint" + to_string(cid)`. -/
def hooks : Hooks :=
  { initParameter := fun x _ => .ok x
    initCost := fun x _ => .ok x
    initPathConstraint := fun x _ _ => .ok x
    multibodyConstraintInfoName := fun cid _ _ _ => "constraint" ++ toString cid }

/-- A model with two state variables, one actuator and three constraints, the
second of which is disabled. -/
def model : Model :=
  { stateVariableNames := ["a", "b"]
    actuatorPaths := ["u"]
    constraints := [⟨false, 1, 0, 0⟩, ⟨true, 2, 0, 0⟩, ⟨false, 0, 1, 1⟩] }

/-- A phase that declares the state infos `a` and `b`, the control info `u`, and
a parameter, a cost and a path constraint each named `k`, before any
`initialize`. -/
def phase : MucoPhase :=
  { MucoPhase.constructProperties with
    state_infos := [⟨"a", .ofRange 0 1, .unset, .unset⟩, ⟨"b", .ofRange 0 1, .unset, .unset⟩]
    control_infos := [⟨"u", .ofRange 0 1, .unset, .unset⟩]
    parameters := [⟨"k", "mass"⟩]
    costs := [⟨"k", "effort"⟩]
    path_constraints := [⟨"k", ⟨"k", 2, []⟩, "limit"⟩] }

/-- The sample phase with a state info `c`, which is not a state of the sample
model. -/
def phaseUnknownState : MucoPhase :=
  { phase with
    state_infos := [⟨"a", .ofRange 0 1, .unset, .unset⟩, ⟨"c", .ofRange 0 1, .unset, .unset⟩] }

/-- The sample phase with a control info `w`, which is not an actuator of the
sample model. -/
def phaseUnknownControl : MucoPhase :=
  { phase with
    control_infos := [⟨"u", .ofRange 0 1, .unset, .unset⟩, ⟨"w", .ofRange 0 1, .unset, .unset⟩] }

/-- The sample phase after `initialize` on the sample model. -/
def initialized : MucoPhase :=
  match MucoPhase.initializeOnModel hooks phase model with
  | .ok q => q
  | .error _ => phase

/-- A model with two enabled constraints. -/
def modelA : Model :=
  { stateVariableNames := []
    actuatorPaths := []
    constraints := [⟨false, 1, 0, 0⟩, ⟨false, 0, 1, 0⟩] }

/-- A model with one enabled constraint, of two acceleration-level equations. -/
def modelB : Model :=
  { stateVariableNames := []
    actuatorPaths := []
    constraints := [⟨false, 0, 0, 2⟩] }

/-- A freshly constructed phase after `initialize(modelA)`. -/
def afterA : MucoPhase :=
  match MucoPhase.initializeOnModel hooks MucoPhase.constructProperties modelA with
  | .ok q => q
  | .error _ => MucoPhase.constructProperties

/-- A freshly constructed phase after `initialize(modelA)` followed by
`initialize(modelB)`. -/
def afterAB : MucoPhase :=
  match MucoPhase.initializeOnModel hooks afterA modelB with
  | .ok q => q
  | .error _ => MucoPhase.constructProperties

/-- A freshly constructed phase after `initialize(modelB)` alone. -/
def afterB : MucoPhase :=
  match MucoPhase.initializeOnModel hooks MucoPhase.constructProperties modelB with
  | .ok q => q
  | .error _ => MucoPhase.constructProperties


/-- Hooks like `hooks`, except that the `initialize` of a path constraint stores
the offset it is given as the remaining content of the object. -/
def hooksRecording : Hooks :=
  { hooks with initPathConstraint := fun x _ offset => .ok { x with rest := toString offset } }

/-- A phase with two path constraints, of 2 and 3 equations. -/
def phaseTwoPaths : MucoPhase :=
  { MucoPhase.constructProperties with
    path_constraints := [⟨"k", ⟨"k", 2, []⟩, "limit"⟩, ⟨"m", ⟨"m", 3, []⟩, "other"⟩] }

/-- The phase with two path constraints after `initialize` on the sample
model with the recording hooks. -/
def initializedTwoPaths : MucoPhase :=
  match MucoPhase.initializeOnModel hooksRecording phaseTwoPaths model with
  | .ok q => q
  | .error _ => phaseTwoPaths

/-- An `applyParameterToModel` that always returns. -/
def applyOk : MucoParameter → ℚ → Except Exception Unit :=
  fun _ _ => .ok ()

/-- A phase with the two parameters `k` and `m`. -/
def phaseTwoParameters : MucoPhase :=
  { MucoPhase.constructProperties with parameters := [⟨"k", "mass"⟩, ⟨"m", "length"⟩] }


/-- A `getAsArray` that lists the lower and the upper value of set bounds and
nothing for unset bounds. -/
def getAsArray (b : MucoBounds) : List ℚ :=
  match b with
  | .unset => []
  | .range lower upper => [lower, upper]

/-- A problem whose first phase is the sample phase, followed by a freshly
constructed phase. -/
def problem : MucoProblem :=
  { phases := [phase, MucoPhase.constructProperties] }


/-- A spline evaluation that returns the first sample of the spline at every
time (0 when there is none). -/
def calcValue (s : Spline) (_ : ℚ) : ℚ := s.values.headD 0

/-- A goal as `initializeOnModelImpl` leaves it for the frames `/A`, with weight
2, and `/B`, with weight 1, and a reference that is zero in every
component. -/
def goalReady : MocoAccelerationTrackingGoal :=
  { acceleration_reference_file := ""
    frame_paths := []
    acceleration_weights := [("/A", 2)]
    m_acceleration_table := TimeSeriesTableVec3.empty
    m_frame_paths := ["/A", "/B"]
    m_model_frames := ["/A", "/B"]
    m_acceleration_weights := [2, 1]
    m_ref_splines :=
      [⟨"/A/acceleration_x", [0], [0]⟩, ⟨"/A/acceleration_y", [0], [0]⟩,
       ⟨"/A/acceleration_z", [0], [0]⟩, ⟨"/B/acceleration_x", [0], [0]⟩,
       ⟨"/B/acceleration_y", [0], [0]⟩, ⟨"/B/acceleration_z", [0], [0]⟩]
    numIntegrals := 1
    numOutputs := 1 }

/-- A state at time 0 in which the frame `/A` has the linear acceleration
(1, 0, 0) and every other frame (0, 0, 0). -/
def state : State :=
  { time := 0
    linearAccelerationInGround := fun frame => if frame = "/A" then ⟨1, 0, 0⟩ else ⟨0, 0, 0⟩ }


/-- An environment without reference files, with the `assert`s compiled out. -/
def environment : GoalEnvironment :=
  { readTableFromFile := fun file => .error (.readTable file)
    assertionsEnabled := false }

/-- A reference table with the two columns `/A` and `/B` and two rows. -/
def table : TimeSeriesTableVec3 :=
  { independentColumn := [0, 1]
    columns := [("/A", [⟨0, 0, 0⟩, ⟨1, 0, 0⟩]), ("/B", [⟨0, 0, 0⟩, ⟨0, 2, 0⟩])] }

/-- A model that has the frames `/A` and `/B`. -/
def frameModel : FrameModel := { framePaths := ["/A", "/B"] }

/-- A goal that has not been initialised, configured with the frame path `/A`
alone, the sample table as its in-memory reference and no reference file. -/
def goalOnePath : MocoAccelerationTrackingGoal :=
  { acceleration_reference_file := ""
    frame_paths := ["/A"]
    acceleration_weights := []
    m_acceleration_table := table
    m_frame_paths := []
    m_model_frames := []
    m_acceleration_weights := []
    m_ref_splines := []
    numIntegrals := 0
    numOutputs := 0 }

/-- The goal configured with `/A` after `initializeOnModelImpl` on the sample
frame model. -/
def goalOnePathInitialized : MocoAccelerationTrackingGoal :=
  match MocoAccelerationTrackingGoal.initializeOnModelImpl environment goalOnePath frameModel with
  | .ok g => g
  | .error _ => goalOnePath


/-- The goal like `goalOnePath`, but configured with the frame path `/C`, which
is no column of the sample table. -/
def goalMissingPath : MocoAccelerationTrackingGoal :=
  { goalOnePath with frame_paths := ["/C"] }

/-- The goal like `goalOnePath`, but with no frame path configured. -/
def goalNoPaths : MocoAccelerationTrackingGoal :=
  { goalOnePath with frame_paths := [] }

/-- A reference table in which two columns have the label `/A`. -/
def tableRedundant : TimeSeriesTableVec3 :=
  { independentColumn := [0, 1]
    columns := [("/A", [⟨0, 0, 0⟩, ⟨1, 0, 0⟩]), ("/A", [⟨0, 0, 0⟩, ⟨0, 2, 0⟩])] }

/-- A goal with no frame path configured and the redundant table as its
in-memory reference. -/
def goalRedundantNoPaths : MocoAccelerationTrackingGoal :=
  { goalOnePath with frame_paths := [], m_acceleration_table := tableRedundant }

/-- A goal with the frame path `/A` configured and the redundant table as its
in-memory reference. -/
def goalRedundantOnePath : MocoAccelerationTrackingGoal :=
  { goalOnePath with m_acceleration_table := tableRedundant }

/-- The goal configured with `/A` after two calls of `initializeOnModelImpl` on
the sample frame model. -/
def goalOnePathTwice : MocoAccelerationTrackingGoal :=
  match MocoAccelerationTrackingGoal.initializeOnModelImpl environment goalOnePathInitialized
      frameModel with
  | .ok g => g
  | .error _ => goalOnePath

/-- A reference table with the single column `/B`, as read from a file. -/
def tableOfFile : TimeSeriesTableVec3 :=
  { independentColumn := [0, 1]
    columns := [("/B", [⟨0, 0, 0⟩, ⟨0, 2, 0⟩])] }

/-- An environment in which every reference file holds `tableOfFile`, with the
`assert`s compiled out. -/
def environmentWithFile : GoalEnvironment :=
  { readTableFromFile := fun _ => .ok tableOfFile
    assertionsEnabled := false }

/-- The same environment with the `assert`s compiled in. -/
def environmentWithFileAsserting : GoalEnvironment :=
  { readTableFromFile := fun _ => .ok tableOfFile
    assertionsEnabled := true }

/-- A goal configured with both the sample table in memory and the reference
file `ref.sto`, and with the frame path `/B`. -/
def goalBothSources : MocoAccelerationTrackingGoal :=
  { goalOnePath with acceleration_reference_file := "ref.sto", frame_paths := ["/B"] }


/-- The tracked frame `/A`: weight 2, reference zero. -/
def trackedA : TrackedFrame :=
  ⟨"/A", 2, ⟨"/A/acceleration_x", [0], [0]⟩, ⟨"/A/acceleration_y", [0], [0]⟩,
    ⟨"/A/acceleration_z", [0], [0]⟩⟩

/-- The tracked frame `/B`: weight 1, reference (0, 3, 0). -/
def trackedB : TrackedFrame :=
  ⟨"/B", 1, ⟨"/B/acceleration_x", [0], [0]⟩, ⟨"/B/acceleration_y", [0], [3]⟩,
    ⟨"/B/acceleration_z", [0], [0]⟩⟩

/-- The tracked frame `/C`: weight 0, reference (5, 0, 0). -/
def trackedC : TrackedFrame :=
  ⟨"/C", 0, ⟨"/C/acceleration_x", [0], [5]⟩, ⟨"/C/acceleration_y", [0], [0]⟩,
    ⟨"/C/acceleration_z", [0], [0]⟩⟩


/-- An `applyParameterToModel` that throws for the parameter named `m` and
returns for every other parameter. -/
def applyThrowsOnM : MucoParameter → ℚ → Except Exception Unit :=
  fun parameter _ => if parameter.name = "m" then .error (.external "m") else .ok ()


end Sample

end OpenSim

/-! # Theorems -/

namespace OpenSim

/-! ## Lookup by name -/

theorem findIndexForNameFrom_absent {α : Type} (g : α → String) (name : String) (l : List α)
    (k : Nat) (habs : ∀ x ∈ l, g x ≠ name) : findIndexForNameFrom g name l k = -1 := by
  induction l generalizing k with
  | nil => rfl
  | cons o rest ih =>
    have ho : g o ≠ name := habs o (List.mem_cons_self _ _)
    simp only [findIndexForNameFrom, if_neg ho]
    exact ih (k + 1) (fun x hx => habs x (List.mem_cons_of_mem _ hx))

theorem findIndexForNameFrom_first {α : Type} (g : α → String) (name : String) (l : List α)
    (k i : Nat) (hi : l[i]?.map g = some name)
    (hfirst : ∀ j, j < i → l[j]?.map g ≠ some name) :
    findIndexForNameFrom g name l k = ((k + i : Nat) : Int) := by
  induction l generalizing k i with
  | nil => simp at hi
  | cons o rest ih =>
    cases i with
    | zero =>
      have ho : g o = name := by simpa using hi
      simp [findIndexForNameFrom, ho]
    | succ i =>
      have ho : g o ≠ name := by
        have := hfirst 0 (Nat.succ_pos i)
        simpa using this
      simp only [findIndexForNameFrom, if_neg ho]
      have hi2 : rest[i]?.map g = some name := by simpa using hi
      have hf2 : ∀ j, j < i → rest[j]?.map g ≠ some name := by
        intro j hj
        have := hfirst (j + 1) (Nat.succ_lt_succ hj)
        simpa using this
      rw [ih (k + 1) i hi2 hf2]
      congr 1
      omega

theorem findIndexForNameFrom_cases {α : Type} (g : α → String) (name : String) (l : List α) :
    (∀ x ∈ l, g x ≠ name) ∨
      ∃ i, i < l.length ∧ l[i]?.map g = some name ∧ ∀ j, j < i → l[j]?.map g ≠ some name := by
  induction l with
  | nil => left; simp
  | cons o rest ih =>
    by_cases ho : g o = name
    · right
      exact ⟨0, by simp, by simp [ho], by intro j hj; omega⟩
    · rcases ih with habs | ⟨i, hlt, hi, hfirst⟩
      · left
        intro x hx
        rcases List.mem_cons.mp hx with rfl | hx
        · exact ho
        · exact habs x hx
      · right
        refine ⟨i + 1, by simp [hlt], by simpa using hi, ?_⟩
        intro j hj
        cases j with
        | zero => simpa using ho
        | succ j =>
          have := hfirst j (by omega)
          simpa using this

theorem findIndexForName_eq_neg_one_iff {α : Type} (g : α → String) (l : List α)
    (name : String) : findIndexForName g l name = -1 ↔ ∀ x ∈ l, g x ≠ name := by
  constructor
  · intro h
    rcases findIndexForNameFrom_cases g name l with habs | ⟨i, _, hi, hfirst⟩
    · exact habs
    · have := findIndexForNameFrom_first g name l 0 i hi hfirst
      unfold findIndexForName at h
      rw [h] at this
      omega
  · intro habs
    exact findIndexForNameFrom_absent g name l 0 habs

theorem findIndexForName_of_first {α : Type} (g : α → String) (l : List α) (name : String)
    (i : Nat) (hi : l[i]?.map g = some name)
    (hfirst : ∀ j, j < i → l[j]?.map g ≠ some name) :
    findIndexForName g l name = (i : Int) := by
  have := findIndexForNameFrom_first g name l 0 i hi hfirst
  simpa [findIndexForName] using this

/-- In a list whose names are pairwise different, an index that holds a name is
the first index that holds it. -/
theorem first_of_nodup {α : Type} (g : α → String) (l : List α) (name : String) (i : Nat)
    (hnodup : (l.map g).Nodup) (hi : l[i]?.map g = some name) :
    ∀ j, j < i → l[j]?.map g ≠ some name := by
  intro j hj hjn
  have h1 : (l.map g)[i]? = some name := by simpa using hi
  have h2 : (l.map g)[j]? = some name := by simpa using hjn
  have hil : i < (l.map g).length := by
    by_contra hcon
    rw [List.getElem?_eq_none (by omega)] at h1
    cases h1
  have hjl : j < (l.map g).length := by omega
  have e1 : (l.map g)[i] = name := by
    rw [List.getElem?_eq_getElem hil] at h1
    exact Option.some.inj h1
  have e2 : (l.map g)[j] = name := by
    rw [List.getElem?_eq_getElem hjl] at h2
    exact Option.some.inj h2
  have := (@List.Nodup.getElem_inj_iff _ (l.map g) hnodup i hil j hjl).mp (e1.trans e2.symm)
  omega

/-! ## MucoVariableInfo -/

theorem double_lt_num (x y : ℚ) : (Double.num x < Double.num y) ↔ x < y := Iff.rfl

theorem double_le_num (x y : ℚ) : (Double.num x ≤ Double.num y) ↔ x ≤ y := Iff.rfl

theorem double_not_lt_nan_left (a : Double) : ¬ (Double.nan < a) := by
  cases a <;> exact fun h => h

theorem double_not_lt_nan_right (a : Double) : ¬ (a < Double.nan) := by
  cases a <;> exact fun h => h

/-- What `validate()` accepts: each of the initial and the final bounds is
unset, or the main bounds are unset (every comparison with not-a-number is
false), or it lies within the main bounds. -/
theorem validate_ok_iff (v : MucoVariableInfo) :
    v.validate = .ok () ↔
      (v.initial_bounds.isSet = false ∨ v.bounds.isSet = false ∨
        (v.bounds.getLower ≤ v.initial_bounds.getLower ∧
          v.initial_bounds.getUpper ≤ v.bounds.getUpper)) ∧
      (v.final_bounds.isSet = false ∨ v.bounds.isSet = false ∨
        (v.bounds.getLower ≤ v.final_bounds.getLower ∧
          v.final_bounds.getUpper ≤ v.bounds.getUpper)) := by
  obtain ⟨n, b, ib, fb⟩ := v
  unfold MucoVariableInfo.validate
  simp only [MucoVariableInfo.getBounds, MucoVariableInfo.getInitialBounds,
    MucoVariableInfo.getFinalBounds, MucoVariableInfo.getName, gt_iff_lt]
  cases b with
  | unset =>
    simp [MucoBounds.isSet, MucoBounds.getLower, MucoBounds.getUpper,
      double_not_lt_nan_left, double_not_lt_nan_right]
  | range l u =>
    cases ib with
    | unset =>
      cases fb with
      | unset =>
        simp [MucoBounds.isSet, MucoBounds.getLower, MucoBounds.getUpper,
          double_not_lt_nan_left, double_not_lt_nan_right]
      | range fl fu =>
        simp only [MucoBounds.isSet, MucoBounds.getLower, MucoBounds.getUpper,
          double_lt_num, double_le_num, double_not_lt_nan_left, double_not_lt_nan_right]
        by_cases h1 : fl < l
        · simp [h1, not_le.mpr h1]
        · by_cases h2 : u < fu
          · simp [h1, h2, not_le.mpr h2]
          · simp [h1, h2, not_lt.mp h1, not_lt.mp h2]
    | range il iu =>
      cases fb with
      | unset =>
        simp only [MucoBounds.isSet, MucoBounds.getLower, MucoBounds.getUpper,
          double_lt_num, double_le_num, double_not_lt_nan_left, double_not_lt_nan_right]
        by_cases h1 : il < l
        · simp [h1, not_le.mpr h1]
        · by_cases h2 : u < iu
          · simp [h1, h2, not_le.mpr h2]
          · simp [h1, h2, not_lt.mp h1, not_lt.mp h2]
      | range fl fu =>
        simp only [MucoBounds.isSet, MucoBounds.getLower, MucoBounds.getUpper,
          double_lt_num, double_le_num]
        by_cases h1 : il < l
        · simp [h1, not_le.mpr h1]
        · by_cases h2 : fl < l
          · simp [h1, h2, not_le.mpr h2]
          · by_cases h3 : u < iu
            · simp [h1, h2, h3, not_le.mpr h3]
            · by_cases h4 : u < fu
              · simp [h1, h2, h3, h4, not_le.mpr h4]
              · simp [h1, h2, h3, h4, not_lt.mp h1, not_lt.mp h2, not_lt.mp h3, not_lt.mp h4]

theorem validate_ok_or_error (v : MucoVariableInfo) :
    v.validate = .ok () ∨ ∃ e, v.validate = .error e := by
  cases h : v.validate with
  | ok u => left; rfl
  | error e => right; exact ⟨e, rfl⟩

/-- C1, as stated, fails: for the variable info with unset main bounds and the
set initial bounds [-1, 1], every comparison of `validate()` is against
not-a-number and is false, so `validate()` returns normally, although the
main bounds hold no lower value that is at most -1. -/
theorem C1_validate_unset_main_bounds_counterexample :
    MucoVariableInfo.validate ⟨"x", MucoBounds.unset, MucoBounds.ofRange (-1) 1,
        MucoBounds.unset⟩ = .ok () ∧
    ¬ ((MucoBounds.ofRange (-1) 1).isSet = false ∨
        (MucoBounds.unset.getLower ≤ (MucoBounds.ofRange (-1) 1).getLower ∧
          (MucoBounds.ofRange (-1) 1).getUpper ≤ MucoBounds.unset.getUpper)) := by
  constructor
  · decide
  · decide

/-- C1, as amended.  For every variable info, `validate()` returns normally
exactly when the initial bounds are unset, or the main bounds are unset, or
the initial bounds lie within the main bounds (lower not below the main
lower, upper not above the main upper), and the same holds for the final
bounds; it throws exactly in every other case. -/
theorem C1_validate_succeeds_iff_contained_or_main_unset (v : MucoVariableInfo) :
    (v.validate = .ok () ↔
      (v.initial_bounds.isSet = false ∨ v.bounds.isSet = false ∨
        (v.bounds.getLower ≤ v.initial_bounds.getLower ∧
          v.initial_bounds.getUpper ≤ v.bounds.getUpper)) ∧
      (v.final_bounds.isSet = false ∨ v.bounds.isSet = false ∨
        (v.bounds.getLower ≤ v.final_bounds.getLower ∧
          v.final_bounds.getUpper ≤ v.bounds.getUpper))) ∧
    ((∃ e, v.validate = .error e) ↔
      ¬ ((v.initial_bounds.isSet = false ∨ v.bounds.isSet = false ∨
        (v.bounds.getLower ≤ v.initial_bounds.getLower ∧
          v.initial_bounds.getUpper ≤ v.bounds.getUpper)) ∧
      (v.final_bounds.isSet = false ∨ v.bounds.isSet = false ∨
        (v.bounds.getLower ≤ v.final_bounds.getLower ∧
          v.final_bounds.getUpper ≤ v.bounds.getUpper)))) := by
  refine ⟨validate_ok_iff v, ?_⟩
  rw [← validate_ok_iff v]
  constructor
  · rintro ⟨e, he⟩ hok
    rw [he] at hok
    cases hok
  · intro hne
    rcases validate_ok_or_error v with hok | herr
    · exact absurd hok hne
    · exact herr

theorem new_eq (name : String) (b : MucoBounds) (ib : MucoInitialBounds)
    (fb : MucoFinalBounds) :
    MucoVariableInfo.new name b ib fb =
      match MucoVariableInfo.validate ⟨name, b, ib, fb⟩ with
      | .error e => .error e
      | .ok () => .ok ⟨name, b, ib, fb⟩ := rfl

theorem new_error_iff (name : String) (b : MucoBounds) (ib : MucoInitialBounds)
    (fb : MucoFinalBounds) (e : Exception) :
    MucoVariableInfo.new name b ib fb = .error e ↔
      MucoVariableInfo.validate ⟨name, b, ib, fb⟩ = .error e := by
  rw [new_eq]
  cases h : MucoVariableInfo.validate ⟨name, b, ib, fb⟩ with
  | ok u => simp
  | error e1 => simp

theorem new_ok_iff (name : String) (b : MucoBounds) (ib : MucoInitialBounds)
    (fb : MucoFinalBounds) (v : MucoVariableInfo) :
    MucoVariableInfo.new name b ib fb = .ok v ↔
      (MucoVariableInfo.validate ⟨name, b, ib, fb⟩ = .ok () ∧ v = ⟨name, b, ib, fb⟩) := by
  rw [new_eq]
  cases h : MucoVariableInfo.validate ⟨name, b, ib, fb⟩ with
  | ok u =>
    simp only [Except.ok.injEq, true_and]
    exact eq_comm
  | error e1 => simp

/-- C2.  The four-argument constructor runs `validate()` on the object it is
building: it throws exactly when `validate()` throws on the variable info
with the given name and the three given bounds (and then the same
exception), and when it returns, the object holds exactly the given name and
the three given bounds, on which `validate()` returns normally. -/
theorem C2_constructor_runs_validate (name : String) (b : MucoBounds) (ib : MucoInitialBounds)
    (fb : MucoFinalBounds) :
    ((∃ e, MucoVariableInfo.new name b ib fb = .error e) ↔
      ∃ e, MucoVariableInfo.validate ⟨name, b, ib, fb⟩ = .error e) ∧
    (∀ e, MucoVariableInfo.new name b ib fb = .error e ↔
      MucoVariableInfo.validate ⟨name, b, ib, fb⟩ = .error e) ∧
    (∀ v, MucoVariableInfo.new name b ib fb = .ok v ↔
      (MucoVariableInfo.validate ⟨name, b, ib, fb⟩ = .ok () ∧
        v.name = name ∧ v.bounds = b ∧ v.initial_bounds = ib ∧ v.final_bounds = fb)) := by
  refine ⟨?_, fun e => new_error_iff name b ib fb e, ?_⟩
  · constructor
    · rintro ⟨e, he⟩
      exact ⟨e, (new_error_iff name b ib fb e).mp he⟩
    · rintro ⟨e, he⟩
      exact ⟨e, (new_error_iff name b ib fb e).mpr he⟩
  · intro v
    rw [new_ok_iff]
    constructor
    · rintro ⟨hv, rfl⟩
      exact ⟨hv, rfl, rfl, rfl, rfl⟩
    · rintro ⟨hv, h1, h2, h3, h4⟩
      refine ⟨hv, ?_⟩
      cases v
      simp_all

/-! ## Mutators of MucoPhase -/

theorem setStateInfo_of_new_error (p : MucoPhase) (name : String) (b : MucoBounds)
    (ib : MucoInitialBounds) (fb : MucoFinalBounds) (e : Exception)
    (h : MucoVariableInfo.new name b ib fb = .error e) :
    p.setStateInfo name b ib fb = (.error e, p) := by
  simp [MucoPhase.setStateInfo, h]

theorem setControlInfo_of_new_error (p : MucoPhase) (name : String) (b : MucoBounds)
    (ib : MucoInitialBounds) (fb : MucoFinalBounds) (e : Exception)
    (h : MucoVariableInfo.new name b ib fb = .error e) :
    p.setControlInfo name b ib fb = (.error e, p) := by
  simp [MucoPhase.setControlInfo, h]

theorem setStateInfo_absent (p : MucoPhase) (name : String) (b : MucoBounds)
    (ib : MucoInitialBounds) (fb : MucoFinalBounds) (info : MucoVariableInfo)
    (h : MucoVariableInfo.new name b ib fb = .ok info)
    (habs : ∀ x ∈ p.state_infos, x.getName ≠ name) :
    p.setStateInfo name b ib fb = (.ok (), { p with state_infos := p.state_infos ++ [info] }) := by
  have hidx := (findIndexForName_eq_neg_one_iff MucoVariableInfo.getName p.state_infos name).mpr habs
  simp [MucoPhase.setStateInfo, h, hidx]

theorem setStateInfo_first (p : MucoPhase) (name : String) (b : MucoBounds)
    (ib : MucoInitialBounds) (fb : MucoFinalBounds) (info : MucoVariableInfo)
    (h : MucoVariableInfo.new name b ib fb = .ok info) (i : Nat)
    (hi : p.state_infos[i]?.map MucoVariableInfo.getName = some name)
    (hfirst : ∀ j, j < i → p.state_infos[j]?.map MucoVariableInfo.getName ≠ some name) :
    p.setStateInfo name b ib fb =
      (.ok (), { p with state_infos := p.state_infos.set i info }) := by
  have hidx := findIndexForName_of_first MucoVariableInfo.getName p.state_infos name i hi hfirst
  have hne : ¬ ((i : Int) = -1) := by omega
  simp [MucoPhase.setStateInfo, h, hidx, hne]

theorem setControlInfo_absent (p : MucoPhase) (name : String) (b : MucoBounds)
    (ib : MucoInitialBounds) (fb : MucoFinalBounds) (info : MucoVariableInfo)
    (h : MucoVariableInfo.new name b ib fb = .ok info)
    (habs : ∀ x ∈ p.control_infos, x.getName ≠ name) :
    p.setControlInfo name b ib fb =
      (.ok (), { p with control_infos := p.control_infos ++ [info] }) := by
  have hidx :=
    (findIndexForName_eq_neg_one_iff MucoVariableInfo.getName p.control_infos name).mpr habs
  simp [MucoPhase.setControlInfo, h, hidx]

theorem setControlInfo_first (p : MucoPhase) (name : String) (b : MucoBounds)
    (ib : MucoInitialBounds) (fb : MucoFinalBounds) (info : MucoVariableInfo)
    (h : MucoVariableInfo.new name b ib fb = .ok info) (i : Nat)
    (hi : p.control_infos[i]?.map MucoVariableInfo.getName = some name)
    (hfirst : ∀ j, j < i → p.control_infos[j]?.map MucoVariableInfo.getName ≠ some name) :
    p.setControlInfo name b ib fb =
      (.ok (), { p with control_infos := p.control_infos.set i info }) := by
  have hidx := findIndexForName_of_first MucoVariableInfo.getName p.control_infos name i hi hfirst
  have hne : ¬ ((i : Int) = -1) := by omega
  simp [MucoPhase.setControlInfo, h, hidx, hne]

theorem new_of_validate_ok (name : String) (b : MucoBounds) (ib : MucoInitialBounds)
    (fb : MucoFinalBounds) (h : MucoVariableInfo.validate ⟨name, b, ib, fb⟩ = .ok ()) :
    MucoVariableInfo.new name b ib fb = .ok ⟨name, b, ib, fb⟩ :=
  (new_ok_iff name b ib fb _).mpr ⟨h, rfl⟩

/-- C3.  For a phase and valid arguments (name, bounds, initial, final), with
`info` the variable info they make: when an entry named `name` is at index
`i` of the state infos, whose names are pairwise different, `setStateInfo`
returns normally and the state infos become the old list with the element
at `i` replaced by `info`, the other entries and the order being those of
the old list; when no state info has that name, it returns normally and the
state infos become the old list followed by `info`.  No other member of the
phase changes.  The same holds for `setControlInfo` on the control infos.
Whatever the names are, the entry replaced is the first one named `name`. -/
theorem C3_setInfo_replaces_in_place_or_appends (p : MucoPhase) (name : String)
    (b : MucoBounds) (ib : MucoInitialBounds) (fb : MucoFinalBounds)
    (hvalid : MucoVariableInfo.validate ⟨name, b, ib, fb⟩ = .ok ()) :
    ((∀ i, (p.state_infos.map MucoVariableInfo.getName).Nodup →
        p.state_infos[i]?.map MucoVariableInfo.getName = some name →
        p.setStateInfo name b ib fb =
          (.ok (), { p with state_infos := p.state_infos.set i ⟨name, b, ib, fb⟩ })) ∧
      (∀ i, p.state_infos[i]?.map MucoVariableInfo.getName = some name →
        (∀ j, j < i → p.state_infos[j]?.map MucoVariableInfo.getName ≠ some name) →
        p.setStateInfo name b ib fb =
          (.ok (), { p with state_infos := p.state_infos.set i ⟨name, b, ib, fb⟩ })) ∧
      ((∀ x ∈ p.state_infos, x.getName ≠ name) →
        p.setStateInfo name b ib fb =
          (.ok (), { p with state_infos := p.state_infos ++ [⟨name, b, ib, fb⟩] }))) ∧
    ((∀ i, (p.control_infos.map MucoVariableInfo.getName).Nodup →
        p.control_infos[i]?.map MucoVariableInfo.getName = some name →
        p.setControlInfo name b ib fb =
          (.ok (), { p with control_infos := p.control_infos.set i ⟨name, b, ib, fb⟩ })) ∧
      (∀ i, p.control_infos[i]?.map MucoVariableInfo.getName = some name →
        (∀ j, j < i → p.control_infos[j]?.map MucoVariableInfo.getName ≠ some name) →
        p.setControlInfo name b ib fb =
          (.ok (), { p with control_infos := p.control_infos.set i ⟨name, b, ib, fb⟩ })) ∧
      ((∀ x ∈ p.control_infos, x.getName ≠ name) →
        p.setControlInfo name b ib fb =
          (.ok (), { p with control_infos := p.control_infos ++ [⟨name, b, ib, fb⟩] }))) := by
  have hnew := new_of_validate_ok name b ib fb hvalid
  refine ⟨⟨?_, ?_, ?_⟩, ⟨?_, ?_, ?_⟩⟩
  · intro i hnodup hi
    exact setStateInfo_first p name b ib fb _ hnew i hi
      (first_of_nodup MucoVariableInfo.getName p.state_infos name i hnodup hi)
  · intro i hi hfirst
    exact setStateInfo_first p name b ib fb _ hnew i hi hfirst
  · intro habs
    exact setStateInfo_absent p name b ib fb _ hnew habs
  · intro i hnodup hi
    exact setControlInfo_first p name b ib fb _ hnew i hi
      (first_of_nodup MucoVariableInfo.getName p.control_infos name i hnodup hi)
  · intro i hi hfirst
    exact setControlInfo_first p name b ib fb _ hnew i hi hfirst
  · intro habs
    exact setControlInfo_absent p name b ib fb _ hnew habs

/-- C3, at the sample phase, with the state infos `a`, `b` and the control info
`u`: setting `b` replaces the element at index 1, setting `c` appends, and
likewise for the control infos. -/
theorem C3_setInfo_replaces_in_place_or_appends_witness :
    Sample.phase.setStateInfo "b" (.ofRange 2 5) (.ofRange 3 4) .unset =
        (.ok (), { Sample.phase with state_infos :=
          [⟨"a", .ofRange 0 1, .unset, .unset⟩, ⟨"b", .ofRange 2 5, .ofRange 3 4, .unset⟩] }) ∧
    Sample.phase.setStateInfo "c" (.ofRange 2 5) (.ofRange 3 4) .unset =
        (.ok (), { Sample.phase with state_infos :=
          [⟨"a", .ofRange 0 1, .unset, .unset⟩, ⟨"b", .ofRange 0 1, .unset, .unset⟩,
           ⟨"c", .ofRange 2 5, .ofRange 3 4, .unset⟩] }) ∧
    Sample.phase.setControlInfo "u" (.ofRange 2 5) (.ofRange 3 4) .unset =
        (.ok (), { Sample.phase with control_infos :=
          [⟨"u", .ofRange 2 5, .ofRange 3 4, .unset⟩] }) ∧
    Sample.phase.setControlInfo "c" (.ofRange 2 5) (.ofRange 3 4) .unset =
        (.ok (), { Sample.phase with control_infos :=
          [⟨"u", .ofRange 0 1, .unset, .unset⟩, ⟨"c", .ofRange 2 5, .ofRange 3 4, .unset⟩] }) :=
  ⟨(C3_setInfo_replaces_in_place_or_appends Sample.phase "b" (.ofRange 2 5) (.ofRange 3 4)
      .unset (by decide)).1.1 1 (by decide) (by decide),
   (C3_setInfo_replaces_in_place_or_appends Sample.phase "c" (.ofRange 2 5) (.ofRange 3 4)
      .unset (by decide)).1.2.2 (by decide),
   (C3_setInfo_replaces_in_place_or_appends Sample.phase "u" (.ofRange 2 5) (.ofRange 3 4)
      .unset (by decide)).2.1 0 (by decide) (by decide),
   (C3_setInfo_replaces_in_place_or_appends Sample.phase "c" (.ofRange 2 5) (.ofRange 3 4)
      .unset (by decide)).2.2.2 (by decide)⟩

theorem getStateInfo_of_first (p : MucoPhase) (name : String) (i : Nat)
    (info : MucoVariableInfo) (hi : p.state_infos[i]? = some info)
    (hname : info.getName = name)
    (hfirst : ∀ j, j < i → p.state_infos[j]?.map MucoVariableInfo.getName ≠ some name) :
    p.getStateInfo name = .ok info := by
  have hidx := findIndexForName_of_first MucoVariableInfo.getName p.state_infos name i
    (by simp [hi, hname]) hfirst
  have hne : ¬ ((i : Int) = -1) := by omega
  simp [MucoPhase.getStateInfo, hidx, hne, hi]

/-- After `setStateInfo` with valid arguments, the name is found, the info
found is the new one, and the length grows by one exactly when the name was
absent before. -/
theorem setStateInfo_then_get (p : MucoPhase) (name : String) (b : MucoBounds)
    (ib : MucoInitialBounds) (fb : MucoFinalBounds)
    (hvalid : MucoVariableInfo.validate ⟨name, b, ib, fb⟩ = .ok ()) :
    (p.setStateInfo name b ib fb).1 = .ok () ∧
    (p.setStateInfo name b ib fb).2.getStateInfo name = .ok ⟨name, b, ib, fb⟩ ∧
    ((∃ x ∈ p.state_infos, x.getName = name) →
      (p.setStateInfo name b ib fb).2.state_infos.length = p.state_infos.length) ∧
    (∃ x ∈ (p.setStateInfo name b ib fb).2.state_infos, x.getName = name) := by
  have hnew := new_of_validate_ok name b ib fb hvalid
  rcases findIndexForNameFrom_cases MucoVariableInfo.getName name p.state_infos with
    habs | ⟨i, hlt, hi, hfirst⟩
  · rw [setStateInfo_absent p name b ib fb _ hnew habs]
    refine ⟨rfl, ?_, ?_, ?_⟩
    · apply getStateInfo_of_first _ name p.state_infos.length
      · simp
      · rfl
      · intro j hj
        simp only [List.getElem?_append_left hj]
        intro hcon
        rcases hx : p.state_infos[j]? with _ | x
        · simp [hx] at hcon
        · have hmem : x ∈ p.state_infos := List.getElem?_mem hx
          simp [hx] at hcon
          exact habs x hmem hcon
    · rintro ⟨x, hx, hxn⟩
      exact absurd hxn (habs x hx)
    · exact ⟨⟨name, b, ib, fb⟩, by simp, rfl⟩
  · rw [setStateInfo_first p name b ib fb _ hnew i hi hfirst]
    refine ⟨rfl, ?_, ?_, ?_⟩
    · apply getStateInfo_of_first _ name i
      · simp [List.getElem?_set_self hlt]
      · rfl
      · intro j hj
        have hne : i ≠ j := by omega
        simp only [List.getElem?_set_ne hne]
        exact hfirst j hj
    · intro _
      simp
    · refine ⟨⟨name, b, ib, fb⟩, ?_, rfl⟩
      exact List.getElem?_mem (List.getElem?_set_self hlt)

/-- C4.  Upsert idempotence: for every phase, name and two valid bound triples,
both `setStateInfo` calls return normally, the state infos after the second
call are as many as after the first call alone, and `getStateInfo(name)`
then returns an info with the name and with the bounds, initial bounds and
final bounds of the second triple. -/
theorem C4_setStateInfo_twice (p : MucoPhase) (name : String)
    (b1 : MucoBounds) (ib1 : MucoInitialBounds) (fb1 : MucoFinalBounds)
    (b2 : MucoBounds) (ib2 : MucoInitialBounds) (fb2 : MucoFinalBounds)
    (hvalid1 : MucoVariableInfo.validate ⟨name, b1, ib1, fb1⟩ = .ok ())
    (hvalid2 : MucoVariableInfo.validate ⟨name, b2, ib2, fb2⟩ = .ok ()) :
    (p.setStateInfo name b1 ib1 fb1).1 = .ok () ∧
    ((p.setStateInfo name b1 ib1 fb1).2.setStateInfo name b2 ib2 fb2).1 = .ok () ∧
    ((p.setStateInfo name b1 ib1 fb1).2.setStateInfo name b2 ib2 fb2).2.state_infos.length =
      (p.setStateInfo name b1 ib1 fb1).2.state_infos.length ∧
    ((p.setStateInfo name b1 ib1 fb1).2.setStateInfo name b2 ib2 fb2).2.getStateInfo name =
      .ok ⟨name, b2, ib2, fb2⟩ := by
  have h1 := setStateInfo_then_get p name b1 ib1 fb1 hvalid1
  have h2 := setStateInfo_then_get (p.setStateInfo name b1 ib1 fb1).2 name b2 ib2 fb2 hvalid2
  exact ⟨h1.1, h2.1, h2.2.2.1 h1.2.2.2, h2.2.1⟩

/-- C4, on a freshly constructed phase with the name `x`: one state info after
either call, and the second bounds are the ones retrieved. -/
theorem C4_setStateInfo_twice_witness :
    ((MucoPhase.constructProperties.setStateInfo "x" (.ofRange 0 1) .unset .unset).2.setStateInfo
        "x" (.ofRange 2 5) (.ofRange 3 4) .unset).2.state_infos.length = 1 ∧
    ((MucoPhase.constructProperties.setStateInfo "x" (.ofRange 0 1) .unset .unset).2.setStateInfo
        "x" (.ofRange 2 5) (.ofRange 3 4) .unset).2.getStateInfo "x" =
      .ok ⟨"x", .ofRange 2 5, .ofRange 3 4, .unset⟩ :=
  have h := C4_setStateInfo_twice MucoPhase.constructProperties "x" (.ofRange 0 1) .unset .unset
    (.ofRange 2 5) (.ofRange 3 4) .unset (by decide) (by decide)
  ⟨h.2.2.1.trans (by decide), h.2.2.2⟩

theorem addParameter_cases (p : MucoPhase) (parameter : MucoParameter) :
    (parameter.name = "" ∧ p.addParameter parameter = (.error .emptyName, p)) ∨
    (parameter.name ≠ "" ∧ (∃ y ∈ p.parameters, y.name = parameter.name) ∧
      p.addParameter parameter = (.error (.alreadyExists parameter.name), p)) ∨
    (parameter.name ≠ "" ∧ (∀ y ∈ p.parameters, y.name ≠ parameter.name) ∧
      p.addParameter parameter = (.ok (), { p with parameters := p.parameters ++ [parameter] })) := by
  by_cases hempty : parameter.name = ""
  · left
    exact ⟨hempty, by simp [MucoPhase.addParameter, hempty]⟩
  · right
    by_cases hidx : findIndexForName MucoParameter.name p.parameters parameter.name = -1
    · right
      have habs := (findIndexForName_eq_neg_one_iff MucoParameter.name p.parameters parameter.name).mp hidx
      exact ⟨hempty, habs, by simp [MucoPhase.addParameter, hempty, hidx]⟩
    · left
      have hpres : ∃ y ∈ p.parameters, y.name = parameter.name := by
        by_contra hcon
        push_neg at hcon
        exact hidx ((findIndexForName_eq_neg_one_iff MucoParameter.name p.parameters parameter.name).mpr hcon)
      exact ⟨hempty, hpres, by simp [MucoPhase.addParameter, hempty, hidx]⟩

theorem addParameter_duplicate (p : MucoPhase) (parameter : MucoParameter)
    (hdup : ∃ y ∈ p.parameters, y.name = parameter.name) :
    ∃ e, p.addParameter parameter = (.error e, p) := by
  rcases addParameter_cases p parameter with ⟨_, h⟩ | ⟨_, _, h⟩ | ⟨_, habs, _⟩
  · exact ⟨_, h⟩
  · exact ⟨_, h⟩
  · rcases hdup with ⟨y, hy, hyn⟩
    exact absurd hyn (habs y hy)

theorem addParameter_fails_iff (p : MucoPhase) (parameter : MucoParameter) :
    (∃ e, (p.addParameter parameter).1 = .error e) ↔
      (parameter.name = "" ∨ ∃ y ∈ p.parameters, y.name = parameter.name) := by
  rcases addParameter_cases p parameter with ⟨h0, h⟩ | ⟨_, hdup, h⟩ | ⟨hne, habs, h⟩
  · rw [h]
    exact ⟨fun _ => Or.inl h0, fun _ => ⟨_, rfl⟩⟩
  · rw [h]
    exact ⟨fun _ => Or.inr hdup, fun _ => ⟨_, rfl⟩⟩
  · rw [h]
    constructor
    · rintro ⟨e, he⟩
      cases he
    · rintro (h0 | ⟨y, hy, hyn⟩)
      · exact absurd h0 hne
      · exact absurd hyn (habs y hy)

theorem addParameter_ok_appends (p : MucoPhase) (parameter : MucoParameter)
    (hok : (p.addParameter parameter).1 = .ok ()) :
    (p.addParameter parameter).2 = { p with parameters := p.parameters ++ [parameter] } := by
  rcases addParameter_cases p parameter with ⟨_, h⟩ | ⟨_, _, h⟩ | ⟨_, _, h⟩
  · rw [h] at hok
    cases hok
  · rw [h] at hok
    cases hok
  · rw [h]

theorem addCost_cases (p : MucoPhase) (cost : MucoCost) :
    (cost.name = "" ∧ p.addCost cost = (.error .emptyName, p)) ∨
    (cost.name ≠ "" ∧ (∃ y ∈ p.costs, y.name = cost.name) ∧
      p.addCost cost = (.error (.alreadyExists cost.name), p)) ∨
    (cost.name ≠ "" ∧ (∀ y ∈ p.costs, y.name ≠ cost.name) ∧
      p.addCost cost = (.ok (), { p with costs := p.costs ++ [cost] })) := by
  by_cases hempty : cost.name = ""
  · left
    exact ⟨hempty, by simp [MucoPhase.addCost, hempty]⟩
  · right
    by_cases hidx : findIndexForName MucoCost.name p.costs cost.name = -1
    · right
      have habs := (findIndexForName_eq_neg_one_iff MucoCost.name p.costs cost.name).mp hidx
      exact ⟨hempty, habs, by simp [MucoPhase.addCost, hempty, hidx]⟩
    · left
      have hpres : ∃ y ∈ p.costs, y.name = cost.name := by
        by_contra hcon
        push_neg at hcon
        exact hidx ((findIndexForName_eq_neg_one_iff MucoCost.name p.costs cost.name).mpr hcon)
      exact ⟨hempty, hpres, by simp [MucoPhase.addCost, hempty, hidx]⟩

theorem addCost_duplicate (p : MucoPhase) (cost : MucoCost)
    (hdup : ∃ y ∈ p.costs, y.name = cost.name) :
    ∃ e, p.addCost cost = (.error e, p) := by
  rcases addCost_cases p cost with ⟨_, h⟩ | ⟨_, _, h⟩ | ⟨_, habs, _⟩
  · exact ⟨_, h⟩
  · exact ⟨_, h⟩
  · rcases hdup with ⟨y, hy, hyn⟩
    exact absurd hyn (habs y hy)

theorem addCost_fails_iff (p : MucoPhase) (cost : MucoCost) :
    (∃ e, (p.addCost cost).1 = .error e) ↔
      (cost.name = "" ∨ ∃ y ∈ p.costs, y.name = cost.name) := by
  rcases addCost_cases p cost with ⟨h0, h⟩ | ⟨_, hdup, h⟩ | ⟨hne, habs, h⟩
  · rw [h]
    exact ⟨fun _ => Or.inl h0, fun _ => ⟨_, rfl⟩⟩
  · rw [h]
    exact ⟨fun _ => Or.inr hdup, fun _ => ⟨_, rfl⟩⟩
  · rw [h]
    constructor
    · rintro ⟨e, he⟩
      cases he
    · rintro (h0 | ⟨y, hy, hyn⟩)
      · exact absurd h0 hne
      · exact absurd hyn (habs y hy)

theorem addCost_ok_appends (p : MucoPhase) (cost : MucoCost)
    (hok : (p.addCost cost).1 = .ok ()) :
    (p.addCost cost).2 = { p with costs := p.costs ++ [cost] } := by
  rcases addCost_cases p cost with ⟨_, h⟩ | ⟨_, _, h⟩ | ⟨_, _, h⟩
  · rw [h] at hok
    cases hok
  · rw [h] at hok
    cases hok
  · rw [h]

theorem addPathConstraint_cases (p : MucoPhase) (constraint : MucoPathConstraint) :
    (constraint.name = "" ∧ p.addPathConstraint constraint = (.error .emptyName, p)) ∨
    (constraint.name ≠ "" ∧ (∃ y ∈ p.path_constraints, y.name = constraint.name) ∧
      p.addPathConstraint constraint = (.error (.alreadyExists constraint.name), p)) ∨
    (constraint.name ≠ "" ∧ (∀ y ∈ p.path_constraints, y.name ≠ constraint.name) ∧
      p.addPathConstraint constraint = (.ok (), { p with path_constraints := p.path_constraints ++ [constraint] })) := by
  by_cases hempty : constraint.name = ""
  · left
    exact ⟨hempty, by simp [MucoPhase.addPathConstraint, hempty]⟩
  · right
    by_cases hidx : findIndexForName MucoPathConstraint.name p.path_constraints constraint.name = -1
    · right
      have habs := (findIndexForName_eq_neg_one_iff MucoPathConstraint.name p.path_constraints constraint.name).mp hidx
      exact ⟨hempty, habs, by simp [MucoPhase.addPathConstraint, hempty, hidx]⟩
    · left
      have hpres : ∃ y ∈ p.path_constraints, y.name = constraint.name := by
        by_contra hcon
        push_neg at hcon
        exact hidx ((findIndexForName_eq_neg_one_iff MucoPathConstraint.name p.path_constraints constraint.name).mpr hcon)
      exact ⟨hempty, hpres, by simp [MucoPhase.addPathConstraint, hempty, hidx]⟩

theorem addPathConstraint_duplicate (p : MucoPhase) (constraint : MucoPathConstraint)
    (hdup : ∃ y ∈ p.path_constraints, y.name = constraint.name) :
    ∃ e, p.addPathConstraint constraint = (.error e, p) := by
  rcases addPathConstraint_cases p constraint with ⟨_, h⟩ | ⟨_, _, h⟩ | ⟨_, habs, _⟩
  · exact ⟨_, h⟩
  · exact ⟨_, h⟩
  · rcases hdup with ⟨y, hy, hyn⟩
    exact absurd hyn (habs y hy)

theorem addPathConstraint_fails_iff (p : MucoPhase) (constraint : MucoPathConstraint) :
    (∃ e, (p.addPathConstraint constraint).1 = .error e) ↔
      (constraint.name = "" ∨ ∃ y ∈ p.path_constraints, y.name = constraint.name) := by
  rcases addPathConstraint_cases p constraint with ⟨h0, h⟩ | ⟨_, hdup, h⟩ | ⟨hne, habs, h⟩
  · rw [h]
    exact ⟨fun _ => Or.inl h0, fun _ => ⟨_, rfl⟩⟩
  · rw [h]
    exact ⟨fun _ => Or.inr hdup, fun _ => ⟨_, rfl⟩⟩
  · rw [h]
    constructor
    · rintro ⟨e, he⟩
      cases he
    · rintro (h0 | ⟨y, hy, hyn⟩)
      · exact absurd h0 hne
      · exact absurd hyn (habs y hy)

theorem addPathConstraint_ok_appends (p : MucoPhase) (constraint : MucoPathConstraint)
    (hok : (p.addPathConstraint constraint).1 = .ok ()) :
    (p.addPathConstraint constraint).2 = { p with path_constraints := p.path_constraints ++ [constraint] } := by
  rcases addPathConstraint_cases p constraint with ⟨_, h⟩ | ⟨_, _, h⟩ | ⟨_, _, h⟩
  · rw [h] at hok
    cases hok
  · rw [h] at hok
    cases hok
  · rw [h]

/-- C5.  Duplicate rejection: for `addParameter`, `addCost` and
`addPathConstraint`, when the collection already holds an entry with the
name of the argument, the call throws and leaves the phase, and so the
collection with its length and contents, as it was before the call. -/
theorem C5_duplicate_rejection (p : MucoPhase) (parameter : MucoParameter) (cost : MucoCost)
    (constraint : MucoPathConstraint) :
    ((∃ y ∈ p.parameters, y.name = parameter.name) →
      ∃ e, p.addParameter parameter = (.error e, p)) ∧
    ((∃ y ∈ p.costs, y.name = cost.name) →
      ∃ e, p.addCost cost = (.error e, p)) ∧
    ((∃ y ∈ p.path_constraints, y.name = constraint.name) →
      ∃ e, p.addPathConstraint constraint = (.error e, p)) :=
  ⟨addParameter_duplicate p parameter, addCost_duplicate p cost,
    addPathConstraint_duplicate p constraint⟩

/-- C5, at the sample phase, which holds a parameter, a cost and a path
constraint each named `k`: adding another object named `k` throws and
changes nothing. -/
theorem C5_duplicate_rejection_witness :
    (∃ e, Sample.phase.addParameter ⟨"k", "length"⟩ = (.error e, Sample.phase)) ∧
    (∃ e, Sample.phase.addCost ⟨"k", "tracking"⟩ = (.error e, Sample.phase)) ∧
    (∃ e, Sample.phase.addPathConstraint ⟨"k", ⟨"k", 1, []⟩, "other"⟩ =
      (.error e, Sample.phase)) :=
  have h := C5_duplicate_rejection Sample.phase
    ⟨"k", "length"⟩ ⟨"k", "tracking"⟩ ⟨"k", ⟨"k", 1, []⟩, "other"⟩
  ⟨h.1 ⟨_, List.mem_singleton.mpr rfl, rfl⟩, h.2.1 ⟨_, List.mem_singleton.mpr rfl, rfl⟩,
    h.2.2 ⟨_, List.mem_singleton.mpr rfl, rfl⟩⟩

/-- C6.  For `addParameter`, `addCost` and `addPathConstraint`: the call throws
if and only if the name of the argument is empty or an entry with the same
name is already in the collection; when it returns normally, the phase
differs only in the collection, which is the old one followed by the
argument. -/
theorem C6_add_fails_iff_else_appends (p : MucoPhase) (parameter : MucoParameter)
    (cost : MucoCost) (constraint : MucoPathConstraint) :
    (((∃ e, (p.addParameter parameter).1 = .error e) ↔
        (parameter.name = "" ∨ ∃ y ∈ p.parameters, y.name = parameter.name)) ∧
      ((p.addParameter parameter).1 = .ok () →
        (p.addParameter parameter).2 = { p with parameters := p.parameters ++ [parameter] })) ∧
    (((∃ e, (p.addCost cost).1 = .error e) ↔
        (cost.name = "" ∨ ∃ y ∈ p.costs, y.name = cost.name)) ∧
      ((p.addCost cost).1 = .ok () →
        (p.addCost cost).2 = { p with costs := p.costs ++ [cost] })) ∧
    (((∃ e, (p.addPathConstraint constraint).1 = .error e) ↔
        (constraint.name = "" ∨ ∃ y ∈ p.path_constraints, y.name = constraint.name)) ∧
      ((p.addPathConstraint constraint).1 = .ok () →
        (p.addPathConstraint constraint).2 =
          { p with path_constraints := p.path_constraints ++ [constraint] })) :=
  ⟨⟨addParameter_fails_iff p parameter, addParameter_ok_appends p parameter⟩,
    ⟨addCost_fails_iff p cost, addCost_ok_appends p cost⟩,
    ⟨addPathConstraint_fails_iff p constraint, addPathConstraint_ok_appends p constraint⟩⟩

/-- C6, at the sample phase, which holds a parameter, a cost and a path
constraint named `k`: adding objects named `m` returns normally and appends
them. -/
theorem C6_add_fails_iff_else_appends_witness :
    (Sample.phase.addParameter ⟨"m", "length"⟩).2.parameters =
      [⟨"k", "mass"⟩, ⟨"m", "length"⟩] ∧
    (Sample.phase.addCost ⟨"m", "tracking"⟩).2.costs =
      [⟨"k", "effort"⟩, ⟨"m", "tracking"⟩] ∧
    (Sample.phase.addPathConstraint ⟨"m", ⟨"m", 1, []⟩, "other"⟩).2.path_constraints =
      [⟨"k", ⟨"k", 2, []⟩, "limit"⟩, ⟨"m", ⟨"m", 1, []⟩, "other"⟩] :=
  have h := C6_add_fails_iff_else_appends Sample.phase
    ⟨"m", "length"⟩ ⟨"m", "tracking"⟩ ⟨"m", ⟨"m", 1, []⟩, "other"⟩
  ⟨congrArg MucoPhase.parameters (h.1.2 (by decide)),
    congrArg MucoPhase.costs (h.2.1.2 (by decide)),
    congrArg MucoPhase.path_constraints (h.2.2.2 (by decide))⟩

/-! ## Uniqueness of names -/

theorem map_set_same_name {α : Type} (g : α → String) (l : List α) (i : Nat) (x : α)
    (hi : l[i]?.map g = some (g x)) : (l.set i x).map g = l.map g := by
  apply List.ext_getElem?
  intro j
  rw [List.map_set, List.getElem?_set]
  by_cases hij : i = j
  · subst hij
    have h1 : (l.map g)[i]? = some (g x) := by simpa using hi
    by_cases hlt : i < (l.map g).length
    · have hlt2 : i < l.length := by simpa using hlt
      simp [hlt2, h1]
    · have hnone : (l.map g)[i]? = none := List.getElem?_eq_none (by omega)
      rw [hnone] at h1
      cases h1
  · simp [hij]

theorem nodup_append_singleton {α : Type} (g : α → String) (l : List α) (x : α)
    (hnodup : (l.map g).Nodup) (habs : ∀ y ∈ l, g y ≠ g x) : ((l ++ [x]).map g).Nodup := by
  rw [List.map_append, List.nodup_append]
  refine ⟨hnodup, by simp, ?_⟩
  intro s hs1 hs2
  rcases List.mem_map.mp hs1 with ⟨y, hy, rfl⟩
  have : g y = g x := by simpa using hs2
  exact habs y hy this

theorem setStateInfo_names (p : MucoPhase) (name : String) (b : MucoBounds)
    (ib : MucoInitialBounds) (fb : MucoFinalBounds) :
    ((p.setStateInfo name b ib fb).2 = p ∨
      ∃ l, (p.setStateInfo name b ib fb).2 = { p with state_infos := l } ∧
        ((l.map MucoVariableInfo.getName = p.state_infos.map MucoVariableInfo.getName) ∨
          ((∀ y ∈ p.state_infos, y.getName ≠ name) ∧
            l = p.state_infos ++ [⟨name, b, ib, fb⟩]))) := by
  cases hnew : MucoVariableInfo.new name b ib fb with
  | error e =>
    left
    rw [setStateInfo_of_new_error p name b ib fb e hnew]
  | ok info =>
    right
    have hinfo : info = ⟨name, b, ib, fb⟩ := ((new_ok_iff name b ib fb info).mp hnew).2
    subst hinfo
    rcases findIndexForNameFrom_cases MucoVariableInfo.getName name p.state_infos with
      habs | ⟨i, _, hi, hfirst⟩
    · rw [setStateInfo_absent p name b ib fb _ hnew habs]
      exact ⟨_, rfl, Or.inr ⟨habs, rfl⟩⟩
    · rw [setStateInfo_first p name b ib fb _ hnew i hi hfirst]
      exact ⟨_, rfl, Or.inl (map_set_same_name _ _ i _ hi)⟩

theorem setControlInfo_names (p : MucoPhase) (name : String) (b : MucoBounds)
    (ib : MucoInitialBounds) (fb : MucoFinalBounds) :
    ((p.setControlInfo name b ib fb).2 = p ∨
      ∃ l, (p.setControlInfo name b ib fb).2 = { p with control_infos := l } ∧
        ((l.map MucoVariableInfo.getName = p.control_infos.map MucoVariableInfo.getName) ∨
          ((∀ y ∈ p.control_infos, y.getName ≠ name) ∧
            l = p.control_infos ++ [⟨name, b, ib, fb⟩]))) := by
  cases hnew : MucoVariableInfo.new name b ib fb with
  | error e =>
    left
    rw [setControlInfo_of_new_error p name b ib fb e hnew]
  | ok info =>
    right
    have hinfo : info = ⟨name, b, ib, fb⟩ := ((new_ok_iff name b ib fb info).mp hnew).2
    subst hinfo
    rcases findIndexForNameFrom_cases MucoVariableInfo.getName name p.control_infos with
      habs | ⟨i, _, hi, hfirst⟩
    · rw [setControlInfo_absent p name b ib fb _ hnew habs]
      exact ⟨_, rfl, Or.inr ⟨habs, rfl⟩⟩
    · rw [setControlInfo_first p name b ib fb _ hnew i hi hfirst]
      exact ⟨_, rfl, Or.inl (map_set_same_name _ _ i _ hi)⟩

theorem namesUnique_run (c : MucoPhase.Call) (p : MucoPhase) (hp : p.namesUnique) :
    (c.run p).2.namesUnique := by
  obtain ⟨hs, hc, hpar, hcost, hpc⟩ := hp
  cases c with
  | setStateInfo name b ib fb =>
    rcases setStateInfo_names p name b ib fb with h | ⟨l, h, hl⟩
    · simp only [MucoPhase.Call.run, h]
      exact ⟨hs, hc, hpar, hcost, hpc⟩
    · simp only [MucoPhase.Call.run, h]
      refine ⟨?_, hc, hpar, hcost, hpc⟩
      rcases hl with hsame | ⟨habs, rfl⟩
      · show (l.map MucoVariableInfo.getName).Nodup
        rw [hsame]
        exact hs
      · exact nodup_append_singleton MucoVariableInfo.getName p.state_infos _ hs habs
  | setControlInfo name b ib fb =>
    rcases setControlInfo_names p name b ib fb with h | ⟨l, h, hl⟩
    · simp only [MucoPhase.Call.run, h]
      exact ⟨hs, hc, hpar, hcost, hpc⟩
    · simp only [MucoPhase.Call.run, h]
      refine ⟨hs, ?_, hpar, hcost, hpc⟩
      rcases hl with hsame | ⟨habs, rfl⟩
      · show (l.map MucoVariableInfo.getName).Nodup
        rw [hsame]
        exact hc
      · exact nodup_append_singleton MucoVariableInfo.getName p.control_infos _ hc habs
  | addParameter x =>
    rcases addParameter_cases p x with ⟨_, h⟩ | ⟨_, _, h⟩ | ⟨_, habs, h⟩
    · simp only [MucoPhase.Call.run, h]
      exact ⟨hs, hc, hpar, hcost, hpc⟩
    · simp only [MucoPhase.Call.run, h]
      exact ⟨hs, hc, hpar, hcost, hpc⟩
    · simp only [MucoPhase.Call.run, h]
      exact ⟨hs, hc, nodup_append_singleton MucoParameter.name p.parameters x hpar habs,
        hcost, hpc⟩
  | addCost x =>
    rcases addCost_cases p x with ⟨_, h⟩ | ⟨_, _, h⟩ | ⟨_, habs, h⟩
    · simp only [MucoPhase.Call.run, h]
      exact ⟨hs, hc, hpar, hcost, hpc⟩
    · simp only [MucoPhase.Call.run, h]
      exact ⟨hs, hc, hpar, hcost, hpc⟩
    · simp only [MucoPhase.Call.run, h]
      exact ⟨hs, hc, hpar, nodup_append_singleton MucoCost.name p.costs x hcost habs, hpc⟩
  | addPathConstraint x =>
    rcases addPathConstraint_cases p x with ⟨_, h⟩ | ⟨_, _, h⟩ | ⟨_, habs, h⟩
    · simp only [MucoPhase.Call.run, h]
      exact ⟨hs, hc, hpar, hcost, hpc⟩
    · simp only [MucoPhase.Call.run, h]
      exact ⟨hs, hc, hpar, hcost, hpc⟩
    · simp only [MucoPhase.Call.run, h]
      exact ⟨hs, hc, hpar, hcost,
        nodup_append_singleton MucoPathConstraint.name p.path_constraints x hpc habs⟩

theorem namesUnique_runCalls (calls : List MucoPhase.Call) (p : MucoPhase)
    (hp : p.namesUnique) : (MucoPhase.runCalls calls p).namesUnique := by
  induction calls generalizing p with
  | nil => exact hp
  | cons c rest ih => exact ih _ (namesUnique_run c p hp)

/-- C7.  Name uniqueness is an invariant of the phase: after any finite sequence
of `setStateInfo`, `setControlInfo`, `addParameter`, `addCost` and
`addPathConstraint` calls on a freshly constructed phase, calls that throw
included, no two state infos share a name, and likewise for the control
infos, the parameters, the costs and the path constraints. -/
theorem C7_names_unique_invariant (calls : List MucoPhase.Call) :
    (((MucoPhase.runCalls calls MucoPhase.constructProperties).state_infos.map
        MucoVariableInfo.getName).Nodup) ∧
    (((MucoPhase.runCalls calls MucoPhase.constructProperties).control_infos.map
        MucoVariableInfo.getName).Nodup) ∧
    (((MucoPhase.runCalls calls MucoPhase.constructProperties).parameters.map
        MucoParameter.name).Nodup) ∧
    (((MucoPhase.runCalls calls MucoPhase.constructProperties).costs.map
        MucoCost.name).Nodup) ∧
    (((MucoPhase.runCalls calls MucoPhase.constructProperties).path_constraints.map
        MucoPathConstraint.name).Nodup) :=
  namesUnique_runCalls calls MucoPhase.constructProperties (by decide)

/-! ## MucoPhase::initialize: the name checks -/

theorem arrayFindIndex_eq_neg_one_iff (a : List String) (value : String) :
    arrayFindIndex a value = -1 ↔ value ∉ a := by
  unfold arrayFindIndex
  rw [findIndexForName_eq_neg_one_iff]
  constructor
  · intro h hmem
    exact h value hmem rfl
  · intro h x hx hxv
    exact h (hxv ▸ hx)

theorem checkStateInfos_ok_iff (stateNames : List String) (infos : List MucoVariableInfo) :
    MucoPhase.checkStateInfos stateNames infos = .ok () ↔
      ∀ info ∈ infos, info.getName ∈ stateNames := by
  induction infos with
  | nil => simp [MucoPhase.checkStateInfos]
  | cons info rest ih =>
    by_cases hmem : info.getName ∈ stateNames
    · have hidx : ¬ arrayFindIndex stateNames info.getName = -1 := by
        rw [arrayFindIndex_eq_neg_one_iff]
        exact not_not.mpr hmem
      simp [MucoPhase.checkStateInfos, hidx, ih, hmem]
    · have hidx : arrayFindIndex stateNames info.getName = -1 :=
        (arrayFindIndex_eq_neg_one_iff _ _).mpr hmem
      simp [MucoPhase.checkStateInfos, hidx, hmem]

theorem checkStateInfos_error (stateNames : List String) (infos : List MucoVariableInfo)
    (hmissing : ∃ info ∈ infos, info.getName ∉ stateNames) :
    ∃ info ∈ infos, info.getName ∉ stateNames ∧
      MucoPhase.checkStateInfos stateNames infos = .error (.nonexistentState info.getName) := by
  induction infos with
  | nil =>
    rcases hmissing with ⟨info, hinfo, _⟩
    cases hinfo
  | cons info rest ih =>
    by_cases hmem : info.getName ∈ stateNames
    · have hidx : ¬ arrayFindIndex stateNames info.getName = -1 := by
        rw [arrayFindIndex_eq_neg_one_iff]
        exact not_not.mpr hmem
      have hrest : ∃ x ∈ rest, x.getName ∉ stateNames := by
        rcases hmissing with ⟨x, hx, hxn⟩
        rcases List.mem_cons.mp hx with rfl | hx
        · exact absurd hmem hxn
        · exact ⟨x, hx, hxn⟩
      rcases ih hrest with ⟨x, hx, hxn, herr⟩
      exact ⟨x, List.mem_cons_of_mem _ hx, hxn, by simp [MucoPhase.checkStateInfos, hidx, herr]⟩
    · have hidx : arrayFindIndex stateNames info.getName = -1 :=
        (arrayFindIndex_eq_neg_one_iff _ _).mpr hmem
      exact ⟨info, List.mem_cons_self _ _, hmem, by simp [MucoPhase.checkStateInfos, hidx]⟩

theorem checkControlInfos_ok_iff (actuNames : List String) (infos : List MucoVariableInfo) :
    MucoPhase.checkControlInfos actuNames infos = .ok () ↔
      ∀ info ∈ infos, info.getName ∈ actuNames := by
  induction infos with
  | nil => simp [MucoPhase.checkControlInfos]
  | cons info rest ih =>
    by_cases hmem : info.getName ∈ actuNames
    · have hidx : ¬ arrayFindIndex actuNames info.getName = -1 := by
        rw [arrayFindIndex_eq_neg_one_iff]
        exact not_not.mpr hmem
      simp [MucoPhase.checkControlInfos, hidx, ih, hmem]
    · have hidx : arrayFindIndex actuNames info.getName = -1 :=
        (arrayFindIndex_eq_neg_one_iff _ _).mpr hmem
      simp [MucoPhase.checkControlInfos, hidx, hmem]

theorem checkControlInfos_error (actuNames : List String) (infos : List MucoVariableInfo)
    (hmissing : ∃ info ∈ infos, info.getName ∉ actuNames) :
    ∃ info ∈ infos, info.getName ∉ actuNames ∧
      MucoPhase.checkControlInfos actuNames infos =
        .error (.nonexistentActuator info.getName) := by
  induction infos with
  | nil =>
    rcases hmissing with ⟨info, hinfo, _⟩
    cases hinfo
  | cons info rest ih =>
    by_cases hmem : info.getName ∈ actuNames
    · have hidx : ¬ arrayFindIndex actuNames info.getName = -1 := by
        rw [arrayFindIndex_eq_neg_one_iff]
        exact not_not.mpr hmem
      have hrest : ∃ x ∈ rest, x.getName ∉ actuNames := by
        rcases hmissing with ⟨x, hx, hxn⟩
        rcases List.mem_cons.mp hx with rfl | hx
        · exact absurd hmem hxn
        · exact ⟨x, hx, hxn⟩
      rcases ih hrest with ⟨x, hx, hxn, herr⟩
      exact ⟨x, List.mem_cons_of_mem _ hx, hxn,
        by simp [MucoPhase.checkControlInfos, hidx, herr]⟩
    · have hidx : arrayFindIndex actuNames info.getName = -1 :=
        (arrayFindIndex_eq_neg_one_iff _ _).mpr hmem
      exact ⟨info, List.mem_cons_self _ _, hmem, by simp [MucoPhase.checkControlInfos, hidx]⟩

theorem initializeOnModel_of_state_error (h : Hooks) (p : MucoPhase) (model : Model)
    (e : Exception)
    (herr : MucoPhase.checkStateInfos model.stateVariableNames p.state_infos = .error e) :
    MucoPhase.initializeOnModel h p model = .error e := by
  simp [MucoPhase.initializeOnModel, herr]

theorem initializeOnModel_of_control_error (h : Hooks) (p : MucoPhase) (model : Model)
    (e : Exception)
    (hstate : MucoPhase.checkStateInfos model.stateVariableNames p.state_infos = .ok ())
    (herr : MucoPhase.checkControlInfos model.actuatorPaths p.control_infos = .error e) :
    MucoPhase.initializeOnModel h p model = .error e := by
  simp [MucoPhase.initializeOnModel, hstate, herr]

/-- C8.  When some declared state info has a name that is not among the
state-variable names of the model, `initialize(model)` throws, and the
exception names such a state; conversely, when every declared state-info
name is among the state-variable names of the model, the state-name check
(lines 344-348) does not throw. -/
theorem C8_initialize_unknown_state (h : Hooks) (p : MucoPhase) (model : Model) :
    ((∃ info ∈ p.state_infos, info.getName ∉ model.stateVariableNames) →
      ∃ info ∈ p.state_infos, info.getName ∉ model.stateVariableNames ∧
        MucoPhase.initializeOnModel h p model = .error (.nonexistentState info.getName)) ∧
    ((∀ info ∈ p.state_infos, info.getName ∈ model.stateVariableNames) →
      MucoPhase.checkStateInfos model.stateVariableNames p.state_infos = .ok ()) := by
  constructor
  · intro hmissing
    rcases checkStateInfos_error model.stateVariableNames p.state_infos hmissing with
      ⟨info, hinfo, hnot, herr⟩
    exact ⟨info, hinfo, hnot, initializeOnModel_of_state_error h p model _ herr⟩
  · exact (checkStateInfos_ok_iff _ _).mpr

/-- C8, on the sample model: the phase that declares the state `c` makes
`initialize` throw naming a state the model lacks, and the state-name check
of the sample phase does not throw. -/
theorem C8_initialize_unknown_state_witness :
    (∃ info ∈ Sample.phaseUnknownState.state_infos,
      info.getName ∉ Sample.model.stateVariableNames ∧
      MucoPhase.initializeOnModel Sample.hooks Sample.phaseUnknownState Sample.model =
        .error (.nonexistentState info.getName)) ∧
    MucoPhase.checkStateInfos Sample.model.stateVariableNames Sample.phase.state_infos =
      .ok () :=
  ⟨(C8_initialize_unknown_state Sample.hooks Sample.phaseUnknownState Sample.model).1
      ⟨⟨"c", .ofRange 0 1, .unset, .unset⟩, by decide, by decide⟩,
    (C8_initialize_unknown_state Sample.hooks Sample.phase Sample.model).2 (by decide)⟩

/-- C9.  When the state-name check passes and some declared control info has a
name that is not the path, relative to the model, of any actuator of the
model, `initialize(model)` throws, and the exception names such a control;
when every declared control-info name is such a path, the control-name check
(lines 357-362) does not throw. -/
theorem C9_initialize_unknown_control (h : Hooks) (p : MucoPhase) (model : Model) :
    (MucoPhase.checkStateInfos model.stateVariableNames p.state_infos = .ok () →
      (∃ info ∈ p.control_infos, info.getName ∉ model.actuatorPaths) →
      ∃ info ∈ p.control_infos, info.getName ∉ model.actuatorPaths ∧
        MucoPhase.initializeOnModel h p model = .error (.nonexistentActuator info.getName)) ∧
    ((∀ info ∈ p.control_infos, info.getName ∈ model.actuatorPaths) →
      MucoPhase.checkControlInfos model.actuatorPaths p.control_infos = .ok ()) := by
  constructor
  · intro hstate hmissing
    rcases checkControlInfos_error model.actuatorPaths p.control_infos hmissing with
      ⟨info, hinfo, hnot, herr⟩
    exact ⟨info, hinfo, hnot, initializeOnModel_of_control_error h p model _ hstate herr⟩
  · exact (checkControlInfos_ok_iff _ _).mpr

/-- C9, on the sample model: the phase that declares the control `w` passes
the state-name check and makes `initialize` throw naming a control that is
no actuator path, and the control-name check of the sample phase does not
throw. -/
theorem C9_initialize_unknown_control_witness :
    (∃ info ∈ Sample.phaseUnknownControl.control_infos,
      info.getName ∉ Sample.model.actuatorPaths ∧
      MucoPhase.initializeOnModel Sample.hooks Sample.phaseUnknownControl Sample.model =
        .error (.nonexistentActuator info.getName)) ∧
    MucoPhase.checkControlInfos Sample.model.actuatorPaths Sample.phase.control_infos =
      .ok () :=
  ⟨(C9_initialize_unknown_control Sample.hooks Sample.phaseUnknownControl Sample.model).1
      (by decide) ⟨⟨"w", .ofRange 0 1, .unset, .unset⟩, by decide, by decide⟩,
    (C9_initialize_unknown_control Sample.hooks Sample.phase Sample.model).2 (by decide)⟩

/-! ## MucoPhase::initialize: multibody constraints and multipliers -/

theorem validate_multiplier (name : String) (multBounds : MucoBounds) :
    MucoVariableInfo.validate
      ⟨name, multBounds, MucoBounds.ofDoubles multBounds.getLower multBounds.getUpper,
        MucoBounds.ofDoubles multBounds.getLower multBounds.getUpper⟩ = .ok () := by
  rw [validate_ok_iff]
  cases multBounds with
  | unset => simp [MucoBounds.isSet]
  | range l u =>
    simp [MucoBounds.ofDoubles, MucoBounds.getLower, MucoBounds.getUpper, double_le_num]

theorem pushMultiplierInfos_ok (cid : Nat) (kind : String) (multBounds : MucoBounds)
    (indices : List Nat) (multInfos : List MucoVariableInfo) :
    MucoPhase.pushMultiplierInfos cid kind multBounds
        (MucoBounds.ofDoubles multBounds.getLower multBounds.getUpper)
        (MucoBounds.ofDoubles multBounds.getLower multBounds.getUpper) indices multInfos =
      .ok (multInfos ++ indices.map (fun i =>
        ⟨"lambda_cid" ++ toString cid ++ kind ++ toString i, multBounds,
          MucoBounds.ofDoubles multBounds.getLower multBounds.getUpper,
          MucoBounds.ofDoubles multBounds.getLower multBounds.getUpper⟩)) := by
  induction indices generalizing multInfos with
  | nil => simp [MucoPhase.pushMultiplierInfos]
  | cons i rest ih =>
    have hnew := new_of_validate_ok ("lambda_cid" ++ toString cid ++ kind ++ toString i)
      multBounds (MucoBounds.ofDoubles multBounds.getLower multBounds.getUpper)
      (MucoBounds.ofDoubles multBounds.getLower multBounds.getUpper)
      (validate_multiplier _ multBounds)
    simp only [MucoPhase.pushMultiplierInfos, hnew, ih]
    simp

theorem createMultiplierInfos_ok (cid mp mv ma : Nat) (multBounds : MucoBounds) :
    ∃ multInfos, MucoPhase.createMultiplierInfos cid mp mv ma multBounds
        (MucoBounds.ofDoubles multBounds.getLower multBounds.getUpper)
        (MucoBounds.ofDoubles multBounds.getLower multBounds.getUpper) = .ok multInfos := by
  simp only [MucoPhase.createMultiplierInfos, pushMultiplierInfos_ok]
  exact ⟨_, rfl⟩

/-- The loop over the constraints never throws and extends
`m_multibody_constraints` by the constraints built for the enabled
constraints, in the order of their indices; the declared bounds are left as
they were. -/
theorem discoverMultibodyConstraints_ok (h : Hooks) (mcBounds multBounds : MucoBounds)
    (cs : List SimConstraint) (cid : Nat) (p : MucoPhase) :
    ∃ q, MucoPhase.discoverMultibodyConstraints h mcBounds multBounds
        (MucoBounds.ofDoubles multBounds.getLower multBounds.getUpper)
        (MucoBounds.ofDoubles multBounds.getLower multBounds.getUpper) cs cid p = .ok q ∧
      q.m_multibody_constraints = p.m_multibody_constraints ++
        ((cs.enumFrom cid).filter (fun x => !x.2.isDisabled)).map
          (fun x => MucoPhase.multibodyConstraintFor h mcBounds x.1 x.2) ∧
      q.multibody_constraint_bounds = p.multibody_constraint_bounds ∧
      q.multiplier_bounds = p.multiplier_bounds ∧
      q.path_constraints = p.path_constraints := by
  induction cs generalizing cid p with
  | nil => exact ⟨p, rfl, by simp, rfl, rfl, rfl⟩
  | cons c rest ih =>
    by_cases hdis : c.isDisabled = false
    · rcases createMultiplierInfos_ok cid c.mp c.mv c.ma multBounds with ⟨multInfos, hmult⟩
      simp only [MucoPhase.discoverMultibodyConstraints, hdis, if_true, hmult]
      rcases ih (cid + 1) _ with ⟨q, hq, hmcs, hb1, hb2, hpc⟩
      refine ⟨q, hq, ?_, hb1, hb2, hpc⟩
      rw [hmcs]
      simp [List.enumFrom_cons, List.filter_cons, hdis, MucoPhase.multibodyConstraintFor]
    · have hdis2 : c.isDisabled = true := by simpa using hdis
      simp only [MucoPhase.discoverMultibodyConstraints, hdis2]
      rcases ih (cid + 1) p with ⟨q, hq, hmcs, hb1, hb2, hpc⟩
      refine ⟨q, hq, ?_, hb1, hb2, hpc⟩
      rw [hmcs]
      simp [List.enumFrom_cons, List.filter_cons, hdis2]

/-- The steps behind a call of `initialize` that returns. -/
theorem initializeOnModel_ok_inv (h : Hooks) (p q : MucoPhase) (model : Model)
    (hinit : MucoPhase.initializeOnModel h p model = .ok q) :
    ∃ parameters costs r pathConstraints total,
      MucoPhase.checkStateInfos model.stateVariableNames p.state_infos = .ok () ∧
      MucoPhase.checkControlInfos model.actuatorPaths p.control_infos = .ok () ∧
      MucoPhase.initParameters h model p.parameters = .ok parameters ∧
      MucoPhase.initCosts h model p.costs = .ok costs ∧
      MucoPhase.discoverMultibodyConstraints h p.multibody_constraint_bounds p.multiplier_bounds
        (MucoBounds.ofDoubles p.multiplier_bounds.getLower p.multiplier_bounds.getUpper)
        (MucoBounds.ofDoubles p.multiplier_bounds.getLower p.multiplier_bounds.getUpper)
        model.constraints 0
        { p with parameters := parameters, costs := costs,
                 m_num_multibody_constraint_eqs := 0 } = .ok r ∧
      MucoPhase.initPathConstraints h model r.path_constraints 0 =
        .ok (pathConstraints, total) ∧
      q = { r with path_constraints := pathConstraints, m_num_path_constraint_eqs := total } := by
  unfold MucoPhase.initializeOnModel at hinit
  simp only at hinit
  split at hinit
  · cases hinit
  · rename_i hstate
    split at hinit
    · cases hinit
    · rename_i hcontrol
      split at hinit
      · cases hinit
      · rename_i parameters hparameters
        split at hinit
        · cases hinit
        · rename_i costs hcosts
          split at hinit
          · cases hinit
          · rename_i r hr
            split at hinit
            · cases hinit
            · rename_i pathConstraints total hpc
              refine ⟨parameters, costs, r, pathConstraints, total, hstate, hcontrol,
                hparameters, hcosts, hr, hpc, ?_⟩
              exact (Except.ok.inj hinit).symm

/-- C10.  After a call of `initialize(model)` that returns, made on a phase whose
list of multibody constraints is empty (as it is from construction until the
first `initialize`): the multibody constraints of the phase are, in order,
one for each constraint of the model that is not disabled and none for a
disabled one, each with the index and the three equation counts of its
constraint, so in increasing order of the constraint index; and the info of
each carries a bounds vector whose length is its number of equations and
whose every entry is the `multibody_constraint_bounds` of the phase. -/
theorem C10_initialize_discovers_enabled_constraints (h : Hooks) (p q : MucoPhase)
    (model : Model) (hfresh : p.m_multibody_constraints = [])
    (hinit : MucoPhase.initializeOnModel h p model = .ok q) :
    q.m_multibody_constraints.map
        (fun mc => (mc.index, mc.numPosition, mc.numVelocity, mc.numAcceleration)) =
      (model.constraints.enum.filter (fun x => !x.2.isDisabled)).map
        (fun x => (x.1, x.2.mp, x.2.mv, x.2.ma)) ∧
    (q.m_multibody_constraints.map (fun mc => mc.index)).Pairwise (fun i j => i < j) ∧
    (∀ mc ∈ q.m_multibody_constraints,
      mc.getConstraintInfo.bounds.length = mc.getConstraintInfo.getNumEquations ∧
      ∀ b ∈ mc.getConstraintInfo.bounds, b = p.multibody_constraint_bounds) ∧
    q.multibody_constraint_bounds = p.multibody_constraint_bounds := by
  rcases initializeOnModel_ok_inv h p q model hinit with
    ⟨parameters, costs, r, pathConstraints, total, _, _, _, _, hr, _, rfl⟩
  rcases discoverMultibodyConstraints_ok h p.multibody_constraint_bounds p.multiplier_bounds
    model.constraints 0
    { p with parameters := parameters, costs := costs, m_num_multibody_constraint_eqs := 0 } with
    ⟨r1, hr1, hmcs, hb1, _, _⟩
  have hrr : r = r1 := Except.ok.inj (hr.symm.trans hr1)
  subst hrr
  have hlist : r.m_multibody_constraints =
      ((model.constraints.enumFrom 0).filter (fun x => !x.2.isDisabled)).map
        (fun x => MucoPhase.multibodyConstraintFor h p.multibody_constraint_bounds x.1 x.2) := by
    rw [hmcs]
    show p.m_multibody_constraints ++ _ = _
    rw [hfresh, List.nil_append]
  refine ⟨?_, ?_, ?_, hb1⟩
  · show r.m_multibody_constraints.map _ = _
    rw [hlist, List.map_map]
    rfl
  · show (r.m_multibody_constraints.map _).Pairwise _
    rw [hlist, List.map_map]
    have hsub : (((model.constraints.enumFrom 0).filter (fun x => !x.2.isDisabled)).map
        Prod.fst).Sublist ((model.constraints.enumFrom 0).map Prod.fst) :=
      List.Sublist.map _ (List.filter_sublist _)
    have hrange : (model.constraints.enumFrom 0).map Prod.fst =
        List.range model.constraints.length := by
      have := List.enum_map_fst model.constraints
      simpa [List.enum] using this
    rw [hrange] at hsub
    exact List.Pairwise.sublist hsub (List.pairwise_lt_range _)
  · intro mc hmc
    change mc ∈ r.m_multibody_constraints at hmc
    rw [hlist] at hmc
    rcases List.mem_map.mp hmc with ⟨x, _, rfl⟩
    constructor
    · simp [MucoPhase.multibodyConstraintFor, MucoMultibodyConstraint.new,
        MucoMultibodyConstraint.setConstraintInfo, MucoMultibodyConstraint.getConstraintInfo,
        MucoConstraintInfo.setBounds, MucoConstraintInfo.getNumEquations]
    · intro b hb
      simp only [MucoPhase.multibodyConstraintFor, MucoMultibodyConstraint.new,
        MucoMultibodyConstraint.setConstraintInfo, MucoMultibodyConstraint.getConstraintInfo,
        MucoConstraintInfo.setBounds, MucoConstraintInfo.getNumEquations] at hb
      exact List.eq_of_mem_replicate hb

/-- C10, on the sample phase and model: the constraints with the indices 0 and
2 are discovered, the disabled one with index 1 is not, and every bounds
entry is the `MucoBounds(0)` of the phase. -/
theorem C10_initialize_discovers_enabled_constraints_witness :
    Sample.initialized.m_multibody_constraints.map
        (fun mc => (mc.index, mc.numPosition, mc.numVelocity, mc.numAcceleration)) =
      [(0, 1, 0, 0), (2, 0, 1, 1)] ∧
    (∀ mc ∈ Sample.initialized.m_multibody_constraints,
      mc.getConstraintInfo.bounds.length = mc.getConstraintInfo.getNumEquations ∧
      ∀ b ∈ mc.getConstraintInfo.bounds, b = MucoBounds.ofValue 0) :=
  have h := C10_initialize_discovers_enabled_constraints Sample.hooks Sample.phase
    Sample.initialized Sample.model rfl rfl
  ⟨h.1.trans (by decide), h.2.2.1⟩

/-! ## The multiplier map -/

theorem map_find_append (m1 m2 : MultiplierInfosMap) (k : String) :
    MultiplierInfosMap.find (m1 ++ m2) k =
      match MultiplierInfosMap.find m1 k with
      | some v => some v
      | none => MultiplierInfosMap.find m2 k := by
  induction m1 with
  | nil => rfl
  | cons e rest ih =>
    obtain ⟨k1, v1⟩ := e
    by_cases hk : k1 = k
    · simp [MultiplierInfosMap.find, hk]
    · simp only [List.cons_append, MultiplierInfosMap.find, if_neg hk]
      exact ih

theorem map_find_insert (m : MultiplierInfosMap) (k : String) (v : List MucoVariableInfo)
    (k1 : String) :
    MultiplierInfosMap.find (m.insert k v) k1 =
      match MultiplierInfosMap.find m k1 with
      | some x => some x
      | none => if k = k1 then some v else none := by
  unfold MultiplierInfosMap.insert
  cases hk : MultiplierInfosMap.find m k with
  | some x =>
    simp only
    cases hk1 : MultiplierInfosMap.find m k1 with
    | some y => rfl
    | none =>
      have hne : k ≠ k1 := by
        intro heq
        rw [heq, hk1] at hk
        cases hk
      simp [hne]
  | none =>
    simp only
    rw [map_find_append]
    cases hk1 : MultiplierInfosMap.find m k1 with
    | some y => rfl
    | none => simp [MultiplierInfosMap.find]

theorem map_find_foldl_of_some (es : MultiplierInfosMap) (m : MultiplierInfosMap) (k : String)
    (v : List MucoVariableInfo) (hfind : MultiplierInfosMap.find m k = some v) :
    MultiplierInfosMap.find (es.foldl (fun acc e => acc.insert e.1 e.2) m) k = some v := by
  induction es generalizing m with
  | nil => exact hfind
  | cons e rest ih =>
    apply ih
    rw [map_find_insert, hfind]

theorem map_find_foldl_of_not_mem (es : MultiplierInfosMap) (m : MultiplierInfosMap)
    (k : String) (hm : MultiplierInfosMap.find m k = none) (hk : ∀ e ∈ es, e.1 ≠ k) :
    MultiplierInfosMap.find (es.foldl (fun acc e => acc.insert e.1 e.2) m) k = none := by
  induction es generalizing m with
  | nil => exact hm
  | cons e rest ih =>
    apply ih
    · rw [map_find_insert, hm]
      simp [hk e (List.mem_cons_self _ _)]
    · intro e1 he1
      exact hk e1 (List.mem_cons_of_mem _ he1)

theorem map_find_foldl_of_mem (es : MultiplierInfosMap) (m : MultiplierInfosMap)
    (hnodup : (es.map Prod.fst).Nodup)
    (hm : ∀ e ∈ es, MultiplierInfosMap.find m e.1 = none) (x : String × List MucoVariableInfo)
    (hx : x ∈ es) :
    MultiplierInfosMap.find (es.foldl (fun acc e => acc.insert e.1 e.2) m) x.1 = some x.2 := by
  induction es generalizing m with
  | nil => cases hx
  | cons e rest ih =>
    rw [List.map_cons, List.nodup_cons] at hnodup
    simp only [List.foldl_cons]
    rcases List.mem_cons.mp hx with rfl | hxrest
    · apply map_find_foldl_of_some
      rw [map_find_insert, hm x (List.mem_cons_self _ _)]
      simp
    · apply ih _ hnodup.2 _ hxrest
      intro e1 he1
      rw [map_find_insert, hm e1 (List.mem_cons_of_mem _ he1)]
      have hne : e.1 ≠ e1.1 := by
        intro heq
        exact hnodup.1 (heq ▸ List.mem_map_of_mem Prod.fst he1)
      simp [hne]

/-! ## MucoPhase::initialize: the derived members -/

theorem createMultiplierInfos_eq (cid mp mv ma : Nat) (multBounds : MucoBounds) :
    MucoPhase.createMultiplierInfos cid mp mv ma multBounds
        (MucoBounds.ofDoubles multBounds.getLower multBounds.getUpper)
        (MucoBounds.ofDoubles multBounds.getLower multBounds.getUpper) =
      .ok (MucoPhase.expectedMultiplierInfos cid mp mv ma multBounds) := by
  simp only [MucoPhase.createMultiplierInfos, pushMultiplierInfos_ok]
  simp only [MucoPhase.expectedMultiplierInfos, MucoBounds.getLower, MucoBounds.getUpper,
    List.nil_append]

/-- The loop over the constraints always returns, and what it leaves is the
phase with the counter increased by the equations of the enabled
constraints, their multibody constraints pushed back, and their multiplier
infos inserted in the map, in the order of the constraint indices. -/
theorem discoverMultibodyConstraints_eq (h : Hooks) (mcBounds multBounds : MucoBounds)
    (cs : List SimConstraint) (cid : Nat) (p : MucoPhase) :
    MucoPhase.discoverMultibodyConstraints h mcBounds multBounds
        (MucoBounds.ofDoubles multBounds.getLower multBounds.getUpper)
        (MucoBounds.ofDoubles multBounds.getLower multBounds.getUpper) cs cid p =
      .ok { p with
        m_num_multibody_constraint_eqs := p.m_num_multibody_constraint_eqs +
          (((cs.enumFrom cid).filter (fun x => !x.2.isDisabled)).map
            (fun x => x.2.mp + x.2.mv + x.2.ma)).sum
        m_multibody_constraints := p.m_multibody_constraints ++
          ((cs.enumFrom cid).filter (fun x => !x.2.isDisabled)).map
            (fun x => MucoPhase.multibodyConstraintFor h mcBounds x.1 x.2)
        m_multiplier_infos_map :=
          ((cs.enumFrom cid).filter (fun x => !x.2.isDisabled)).foldl
            (fun acc x => acc.insert (h.multibodyConstraintInfoName x.1 x.2.mp x.2.mv x.2.ma)
              (MucoPhase.expectedMultiplierInfos x.1 x.2.mp x.2.mv x.2.ma multBounds))
            p.m_multiplier_infos_map } := by
  induction cs generalizing cid p with
  | nil =>
    cases p
    simp [MucoPhase.discoverMultibodyConstraints]
  | cons c rest ih =>
    by_cases hdis : c.isDisabled = false
    · simp only [MucoPhase.discoverMultibodyConstraints, hdis, if_true,
        createMultiplierInfos_eq, ih]
      cases p
      simp [List.enumFrom_cons, List.filter_cons, hdis, MucoPhase.multibodyConstraintFor,
        MucoMultibodyConstraint.new, MucoMultibodyConstraint.setConstraintInfo,
        MucoMultibodyConstraint.getConstraintInfo, MucoConstraintInfo.setBounds,
        MucoConstraintInfo.getNumEquations, MucoConstraintInfo.getName, Nat.add_assoc]
    · have hdis2 : c.isDisabled = true := by simpa using hdis
      simp only [MucoPhase.discoverMultibodyConstraints, hdis2, ih]
      simp [List.enumFrom_cons, List.filter_cons, hdis2]

/-- What a call of `initialize` that returns leaves in the derived members, in
terms of the phase before the call and the enabled constraints of the
model. -/
theorem initializeOnModel_derived (h : Hooks) (p q : MucoPhase) (model : Model)
    (hinit : MucoPhase.initializeOnModel h p model = .ok q) :
    q.m_multibody_constraints = p.m_multibody_constraints ++
      (MucoPhase.enabledConstraints model).map
        (fun x => MucoPhase.multibodyConstraintFor h p.multibody_constraint_bounds x.1 x.2) ∧
    q.m_num_multibody_constraint_eqs =
      ((MucoPhase.enabledConstraints model).map (fun x => x.2.mp + x.2.mv + x.2.ma)).sum ∧
    q.m_multiplier_infos_map =
      (MucoPhase.enabledConstraints model).foldl
        (fun acc x => acc.insert (h.multibodyConstraintInfoName x.1 x.2.mp x.2.mv x.2.ma)
          (MucoPhase.expectedMultiplierInfos x.1 x.2.mp x.2.mv x.2.ma p.multiplier_bounds))
        p.m_multiplier_infos_map ∧
    q.multiplier_bounds = p.multiplier_bounds ∧
    q.multibody_constraint_bounds = p.multibody_constraint_bounds := by
  rcases initializeOnModel_ok_inv h p q model hinit with
    ⟨parameters, costs, r, pathConstraints, total, _, _, _, _, hr, _, rfl⟩
  rw [discoverMultibodyConstraints_eq] at hr
  have hr2 := Except.ok.inj hr
  subst hr2
  refine ⟨rfl, ?_, rfl, rfl, rfl⟩
  show 0 + _ = _
  rw [Nat.zero_add]
  rfl

theorem enabledConstraints_fst_nodup (model : Model) :
    ((MucoPhase.enabledConstraints model).map Prod.fst).Nodup := by
  have hsub : ((MucoPhase.enabledConstraints model).map Prod.fst).Sublist
      (model.constraints.enum.map Prod.fst) :=
    List.Sublist.map _ (List.filter_sublist _)
  rw [List.enum_map_fst] at hsub
  exact List.Nodup.sublist hsub (List.nodup_range _)

/-- When the constructor names the infos of different constraint indices
differently, the names of the enabled constraints are pairwise different. -/
theorem enabledConstraints_names_nodup (h : Hooks) (model : Model)
    (hnames : ∀ cid1 mp1 mv1 ma1 cid2 mp2 mv2 ma2,
      h.multibodyConstraintInfoName cid1 mp1 mv1 ma1 =
        h.multibodyConstraintInfoName cid2 mp2 mv2 ma2 → cid1 = cid2) :
    ((MucoPhase.enabledConstraints model).map
      (fun x => h.multibodyConstraintInfoName x.1 x.2.mp x.2.mv x.2.ma)).Nodup := by
  have hfst := enabledConstraints_fst_nodup model
  apply List.Nodup.map_on _ (List.Nodup.of_map _ hfst)
  intro x hx y hy hxy
  exact List.inj_on_of_nodup_map hfst hx hy (hnames _ _ _ _ _ _ _ _ hxy)

/-- After `initialize` on a phase whose multiplier map is empty, when the enabled
constraints of the model have pairwise different names, the map holds under
the name of every enabled constraint the multiplier infos of that
constraint. -/
theorem getMultiplierInfos_of_enabled (h : Hooks) (p q : MucoPhase) (model : Model)
    (hmap : p.m_multiplier_infos_map = [])
    (hnames : ((MucoPhase.enabledConstraints model).map
      (fun x => h.multibodyConstraintInfoName x.1 x.2.mp x.2.mv x.2.ma)).Nodup)
    (hinit : MucoPhase.initializeOnModel h p model = .ok q)
    (x : Nat × SimConstraint) (hx : x ∈ MucoPhase.enabledConstraints model) :
    q.getMultiplierInfos (h.multibodyConstraintInfoName x.1 x.2.mp x.2.mv x.2.ma) =
      .ok (MucoPhase.expectedMultiplierInfos x.1 x.2.mp x.2.mv x.2.ma p.multiplier_bounds) := by
  have hmapq := (initializeOnModel_derived h p q model hinit).2.2.1
  rw [hmap] at hmapq
  have hfold : q.m_multiplier_infos_map =
      ((MucoPhase.enabledConstraints model).map
        (fun x => (h.multibodyConstraintInfoName x.1 x.2.mp x.2.mv x.2.ma,
          MucoPhase.expectedMultiplierInfos x.1 x.2.mp x.2.mv x.2.ma p.multiplier_bounds))).foldl
        (fun acc e => MultiplierInfosMap.insert acc e.1 e.2) ([] : MultiplierInfosMap) := by
    rw [hmapq, List.foldl_map]
  have hnodup : (((MucoPhase.enabledConstraints model).map
        (fun x => (h.multibodyConstraintInfoName x.1 x.2.mp x.2.mv x.2.ma,
          MucoPhase.expectedMultiplierInfos x.1 x.2.mp x.2.mv x.2.ma
            p.multiplier_bounds))).map Prod.fst).Nodup := by
    rw [List.map_map]
    exact hnames
  have hfind := map_find_foldl_of_mem _ [] hnodup (fun _ _ => rfl)
    (h.multibodyConstraintInfoName x.1 x.2.mp x.2.mv x.2.ma,
      MucoPhase.expectedMultiplierInfos x.1 x.2.mp x.2.mv x.2.ma p.multiplier_bounds)
    (List.mem_map_of_mem _ hx)
  unfold MucoPhase.getMultiplierInfos
  rw [hfold, hfind]

theorem expectedMultiplierInfos_length (cid mp mv ma : Nat) (multBounds : MucoBounds) :
    (MucoPhase.expectedMultiplierInfos cid mp mv ma multBounds).length = mp + mv + ma := by
  simp only [MucoPhase.expectedMultiplierInfos, List.length_append, List.length_map,
    List.length_range]

theorem expectedMultiplierInfos_bounds (cid mp mv ma : Nat) (multBounds : MucoBounds)
    (v : MucoVariableInfo)
    (hv : v ∈ MucoPhase.expectedMultiplierInfos cid mp mv ma multBounds) :
    v.bounds = multBounds ∧
    v.initial_bounds = MucoBounds.ofDoubles multBounds.getLower multBounds.getUpper ∧
    v.final_bounds = MucoBounds.ofDoubles multBounds.getLower multBounds.getUpper := by
  simp only [MucoPhase.expectedMultiplierInfos, List.mem_append, List.mem_map] at hv
  rcases hv with (⟨i, _, rfl⟩ | ⟨i, _, rfl⟩) | ⟨i, _, rfl⟩ <;> exact ⟨rfl, rfl, rfl⟩

/-- C11.  Multiplier-count invariant.  After a call of `initialize(model)` that
returns, made on a phase whose list of multibody constraints and multiplier
map are empty (as they are from construction until the first `initialize`),
and with a constructor that gives the infos of the enabled constraints of
the model pairwise different names: for every discovered multibody
constraint, with counts
(mp, mv, ma), `getMultiplierInfos` of the name of its info returns a
sequence of exactly mp + mv + ma variable infos, and the bounds of each are
the `multiplier_bounds` of the phase. -/
theorem C11_multiplier_count (h : Hooks) (p q : MucoPhase) (model : Model)
    (hlist : p.m_multibody_constraints = []) (hmap : p.m_multiplier_infos_map = [])
    (hnames : ((MucoPhase.enabledConstraints model).map
      (fun x => h.multibodyConstraintInfoName x.1 x.2.mp x.2.mv x.2.ma)).Nodup)
    (hinit : MucoPhase.initializeOnModel h p model = .ok q) :
    ∀ mc ∈ q.m_multibody_constraints,
      ∃ infos, q.getMultiplierInfos mc.getConstraintInfo.getName = .ok infos ∧
        infos.length = mc.numPosition + mc.numVelocity + mc.numAcceleration ∧
        ∀ v ∈ infos, v.bounds = q.multiplier_bounds ∧ v.bounds = p.multiplier_bounds := by
  intro mc hmc
  obtain ⟨hmcs, _, _, hmb, _⟩ := initializeOnModel_derived h p q model hinit
  rw [hmcs, hlist, List.nil_append] at hmc
  rcases List.mem_map.mp hmc with ⟨x, hx, rfl⟩
  refine ⟨_, getMultiplierInfos_of_enabled h p q model hmap hnames hinit x hx, ?_, ?_⟩
  · rw [expectedMultiplierInfos_length]
    rfl
  · intro v hv
    have := (expectedMultiplierInfos_bounds _ _ _ _ _ v hv).1
    exact ⟨this.trans hmb.symm, this⟩

/-- C11, on the sample phase and model: the discovered constraint with index 2
has the counts (0, 1, 1), and the multiplier infos found under its name are
two, with the bounds [-1000, 1000] of the phase. -/
theorem C11_multiplier_count_witness :
    ∃ infos, Sample.initialized.getMultiplierInfos "constraint2" = .ok infos ∧
      infos.length = 0 + 1 + 1 ∧
      ∀ v ∈ infos, v.bounds = Sample.initialized.multiplier_bounds ∧
        v.bounds = MucoBounds.ofRange (-1000) 1000 :=
  C11_multiplier_count Sample.hooks Sample.phase Sample.initialized Sample.model rfl rfl
    (by decide) rfl
    (MucoPhase.multibodyConstraintFor Sample.hooks (MucoBounds.ofValue 0) 2 ⟨false, 0, 1, 1⟩)
    (by decide)

/-- The multiplier sequence of a first `initialize`.  After a call of
`initialize(model)` that returns, made on a phase whose multibody
constraints and multiplier map are empty, and with a constructor that gives
the infos of the enabled constraints of the model pairwise different names:
for every discovered multibody constraint, with index `cid` and counts
(mp, mv, ma), the multiplier sequence stored under the name of its info
lists the mp position-level multipliers first, then the mv velocity-level
ones, then the ma acceleration-level ones, named `lambda_cid<cid>_p<i>`,
`lambda_cid<cid>_v<i>`, `lambda_cid<cid>_a<i>` with `i` counting from 0
within each kind; the initial bounds and the final bounds of each entry read
the lower and upper values of the `multiplier_bounds` of the phase. -/
theorem multiplier_names_and_order_first_initialize (h : Hooks) (p q : MucoPhase)
    (model : Model)
    (hlist : p.m_multibody_constraints = []) (hmap : p.m_multiplier_infos_map = [])
    (hnames : ((MucoPhase.enabledConstraints model).map
      (fun x => h.multibodyConstraintInfoName x.1 x.2.mp x.2.mv x.2.ma)).Nodup)
    (hinit : MucoPhase.initializeOnModel h p model = .ok q) :
    ∀ mc ∈ q.m_multibody_constraints,
      ∃ infos, q.getMultiplierInfos mc.getConstraintInfo.getName = .ok infos ∧
        infos.map MucoVariableInfo.getName =
          (List.range mc.numPosition).map
              (fun i => "lambda_cid" ++ toString mc.index ++ "_p" ++ toString i) ++
            (List.range mc.numVelocity).map
              (fun i => "lambda_cid" ++ toString mc.index ++ "_v" ++ toString i) ++
            (List.range mc.numAcceleration).map
              (fun i => "lambda_cid" ++ toString mc.index ++ "_a" ++ toString i) ∧
        ∀ v ∈ infos,
          v.initial_bounds.getLower = p.multiplier_bounds.getLower ∧
          v.initial_bounds.getUpper = p.multiplier_bounds.getUpper ∧
          v.final_bounds.getLower = p.multiplier_bounds.getLower ∧
          v.final_bounds.getUpper = p.multiplier_bounds.getUpper := by
  intro mc hmc
  obtain ⟨hmcs, _, _, _, _⟩ := initializeOnModel_derived h p q model hinit
  rw [hmcs, hlist, List.nil_append] at hmc
  rcases List.mem_map.mp hmc with ⟨x, hx, rfl⟩
  refine ⟨_, getMultiplierInfos_of_enabled h p q model hmap hnames hinit x hx, ?_, ?_⟩
  · simp only [MucoPhase.expectedMultiplierInfos, List.map_append, List.map_map]
    rfl
  · intro v hv
    obtain ⟨_, hib, hfb⟩ := expectedMultiplierInfos_bounds _ _ _ _ _ v hv
    rw [hib, hfb]
    cases p.multiplier_bounds <;> exact ⟨rfl, rfl, rfl, rfl⟩

/-- C13, at the failing input of C12: after `initialize(modelA)` followed by
`initialize(modelB)`, the multibody constraint discovered in `modelB`, with
index 0 and counts (0, 0, 2), is in the phase under the name `constraint0`,
but the multiplier sequence stored under that name is the one position-level
multiplier `lambda_cid0_p0` left by `modelA`, not the two acceleration-level
multipliers `lambda_cid0_a0`, `lambda_cid0_a1` of that constraint. -/
theorem C13_stale_multiplier_sequence_after_reinitialize :
    MucoPhase.initializeOnModel Sample.hooks Sample.afterA Sample.modelB = .ok Sample.afterAB ∧
    (∃ mc ∈ Sample.afterAB.m_multibody_constraints,
      mc.index = 0 ∧ mc.numPosition = 0 ∧ mc.numVelocity = 0 ∧ mc.numAcceleration = 2 ∧
      mc.getConstraintInfo.getName = "constraint0") ∧
    (∃ infos, Sample.afterAB.getMultiplierInfos "constraint0" = .ok infos ∧
      infos.map MucoVariableInfo.getName = ["lambda_cid0_p0"]) := by
  refine ⟨rfl, ?_, ⟨_, rfl, by decide⟩⟩
  exact ⟨MucoPhase.multibodyConstraintFor Sample.hooks (MucoBounds.ofValue 0) 0 ⟨false, 0, 0, 2⟩,
    by decide, rfl, rfl, rfl, rfl, rfl⟩

/-! ## MucoPhase::initialize called again -/

/-- A second call of `initialize` keeps what the first call left in
`m_multibody_constraints` and in the multiplier map, and adds to it. -/
theorem initializeOnModel_twice (h : Hooks) (p q1 q2 : MucoPhase) (modelA modelB : Model)
    (hA : MucoPhase.initializeOnModel h p modelA = .ok q1)
    (hB : MucoPhase.initializeOnModel h q1 modelB = .ok q2) :
    q2.m_multibody_constraints =
      (p.m_multibody_constraints ++
        (MucoPhase.enabledConstraints modelA).map
          (fun x => MucoPhase.multibodyConstraintFor h p.multibody_constraint_bounds x.1 x.2)) ++
        (MucoPhase.enabledConstraints modelB).map
          (fun x => MucoPhase.multibodyConstraintFor h p.multibody_constraint_bounds x.1 x.2) ∧
    q2.m_num_multibody_constraint_eqs =
      ((MucoPhase.enabledConstraints modelB).map (fun x => x.2.mp + x.2.mv + x.2.ma)).sum := by
  obtain ⟨hA1, _, _, _, hA5⟩ := initializeOnModel_derived h p q1 modelA hA
  obtain ⟨hB1, hB2, _, _, _⟩ := initializeOnModel_derived h q1 q2 modelB hB
  rw [hB1, hA1, hA5]
  exact ⟨rfl, hB2⟩

/-- C12, at the failing input: a freshly constructed phase is initialised on
`modelA` (enabled constraints 0 and 1) and then on `modelB` (one enabled
constraint, index 0, two acceleration-level equations).  Both calls return.
The multibody constraints are then the two of `modelA` followed by the one
of `modelB`, where `initialize(modelB)` on a fresh phase leaves the one of
`modelB` alone; and the map still holds the key of constraint 1 and, under
the key of constraint 0, the multiplier of `modelA` instead of the two of
`modelB`. -/
theorem C12_reinitialize_keeps_stale_entries :
    MucoPhase.initializeOnModel Sample.hooks MucoPhase.constructProperties Sample.modelA =
      .ok Sample.afterA ∧
    MucoPhase.initializeOnModel Sample.hooks Sample.afterA Sample.modelB = .ok Sample.afterAB ∧
    MucoPhase.initializeOnModel Sample.hooks MucoPhase.constructProperties Sample.modelB =
      .ok Sample.afterB ∧
    Sample.afterAB.m_multibody_constraints.map
        (fun mc => (mc.index, mc.numPosition, mc.numVelocity, mc.numAcceleration)) =
      [(0, 1, 0, 0), (1, 0, 1, 0), (0, 0, 0, 2)] ∧
    Sample.afterB.m_multibody_constraints.map
        (fun mc => (mc.index, mc.numPosition, mc.numVelocity, mc.numAcceleration)) =
      [(0, 0, 0, 2)] ∧
    Sample.afterAB.m_multiplier_infos_map.map
        (fun e => (e.1, e.2.map MucoVariableInfo.getName)) =
      [("constraint0", ["lambda_cid0_p0"]), ("constraint1", ["lambda_cid1_v0"])] ∧
    Sample.afterB.m_multiplier_infos_map.map
        (fun e => (e.1, e.2.map MucoVariableInfo.getName)) =
      [("constraint0", ["lambda_cid0_a0", "lambda_cid0_a1"])] := by
  refine ⟨rfl, rfl, rfl, ?_, ?_, ?_, ?_⟩ <;> decide

/-- C14, at the failing input of C12: after `initialize(modelA)` followed by
`initialize(modelB)`, the names of the enabled constraints of `modelB` are
`constraint0` alone, yet `getMultiplierInfos` and `getMultibodyConstraint`
both return for `constraint1`, a name that only `modelA` gave rise to. -/
theorem C14_stale_key_after_reinitialize :
    MucoPhase.initializeOnModel Sample.hooks Sample.afterA Sample.modelB = .ok Sample.afterAB ∧
    (MucoPhase.enabledConstraints Sample.modelB).map
        (fun x => Sample.hooks.multibodyConstraintInfoName x.1 x.2.mp x.2.mv x.2.ma) =
      ["constraint0"] ∧
    (∃ infos, Sample.afterAB.getMultiplierInfos "constraint1" = .ok infos) ∧
    (∃ mc, Sample.afterAB.getMultibodyConstraint "constraint1" = .ok mc) := by
  refine ⟨rfl, by decide, ⟨_, rfl⟩, ⟨_, rfl⟩⟩

/-- C15, at the failing input of C12: after `initialize(modelA)` followed by
`initialize(modelB)`, the cached number of multibody-constraint equations is
2, the sum over the enabled constraints of `modelB`, while the numbers of
equations of the multibody constraints of the phase add up to 4. -/
theorem C15_count_differs_from_list_after_reinitialize :
    MucoPhase.initializeOnModel Sample.hooks Sample.afterA Sample.modelB = .ok Sample.afterAB ∧
    Sample.afterAB.m_num_multibody_constraint_eqs = 2 ∧
    ((MucoPhase.enabledConstraints Sample.modelB).map
        (fun x => x.2.mp + x.2.mv + x.2.ma)).sum = 2 ∧
    (Sample.afterAB.m_multibody_constraints.map
        (fun mc => mc.getConstraintInfo.getNumEquations)).sum = 4 := by
  refine ⟨rfl, ?_, ?_, ?_⟩ <;> decide

/-! ## MucoPhase::initialize: the path constraints -/

/-- What the loop over the path constraints does when it returns: every path
constraint was initialised with the start value plus the equations of the
initialised constraints before it, and the final counter is the start value
plus the equations of all of them. -/
theorem initPathConstraints_spec (h : Hooks) (model : Model) (pcs : List MucoPathConstraint)
    (n : Nat) (pcs1 : List MucoPathConstraint) (total : Nat)
    (hloop : MucoPhase.initPathConstraints h model pcs n = .ok (pcs1, total)) :
    pcs1.length = pcs.length ∧
    (∀ i x, pcs[i]? = some x →
      ∃ x1, pcs1[i]? = some x1 ∧
        h.initPathConstraint x model
          (n + ((pcs1.take i).map (fun c => c.getConstraintInfo.getNumEquations)).sum) =
            .ok x1) ∧
    total = n + (pcs1.map (fun c => c.getConstraintInfo.getNumEquations)).sum := by
  induction pcs generalizing n pcs1 total with
  | nil =>
    simp only [MucoPhase.initPathConstraints, Except.ok.injEq, Prod.mk.injEq] at hloop
    obtain ⟨rfl, rfl⟩ := hloop
    simp
  | cons x rest ih =>
    simp only [MucoPhase.initPathConstraints] at hloop
    split at hloop
    · cases hloop
    · rename_i x1 hx1
      split at hloop
      · cases hloop
      · rename_i rest1 total1 hrest
        simp only [Except.ok.injEq, Prod.mk.injEq] at hloop
        obtain ⟨rfl, rfl⟩ := hloop
        obtain ⟨hlen, hcalls, htotal⟩ := ih _ _ _ hrest
        refine ⟨by simp [hlen], ?_, ?_⟩
        · intro i y hy
          cases i with
          | zero =>
            have hxy : x = y := by simpa using hy
            subst hxy
            exact ⟨x1, by simp, by simpa using hx1⟩
          | succ i =>
            have hy2 : rest[i]? = some y := by simpa using hy
            obtain ⟨y1, hy1, hcall⟩ := hcalls i y hy2
            refine ⟨y1, by simpa using hy1, ?_⟩
            rw [← hcall]
            congr 1
            simp [Nat.add_assoc]
        · rw [htotal]
          simp [Nat.add_assoc]

theorem sum_take_succ (l : List Nat) (i : Nat) (x : Nat) (hx : l[i]? = some x) :
    (l.take (i + 1)).sum = (l.take i).sum + x := by
  induction l generalizing i with
  | nil => simp at hx
  | cons a rest ih =>
    cases i with
    | zero =>
      have : a = x := by simpa using hx
      simp [this]
    | succ i =>
      have hx2 : rest[i]? = some x := by simpa using hx
      simp only [List.take_succ_cons, List.sum_cons, ih i hx2]
      omega

theorem sum_take_le (l : List Nat) (i j : Nat) (hij : i ≤ j) :
    (l.take i).sum ≤ (l.take j).sum := by
  induction l generalizing i j with
  | nil => simp
  | cons a rest ih =>
    cases i with
    | zero => simp
    | succ i =>
      cases j with
      | zero => omega
      | succ j =>
        simp only [List.take_succ_cons, List.sum_cons]
        have := ih i j (by omega)
        omega

/-- C16.  In a call of `initialize(model)` that returns, the i-th declared path
constraint is initialised with the offset that is the sum of the numbers of
equations of the path constraints 0..i-1 as their initialisation left them
(0 for the first); the offset of the next one is this offset plus the number
of equations of the i-th, so the index ranges are contiguous, and the range
of an earlier constraint ends no later than the range of a later one
begins, so they are pairwise disjoint; and the cached number of
path-constraint equations is the sum over all the path constraints. -/
theorem C16_path_constraint_offsets (h : Hooks) (p q : MucoPhase) (model : Model)
    (hinit : MucoPhase.initializeOnModel h p model = .ok q) :
    q.path_constraints.length = p.path_constraints.length ∧
    (∀ i x, p.path_constraints[i]? = some x →
      ∃ x1, q.path_constraints[i]? = some x1 ∧
        h.initPathConstraint x model
          (((q.path_constraints.take i).map
            (fun c => c.getConstraintInfo.getNumEquations)).sum) = .ok x1) ∧
    (∀ i x1, q.path_constraints[i]? = some x1 →
      ((q.path_constraints.take (i + 1)).map
          (fun c => c.getConstraintInfo.getNumEquations)).sum =
        ((q.path_constraints.take i).map
          (fun c => c.getConstraintInfo.getNumEquations)).sum +
          x1.getConstraintInfo.getNumEquations) ∧
    (∀ i j x1, i < j → q.path_constraints[i]? = some x1 →
      ((q.path_constraints.take i).map
          (fun c => c.getConstraintInfo.getNumEquations)).sum +
          x1.getConstraintInfo.getNumEquations ≤
        ((q.path_constraints.take j).map
          (fun c => c.getConstraintInfo.getNumEquations)).sum) ∧
    q.m_num_path_constraint_eqs =
      (q.path_constraints.map (fun c => c.getConstraintInfo.getNumEquations)).sum := by
  rcases initializeOnModel_ok_inv h p q model hinit with
    ⟨parameters, costs, r, pathConstraints, total, _, _, _, _, hr, hpc, rfl⟩
  rw [discoverMultibodyConstraints_eq] at hr
  have hr2 := Except.ok.inj hr
  subst hr2
  obtain ⟨hlen, hcalls, htotal⟩ := initPathConstraints_spec h model _ 0 _ _ hpc
  have hstep : ∀ i x1, pathConstraints[i]? = some x1 →
      ((pathConstraints.take (i + 1)).map
          (fun c => c.getConstraintInfo.getNumEquations)).sum =
        ((pathConstraints.take i).map
          (fun c => c.getConstraintInfo.getNumEquations)).sum +
          x1.getConstraintInfo.getNumEquations := by
    intro i x1 hx1
    rw [List.map_take, List.map_take]
    apply sum_take_succ
    simp [hx1]
  refine ⟨hlen, ?_, hstep, ?_, ?_⟩
  · intro i x hx
    obtain ⟨x1, hx1, hcall⟩ := hcalls i x hx
    exact ⟨x1, hx1, by simpa using hcall⟩
  · intro i j x1 hij hx1
    show ((pathConstraints.take i).map _).sum + _ ≤ ((pathConstraints.take j).map _).sum
    rw [← hstep i x1 hx1, List.map_take, List.map_take]
    exact sum_take_le _ _ _ hij
  · show total = _
    rw [htotal, Nat.zero_add]

/-- C16, on the phase with two path constraints of 2 and 3 equations: the hooks
that record the offset show 0 for the first and 2 for the second, and the
cached number of path-constraint equations is 5. -/
theorem C16_path_constraint_offsets_witness :
    Sample.initializedTwoPaths.path_constraints =
      [⟨"k", ⟨"k", 2, []⟩, "0"⟩, ⟨"m", ⟨"m", 3, []⟩, "2"⟩] ∧
    Sample.initializedTwoPaths.m_num_path_constraint_eqs = 5 :=
  have h := C16_path_constraint_offsets Sample.hooksRecording Sample.phaseTwoPaths
    Sample.initializedTwoPaths Sample.model rfl
  ⟨by decide, h.2.2.2.2.trans (by decide)⟩

/-! ## MucoPhase::applyParametersToModel -/

theorem applyLoop_of_ok (apply : MucoParameter → ℚ → Except Exception Unit)
    (parameters : List MucoParameter) (values : List ℚ) (done : List (MucoParameter × ℚ))
    (happly : ∀ e ∈ parameters.zip values, apply e.1 e.2 = .ok ()) :
    MucoPhase.applyLoop apply parameters values done =
      (.ok (), done ++ parameters.zip values) := by
  induction parameters generalizing values done with
  | nil => simp [MucoPhase.applyLoop]
  | cons x rest ih =>
    cases values with
    | nil => simp [MucoPhase.applyLoop]
    | cons v vs =>
      have hx : apply x v = .ok () := happly (x, v) (by simp)
      simp only [MucoPhase.applyLoop, hx]
      rw [ih vs _ (fun e he => happly e (by simp [he]))]
      simp

/-- The loop stops at the first application that throws, with the exception of
that application and the applications before it made. -/
theorem applyLoop_first_error (apply : MucoParameter → ℚ → Except Exception Unit)
    (parameters : List MucoParameter) (values : List ℚ) (done : List (MucoParameter × ℚ))
    (j : Nat) (x : MucoParameter) (v : ℚ) (e : Exception)
    (hj : (parameters.zip values)[j]? = some (x, v))
    (hbefore : ∀ (i : Nat) (y : MucoParameter) (w : ℚ), i < j →
      (parameters.zip values)[i]? = some (y, w) → apply y w = .ok ())
    (hthrow : apply x v = .error e) :
    MucoPhase.applyLoop apply parameters values done =
      (.error e, done ++ (parameters.zip values).take j) := by
  induction parameters generalizing values done j with
  | nil => simp at hj
  | cons y rest ih =>
    cases values with
    | nil => simp at hj
    | cons w ws =>
      cases j with
      | zero =>
        have hyx : (y, w) = (x, v) := by simpa using hj
        obtain ⟨rfl, rfl⟩ := Prod.mk.inj hyx
        simp [MucoPhase.applyLoop, hthrow]
      | succ j =>
        have hy : apply y w = .ok () := hbefore 0 y w (Nat.succ_pos j) (by simp)
        simp only [MucoPhase.applyLoop, hy]
        rw [ih ws _ j (by simpa using hj)
          (fun i y1 w1 hi hyw => hbefore (i + 1) y1 w1 (Nat.succ_lt_succ hi) (by simpa using hyw))]
        simp

theorem applyLoop_fails_iff (apply : MucoParameter → ℚ → Except Exception Unit)
    (parameters : List MucoParameter) (values : List ℚ) (done : List (MucoParameter × ℚ)) :
    (∃ e, (MucoPhase.applyLoop apply parameters values done).1 = .error e) ↔
      ∃ pair ∈ parameters.zip values, ∃ e, apply pair.1 pair.2 = .error e := by
  induction parameters generalizing values done with
  | nil => simp [MucoPhase.applyLoop]
  | cons y rest ih =>
    cases values with
    | nil => simp [MucoPhase.applyLoop]
    | cons w ws =>
      cases hy : apply y w with
      | error e =>
        simp only [MucoPhase.applyLoop, hy, List.zip_cons_cons]
        exact ⟨fun _ => ⟨(y, w), by simp, e, hy⟩, fun _ => ⟨e, rfl⟩⟩
      | ok u =>
        simp only [MucoPhase.applyLoop, hy, List.zip_cons_cons]
        rw [ih ws]
        constructor
        · rintro ⟨pair, hpair, e, he⟩
          exact ⟨pair, List.mem_cons_of_mem _ hpair, e, he⟩
        · rintro ⟨pair, hpair, e, he⟩
          rcases List.mem_cons.mp hpair with rfl | hrest
          · rw [hy] at he
            cases he
          · exact ⟨pair, hrest, e, he⟩

/-- C17, as stated, fails: on the phase with the parameters `k` and `m` and an
`applyParameterToModel` that throws for `m`, the call with the two values
7 and 9 throws although the number of values is the number of parameters,
and this failed call has applied the value 7 to `k`. -/
theorem C17_apply_throws_counterexample :
    ([7, 9] : List ℚ).length = Sample.phaseTwoParameters.parameters.length ∧
    Sample.phaseTwoParameters.applyParametersToModel Sample.applyThrowsOnM [7, 9] =
      (.error (.external "m"), [(⟨"k", "mass"⟩, 7)]) := by
  refine ⟨rfl, by decide⟩

/-- C17, as amended.  `applyParametersToModel(values)` throws if and only if the
number of values differs from the number of declared parameters or the
`applyParameterToModel` of a parameter throws on the value of its index.
When the numbers differ, the exception is that of line 442 and no value has
been applied to any parameter.  When they agree, `values[i]` is applied to
the i-th declared parameter in increasing `i`: to every parameter, the call
then returning, when no application throws, and otherwise to the parameters
before the first application that throws, whose exception is the exception
of the call.  The member is `const`: the declared parameters are as
before. -/
theorem C17_applyParametersToModel_arity_and_order
    (apply : MucoParameter → ℚ → Except Exception Unit) (p : MucoPhase) (values : List ℚ) :
    ((∃ e, (p.applyParametersToModel apply values).1 = .error e) ↔
      (values.length ≠ p.parameters.length ∨
        ∃ pair ∈ p.parameters.zip values, ∃ e, apply pair.1 pair.2 = .error e)) ∧
    (values.length ≠ p.parameters.length →
      p.applyParametersToModel apply values =
        (.error (.parameterCount p.parameters.length values.length), [])) ∧
    (values.length = p.parameters.length →
      ((∀ pair ∈ p.parameters.zip values, apply pair.1 pair.2 = .ok ()) →
        p.applyParametersToModel apply values = (.ok (), p.parameters.zip values)) ∧
      (∀ (j : Nat) (x : MucoParameter) (v : ℚ) (e : Exception),
        (p.parameters.zip values)[j]? = some (x, v) →
        (∀ (i : Nat) (y : MucoParameter) (w : ℚ), i < j →
          (p.parameters.zip values)[i]? = some (y, w) → apply y w = .ok ()) →
        apply x v = .error e →
        p.applyParametersToModel apply values =
          (.error e, (p.parameters.zip values).take j)) ∧
      (p.parameters.zip values).length = p.parameters.length ∧
      ∀ (i : Nat) (x : MucoParameter) (v : ℚ),
        p.parameters[i]? = some x → values[i]? = some v →
        (p.parameters.zip values)[i]? = some (x, v)) := by
  have hne : values.length ≠ p.parameters.length →
      p.applyParametersToModel apply values =
        (.error (.parameterCount p.parameters.length values.length), []) := by
    intro hlen
    simp [MucoPhase.applyParametersToModel, hlen]
  have heq : values.length = p.parameters.length →
      p.applyParametersToModel apply values =
        MucoPhase.applyLoop apply p.parameters values [] := by
    intro hlen
    simp [MucoPhase.applyParametersToModel, hlen]
  refine ⟨?_, hne, ?_⟩
  · by_cases hlen : values.length = p.parameters.length
    · rw [heq hlen, applyLoop_fails_iff]
      constructor
      · intro h
        exact Or.inr h
      · rintro (h | h)
        · exact absurd hlen h
        · exact h
    · rw [hne hlen]
      exact ⟨fun _ => Or.inl hlen, fun _ => ⟨_, rfl⟩⟩
  · intro hlen
    refine ⟨?_, ?_, by simp [hlen], ?_⟩
    · intro hall
      rw [heq hlen, applyLoop_of_ok apply _ _ _ hall]
      simp
    · intro j x v e hj hbefore hthrow
      rw [heq hlen, applyLoop_first_error apply _ _ _ j x v e hj hbefore hthrow]
      simp
    · intro i x v hx hv
      simp [List.getElem?_zip_eq_some, hx, hv]

/-- C17, as amended, on the phase with the parameters `k` and `m`: one value is
refused and nothing is applied; two values are applied in order when no
application throws; and when the application to `m` throws, the call throws
after the value 7 has been applied to `k`. -/
theorem C17_applyParametersToModel_arity_and_order_witness :
    Sample.phaseTwoParameters.applyParametersToModel Sample.applyOk [7] =
      (.error (.parameterCount 2 1), []) ∧
    Sample.phaseTwoParameters.applyParametersToModel Sample.applyOk [7, 9] =
      (.ok (), [(⟨"k", "mass"⟩, 7), (⟨"m", "length"⟩, 9)]) ∧
    Sample.phaseTwoParameters.applyParametersToModel Sample.applyThrowsOnM [7, 9] =
      (.error (.external "m"), [(⟨"k", "mass"⟩, 7)]) :=
  ⟨(C17_applyParametersToModel_arity_and_order Sample.applyOk Sample.phaseTwoParameters
      [7]).2.1 (by decide),
    ((C17_applyParametersToModel_arity_and_order Sample.applyOk Sample.phaseTwoParameters
      [7, 9]).2.2 (by decide)).1 (fun _ _ => rfl),
    ((C17_applyParametersToModel_arity_and_order Sample.applyThrowsOnM
      Sample.phaseTwoParameters [7, 9]).2.2 (by decide)).2.1 1 ⟨"m", "length"⟩ 9
      (.external "m") rfl
      (fun i y w hi hyw => by
        have hi0 : i = 0 := by omega
        subst hi0
        have hyk : (⟨"k", "mass"⟩, (7 : ℚ)) = (y, w) := by
          have := hyw
          simpa [Sample.phaseTwoParameters, MucoPhase.constructProperties] using this
        obtain ⟨rfl, rfl⟩ := Prod.mk.inj hyk
        rfl)
      rfl⟩

/-! ## MucoProblem -/

theorem updPhase0_length (f : MucoPhase → Except Exception Unit × MucoPhase)
    (problem : MucoProblem) :
    (MucoProblem.updPhase0 f problem).2.phases.length = problem.phases.length := by
  unfold MucoProblem.updPhase0
  split
  · rfl
  · rename_i phase0 rest hphases
    simp [hphases]

theorem updPhase0_cons (f : MucoPhase → Except Exception Unit × MucoPhase)
    (problem : MucoProblem) (phase0 : MucoPhase) (rest : List MucoPhase)
    (hphases : problem.phases = phase0 :: rest) :
    MucoProblem.updPhase0 f problem = ((f phase0).1, { phases := (f phase0).2 :: rest }) := by
  unfold MucoProblem.updPhase0
  rw [hphases]

/-- C18.  A freshly constructed problem has exactly one phase, a freshly
constructed one.  On a problem whose phases are `phase0` followed by `rest`,
each mutator of the problem has the outcome of the member of the same name
called on `phase0` with the same arguments, so it throws when that member
throws, and leaves the problem with `phase0` as that member leaves it,
followed by `rest` unchanged.  Whatever the problem, a mutator leaves the
number of phases unchanged. -/
theorem C18_problem_delegates_to_phase0 (getAsArray : MucoBounds → List ℚ)
    (problem : MucoProblem) (phase0 : MucoPhase) (rest : List MucoPhase)
    (hphases : problem.phases = phase0 :: rest)
    (name : String) (bounds : MucoBounds) (initial : MucoInitialBounds)
    (final : MucoFinalBounds) (parameter : MucoParameter) (cost : MucoCost)
    (constraint : MucoPathConstraint) :
    (MucoProblem.constructProperties.phases = [MucoPhase.constructProperties] ∧
      MucoProblem.constructProperties.phases.length = 1) ∧
    (problem.setStateInfo name bounds initial final =
        ((phase0.setStateInfo name bounds initial final).1,
          { phases := (phase0.setStateInfo name bounds initial final).2 :: rest }) ∧
      problem.setControlInfo name bounds initial final =
        ((phase0.setControlInfo name bounds initial final).1,
          { phases := (phase0.setControlInfo name bounds initial final).2 :: rest }) ∧
      problem.setTimeBounds getAsArray initial final =
        (.ok (), { phases := phase0.setTimeBounds getAsArray initial final :: rest }) ∧
      problem.setMultibodyConstraintBounds bounds =
        (.ok (), { phases := phase0.setMultibodyConstraintBounds bounds :: rest }) ∧
      problem.setMultiplierBounds bounds =
        (.ok (), { phases := phase0.setMultiplierBounds bounds :: rest }) ∧
      problem.addParameter parameter =
        ((phase0.addParameter parameter).1,
          { phases := (phase0.addParameter parameter).2 :: rest }) ∧
      problem.addCost cost =
        ((phase0.addCost cost).1, { phases := (phase0.addCost cost).2 :: rest }) ∧
      problem.addPathConstraint constraint =
        ((phase0.addPathConstraint constraint).1,
          { phases := (phase0.addPathConstraint constraint).2 :: rest })) ∧
    ((problem.setStateInfo name bounds initial final).2.phases.length = problem.phases.length ∧
      (problem.setControlInfo name bounds initial final).2.phases.length =
        problem.phases.length ∧
      (problem.setTimeBounds getAsArray initial final).2.phases.length =
        problem.phases.length ∧
      (problem.setMultibodyConstraintBounds bounds).2.phases.length = problem.phases.length ∧
      (problem.setMultiplierBounds bounds).2.phases.length = problem.phases.length ∧
      (problem.addParameter parameter).2.phases.length = problem.phases.length ∧
      (problem.addCost cost).2.phases.length = problem.phases.length ∧
      (problem.addPathConstraint constraint).2.phases.length = problem.phases.length) := by
  refine ⟨⟨rfl, rfl⟩, ⟨?_, ?_, ?_, ?_, ?_, ?_, ?_, ?_⟩, ⟨?_, ?_, ?_, ?_, ?_, ?_, ?_, ?_⟩⟩
  · exact updPhase0_cons _ problem phase0 rest hphases
  · exact updPhase0_cons _ problem phase0 rest hphases
  · exact updPhase0_cons _ problem phase0 rest hphases
  · exact updPhase0_cons _ problem phase0 rest hphases
  · exact updPhase0_cons _ problem phase0 rest hphases
  · exact updPhase0_cons _ problem phase0 rest hphases
  · exact updPhase0_cons _ problem phase0 rest hphases
  · exact updPhase0_cons _ problem phase0 rest hphases
  · exact updPhase0_length _ problem
  · exact updPhase0_length _ problem
  · exact updPhase0_length _ problem
  · exact updPhase0_length _ problem
  · exact updPhase0_length _ problem
  · exact updPhase0_length _ problem
  · exact updPhase0_length _ problem
  · exact updPhase0_length _ problem

/-- C18, on the sample problem of two phases: adding the parameter `k`, which
the first phase already holds, throws as `addParameter` of that phase does
and leaves both phases as they were; setting the state info `c` appends it
to the state infos of the first phase; the phases stay two. -/
theorem C18_problem_delegates_to_phase0_witness :
    Sample.problem.addParameter ⟨"k", "length"⟩ =
      (.error (.alreadyExists "k"), Sample.problem) ∧
    (Sample.problem.setStateInfo "c" (.ofRange 2 5) .unset .unset).2.phases.map
        (fun phase => phase.state_infos.map MucoVariableInfo.getName) =
      [["a", "b", "c"], []] ∧
    (Sample.problem.setStateInfo "c" (.ofRange 2 5) .unset .unset).2.phases.length = 2 :=
  have h := C18_problem_delegates_to_phase0 Sample.getAsArray Sample.problem Sample.phase
    [MucoPhase.constructProperties] rfl "c" (.ofRange 2 5) .unset .unset
    ⟨"k", "length"⟩ ⟨"k", "tracking"⟩ ⟨"k", ⟨"k", 1, []⟩, "other"⟩
  ⟨h.2.1.2.2.2.2.2.1.trans (by decide),
    (congrArg (fun r => r.2.phases.map
      (fun phase => phase.state_infos.map MucoVariableInfo.getName)) h.2.1.1).trans (by decide),
    h.2.2.1.trans (by decide)⟩

/-! ## MocoAccelerationTrackingGoal::calcIntegrandImpl -/

theorem normSqr_sub (a r : Vec3) :
    (a.sub r).normSqr = (a.x - r.x) ^ 2 + (a.y - r.y) ^ 2 + (a.z - r.z) ^ 2 := by
  simp only [Vec3.sub, Vec3.normSqr]
  ring

/-- One pass of the loop body at an index inside the three containers adds the
weighted squared error of that frame. -/
theorem integrandLoop_cons (calcValue : Spline → ℚ → ℚ) (g : MocoAccelerationTrackingGoal)
    (state : State) (frame : String) (rest : List String) (k : Nat) (acc : ℚ)
    (hframe : g.m_model_frames[k]? = some frame)
    (hweights : k < g.m_acceleration_weights.length)
    (hsplines : 3 * k + 2 < g.m_ref_splines.length) :
    MocoAccelerationTrackingGoal.integrandLoop calcValue g state (frame :: rest) k acc =
      MocoAccelerationTrackingGoal.integrandLoop calcValue g state rest (k + 1)
        (acc + g.weightedSquaredError calcValue state k) := by
  have h0 : 3 * k + 0 < g.m_ref_splines.length := by omega
  have h1 : 3 * k + 1 < g.m_ref_splines.length := by omega
  simp only [MocoAccelerationTrackingGoal.integrandLoop,
    MocoAccelerationTrackingGoal.referenceAcceleration,
    List.getElem?_eq_getElem h0, List.getElem?_eq_getElem h1,
    List.getElem?_eq_getElem hsplines, List.getElem?_eq_getElem hweights]
  congr 1
  simp only [MocoAccelerationTrackingGoal.weightedSquaredError,
    MocoAccelerationTrackingGoal.weightAt, MocoAccelerationTrackingGoal.accelerationAt,
    MocoAccelerationTrackingGoal.referenceValue, hframe, normSqr_sub,
    List.getD_eq_getElem?_getD, List.getElem?_eq_getElem hweights,
    List.getElem?_eq_getElem hsplines, List.getElem?_eq_getElem h1, Option.getD_some]
  have h00 : 3 * k < g.m_ref_splines.length := by omega
  simp only [List.getElem?_eq_getElem h00]
  rfl

theorem integrandLoop_eq (calcValue : Spline → ℚ → ℚ) (g : MocoAccelerationTrackingGoal)
    (state : State) (rest : List String) (k : Nat) (acc : ℚ)
    (hrest : ∀ j, j < rest.length → g.m_model_frames[k + j]? = rest[j]?)
    (hweights : k + rest.length ≤ g.m_acceleration_weights.length)
    (hsplines : 3 * (k + rest.length) ≤ g.m_ref_splines.length) :
    MocoAccelerationTrackingGoal.integrandLoop calcValue g state rest k acc =
      some (acc + ((List.range rest.length).map
        (fun j => g.weightedSquaredError calcValue state (k + j))).sum) := by
  induction rest generalizing k acc with
  | nil => simp [MocoAccelerationTrackingGoal.integrandLoop]
  | cons frame rest ih =>
    have hframe : g.m_model_frames[k]? = some frame := by
      have := hrest 0 (by simp)
      simpa using this
    have hlen : (frame :: rest).length = rest.length + 1 := rfl
    rw [hlen] at hweights hsplines
    rw [integrandLoop_cons calcValue g state frame rest k acc hframe (by omega) (by omega)]
    rw [ih (k + 1) _ ?_ (by omega) (by omega)]
    · congr 1
      rw [hlen, List.range_succ_eq_map, List.map_cons, List.sum_cons, List.map_map]
      have hfun : ((fun j => g.weightedSquaredError calcValue state (k + j)) ∘ Nat.succ) =
          (fun j => g.weightedSquaredError calcValue state (k + 1 + j)) := by
        funext j
        simp only [Function.comp]
        congr 1
        omega
      rw [hfun]
      simp only [Nat.add_zero]
      ring
    · intro j hj
      have := hrest (j + 1) (by simp [hj])
      have hidx : k + 1 + j = k + (j + 1) := by omega
      rw [hidx, this]
      simp

/-- C19.  For a goal whose caches hold n frames, n weights and 3n splines, as
after one initialisation, `calcIntegrandImpl` at a state with time t sets
the integrand to the sum over the frames i of
`w_i * ((a_i.x - r_{3i}(t))^2 + (a_i.y - r_{3i+1}(t))^2 + (a_i.z - r_{3i+2}(t))^2)`,
with `a_i` the live linear acceleration in ground of frame i and `r_k(t)`
the value of spline k at t.  For a frame of weight 2 with simulated
acceleration (1, 0, 0) and reference (0, 0, 0), followed by a frame of weight
1 whose simulated acceleration equals its reference, the integrand is 2. -/
theorem C19_integrand_weighted_squared_error (calcValue : Spline → ℚ → ℚ)
    (g : MocoAccelerationTrackingGoal) (state : State) (n : Nat)
    (hframes : g.m_model_frames.length = n)
    (hweights : g.m_acceleration_weights.length = n)
    (hsplines : g.m_ref_splines.length = 3 * n) :
    g.calcIntegrandImpl calcValue state =
      some (((List.range n).map (fun i => g.weightedSquaredError calcValue state i)).sum) ∧
    (n = 2 → g.weightAt 0 = 2 → g.weightAt 1 = 1 →
      g.accelerationAt state 0 = ⟨1, 0, 0⟩ →
      g.referenceValue calcValue 0 state.time = 0 →
      g.referenceValue calcValue 1 state.time = 0 →
      g.referenceValue calcValue 2 state.time = 0 →
      g.accelerationAt state 1 =
        ⟨g.referenceValue calcValue 3 state.time, g.referenceValue calcValue 4 state.time,
          g.referenceValue calcValue 5 state.time⟩ →
      g.calcIntegrandImpl calcValue state = some 2) := by
  have hmain : g.calcIntegrandImpl calcValue state =
      some (((List.range n).map (fun i => g.weightedSquaredError calcValue state i)).sum) := by
    unfold MocoAccelerationTrackingGoal.calcIntegrandImpl
    rw [integrandLoop_eq calcValue g state g.m_model_frames 0 0
      (by intro j _; simp) (by omega) (by omega), hframes]
    simp
  refine ⟨hmain, ?_⟩
  intro hn hw0 hw1 ha0 hr0 hr1 hr2 ha1
  rw [hmain, hn]
  simp only [List.range_succ, List.range_zero, List.nil_append, List.cons_append, List.map_cons,
    List.map_nil, List.sum_cons, List.sum_nil,
    MocoAccelerationTrackingGoal.weightedSquaredError, hw0, hw1, ha0, ha1, hr0, hr1, hr2]
  norm_num

/-- C19, at the sample goal of the frames `/A` (weight 2, simulated (1, 0, 0),
reference zero) and `/B` (weight 1, simulated and reference zero): the
integrand is 2. -/
theorem C19_integrand_weighted_squared_error_witness :
    Sample.goalReady.calcIntegrandImpl Sample.calcValue Sample.state = some 2 :=
  (C19_integrand_weighted_squared_error Sample.calcValue Sample.goalReady Sample.state 2
    rfl rfl rfl).2 rfl rfl rfl rfl rfl rfl rfl rfl

/-! ## MocoAccelerationTrackingGoal::initializeOnModelImpl -/

/-- With a reference table in memory, no reference file and a non-empty list of
configured frame paths, the test of line 50 takes the first branch:
`m_frame_paths` becomes the column labels of the table and the whole table
is the reference, whatever the configured frame paths are. -/
theorem resolveReference_of_frame_paths (env : GoalEnvironment)
    (g : MocoAccelerationTrackingGoal)
    (hfile : g.acceleration_reference_file = "")
    (htable : g.m_acceleration_table.getNumColumns ≠ 0)
    (hpaths : g.frame_paths ≠ []) :
    MocoAccelerationTrackingGoal.resolveReference env g =
      .ok ({ g with m_frame_paths := g.m_acceleration_table.getColumnLabels },
        g.m_acceleration_table) := by
  have hempty : g.frame_paths.isEmpty = false := by
    cases hfp : g.frame_paths with
    | nil => exact absurd hfp hpaths
    | cons a rest => rfl
  simp [MocoAccelerationTrackingGoal.resolveReference, hfile, htable, hempty]

/-- C20, at the failing input: a goal configured with the frame path `/A` alone
and a reference table with the columns `/A` and `/B`, initialised on a model
that has both frames.  The call returns; the resolved frame paths are `/A`
and `/B`, not the configured `/A`, and the spline set has the six splines of
both columns, so the column `/B`, which is not configured, is tracked. -/
theorem C20_configured_frame_paths_ignored :
    Sample.goalOnePath.frame_paths = ["/A"] ∧
    Sample.goalOnePath.m_acceleration_table.getColumnLabels = ["/A", "/B"] ∧
    MocoAccelerationTrackingGoal.initializeOnModelImpl Sample.environment Sample.goalOnePath
        Sample.frameModel = .ok Sample.goalOnePathInitialized ∧
    Sample.goalOnePathInitialized.m_frame_paths = ["/A", "/B"] ∧
    Sample.goalOnePathInitialized.m_model_frames = ["/A", "/B"] ∧
    Sample.goalOnePathInitialized.m_ref_splines.map Spline.name =
      ["/A/acceleration_x", "/A/acceleration_y", "/A/acceleration_z",
       "/B/acceleration_x", "/B/acceleration_y", "/B/acceleration_z"] := by
  refine ⟨rfl, by decide, rfl, ?_, ?_, ?_⟩ <;> decide

/-! ## MucoPhase::createMultibodyConstraintNames -/

/-- C28, at the failing input: on the sample phase after `initialize`, whose
multibody constraints are named `constraint0` and `constraint2`, the body of
`createMultibodyConstraintNames` builds exactly these names but hands
nothing back to the caller, where `createStateInfoNames` hands back the
names it builds. -/
theorem C28_createMultibodyConstraintNames_returns_nothing :
    Sample.initialized.m_multibody_constraints.map (fun mc => mc.getConstraintInfo.getName) =
      ["constraint0", "constraint2"] ∧
    Sample.initialized.createMultibodyConstraintNames.1 = ["constraint0", "constraint2"] ∧
    Sample.initialized.createMultibodyConstraintNames.2 = none ∧
    Sample.initialized.createStateInfoNames = some ["a", "b"] := by
  refine ⟨by decide, by decide, rfl, by decide⟩

/-- For every phase the body builds the names of the constraint infos in order
and hands nothing back. -/
theorem createMultibodyConstraintNames_eq (p : MucoPhase) :
    p.createMultibodyConstraintNames =
      (p.m_multibody_constraints.map (fun mc => mc.getConstraintInfo.getName), none) := rfl

/-! ## Validation again -/

/-- C29, as stated, fails: with unset main bounds and the set initial bounds
[-1, 1], which no main range contains, `validate()` compares against
not-a-number only, so `setStateInfo` and `setControlInfo` return normally
and append the new info to the collection. -/
theorem C29_setInfo_unset_main_bounds_counterexample :
    ((MucoBounds.ofRange (-1) 1).isSet = true ∧
      ¬ (MucoBounds.unset.getLower ≤ (MucoBounds.ofRange (-1) 1).getLower ∧
        (MucoBounds.ofRange (-1) 1).getUpper ≤ MucoBounds.unset.getUpper)) ∧
    Sample.phase.setStateInfo "c" MucoBounds.unset (MucoBounds.ofRange (-1) 1)
        MucoBounds.unset =
      (.ok (), { Sample.phase with state_infos := Sample.phase.state_infos ++
        [⟨"c", MucoBounds.unset, MucoBounds.ofRange (-1) 1, MucoBounds.unset⟩] }) ∧
    Sample.phase.setControlInfo "c" MucoBounds.unset (MucoBounds.ofRange (-1) 1)
        MucoBounds.unset =
      (.ok (), { Sample.phase with control_infos := Sample.phase.control_infos ++
        [⟨"c", MucoBounds.unset, MucoBounds.ofRange (-1) 1, MucoBounds.unset⟩] }) := by
  refine ⟨by decide, by decide, by decide⟩

/-- C29, as amended.  `setStateInfo` and `setControlInfo` are atomic on invalid
bounds: when the given main bounds are set and the given initial bounds or
the given final bounds are set and not contained in them, `validate()`
throws on the variable info made of the arguments, each of the two calls
throws that exception, and the phase, and so its state infos and control
infos, is exactly what it was before the call, whether or not an entry with
that name existed. -/
theorem C29_setInfo_atomic_on_invalid_bounds (p : MucoPhase) (name : String)
    (b : MucoBounds) (ib : MucoInitialBounds) (fb : MucoFinalBounds)
    (hmain : b.isSet = true)
    (hinvalid : (ib.isSet = true ∧ ¬ (b.getLower ≤ ib.getLower ∧ ib.getUpper ≤ b.getUpper)) ∨
      (fb.isSet = true ∧ ¬ (b.getLower ≤ fb.getLower ∧ fb.getUpper ≤ b.getUpper))) :
    ∃ e, MucoVariableInfo.validate ⟨name, b, ib, fb⟩ = .error e ∧
      p.setStateInfo name b ib fb = (.error e, p) ∧
      p.setControlInfo name b ib fb = (.error e, p) ∧
      (p.setStateInfo name b ib fb).2.state_infos = p.state_infos ∧
      (p.setControlInfo name b ib fb).2.control_infos = p.control_infos := by
  have hnot : ¬ MucoVariableInfo.validate ⟨name, b, ib, fb⟩ = .ok () := by
    rw [validate_ok_iff]
    rintro ⟨hi, hf⟩
    rcases hinvalid with ⟨hset, hout⟩ | ⟨hset, hout⟩
    · rcases hi with hunset | hbunset | hin
      · rw [hset] at hunset
        cases hunset
      · rw [hmain] at hbunset
        cases hbunset
      · exact hout hin
    · rcases hf with hunset | hbunset | hin
      · rw [hset] at hunset
        cases hunset
      · rw [hmain] at hbunset
        cases hbunset
      · exact hout hin
  rcases validate_ok_or_error ⟨name, b, ib, fb⟩ with hok | ⟨e, he⟩
  · exact absurd hok hnot
  · have hnew := (new_error_iff name b ib fb e).mpr he
    have hs := setStateInfo_of_new_error p name b ib fb e hnew
    have hc := setControlInfo_of_new_error p name b ib fb e hnew
    exact ⟨e, he, hs, hc, by rw [hs], by rw [hc]⟩

/-- C29, as amended, at the sample phase: setting `b`, which exists, or `c`,
which does not, with initial bounds [-1, 1] outside the set bounds [0, 1]
throws and leaves the phase as it was. -/
theorem C29_setInfo_atomic_on_invalid_bounds_witness :
    (∃ e, Sample.phase.setStateInfo "b" (.ofRange 0 1) (.ofRange (-1) 1) .unset =
      (.error e, Sample.phase)) ∧
    (∃ e, Sample.phase.setControlInfo "c" (.ofRange 0 1) (.ofRange (-1) 1) .unset =
      (.error e, Sample.phase)) :=
  have hb := C29_setInfo_atomic_on_invalid_bounds Sample.phase "b" (.ofRange 0 1)
    (.ofRange (-1) 1) .unset rfl (Or.inl (by decide))
  have hc := C29_setInfo_atomic_on_invalid_bounds Sample.phase "c" (.ofRange 0 1)
    (.ofRange (-1) 1) .unset rfl (Or.inl (by decide))
  ⟨hb.elim (fun e he => ⟨e, he.2.1⟩), hc.elim (fun e he => ⟨e, he.2.2.1⟩)⟩

/-- C30.  `validate()` never inspects the main bounds on their own: for every
variable info whose initial bounds and final bounds are both unset,
`validate()` returns normally whatever the main bounds are. -/
theorem C30_validate_ignores_main_bounds (v : MucoVariableInfo)
    (hinitial : v.initial_bounds.isSet = false) (hfinal : v.final_bounds.isSet = false) :
    v.validate = .ok () := by
  rw [validate_ok_iff]
  exact ⟨Or.inl hinitial, Or.inl hfinal⟩

/-- C30, at main bounds whose lower value 5 is greater than their upper
value 1. -/
theorem C30_validate_ignores_main_bounds_witness :
    MucoVariableInfo.validate ⟨"x", MucoBounds.ofRange 5 1, MucoBounds.unset, MucoBounds.unset⟩ =
      .ok () :=
  C30_validate_ignores_main_bounds
    ⟨"x", MucoBounds.ofRange 5 1, MucoBounds.unset, MucoBounds.unset⟩ rfl rfl

/-! ## MocoAccelerationTrackingGoal::initializeOnModelImpl: the branches of line 50 -/

/-- With a reference table in memory, no reference file and no configured frame
path, the test of line 50 takes the second branch, whose loop over the
configured frame paths has nothing to do: `m_frame_paths` is left as it was
and the reference has the independent column of the table and no column. -/
theorem resolveReference_of_no_frame_paths (env : GoalEnvironment)
    (g : MocoAccelerationTrackingGoal)
    (hfile : g.acceleration_reference_file = "")
    (htable : g.m_acceleration_table.getNumColumns ≠ 0)
    (hpaths : g.frame_paths = []) :
    MocoAccelerationTrackingGoal.resolveReference env g =
      .ok ({ g with m_frame_paths := g.m_frame_paths },
        TimeSeriesTableVec3.ofIndependentColumn g.m_acceleration_table.getIndependentColumn) := by
  simp [MocoAccelerationTrackingGoal.resolveReference, hfile, htable, hpaths,
    MocoAccelerationTrackingGoal.selectColumns]

/-- C21, at the failing input: a goal configured with the frame path `/C` and a
reference table whose columns are `/A` and `/B`, initialised on a model that
has the frames `/A` and `/B`.  `/C` is not among the column labels, yet the
call returns, with the frame paths `/A` and `/B`. -/
theorem C21_missing_column_not_rejected :
    Sample.goalMissingPath.frame_paths = ["/C"] ∧
    "/C" ∉ Sample.goalMissingPath.m_acceleration_table.getColumnLabels ∧
    (∃ g, MocoAccelerationTrackingGoal.initializeOnModelImpl Sample.environment
        Sample.goalMissingPath Sample.frameModel = .ok g ∧
      g.m_frame_paths = ["/A", "/B"]) := by
  refine ⟨rfl, by decide, ⟨_, rfl, by decide⟩⟩

/-- C22, at the failing input: a goal with no frame path configured and a
reference table whose columns are `/A` and `/B`, initialised on a model that
has both frames.  The call returns with no frame path resolved, no frame
cached and no spline, where the labels of the table are `/A` and `/B`. -/
theorem C22_all_columns_not_used :
    Sample.goalNoPaths.frame_paths = [] ∧
    Sample.goalNoPaths.m_acceleration_table.getColumnLabels = ["/A", "/B"] ∧
    (∃ g, MocoAccelerationTrackingGoal.initializeOnModelImpl Sample.environment
        Sample.goalNoPaths Sample.frameModel = .ok g ∧
      g.m_frame_paths = [] ∧ g.m_model_frames = [] ∧ g.m_ref_splines = []) := by
  refine ⟨rfl, by decide, ⟨_, rfl, by decide, by decide, by decide⟩⟩

/-- With a reference table in memory, no reference file and a non-empty list of
configured frame paths, a table in which a label appears twice makes the call
throw the redundancy exception. -/
theorem initializeOnModelImpl_redundant_of_frame_paths (env : GoalEnvironment)
    (g : MocoAccelerationTrackingGoal) (model : FrameModel)
    (hfile : g.acceleration_reference_file = "")
    (htable : g.m_acceleration_table.getNumColumns ≠ 0)
    (hpaths : g.frame_paths ≠ [])
    (hredundant : ¬ g.m_acceleration_table.getColumnLabels.Nodup) :
    MocoAccelerationTrackingGoal.initializeOnModelImpl env g model = .error .redundantLabels := by
  simp [MocoAccelerationTrackingGoal.initializeOnModelImpl,
    resolveReference_of_frame_paths env g hfile htable hpaths,
    MocoAccelerationTrackingGoal.checkRedundantLabels, hredundant]

/-- C24, at the failing input: a reference table in which two columns are
labelled `/A`.  With the frame path `/A` configured the call throws the
redundancy exception; with no frame path configured the call returns. -/
theorem C24_redundant_labels_pass_without_frame_paths :
    Sample.tableRedundant.getColumnLabels = ["/A", "/A"] ∧
    MocoAccelerationTrackingGoal.initializeOnModelImpl Sample.environment
        Sample.goalRedundantOnePath Sample.frameModel = .error .redundantLabels ∧
    Sample.goalRedundantNoPaths.frame_paths = [] ∧
    (∃ g, MocoAccelerationTrackingGoal.initializeOnModelImpl Sample.environment
        Sample.goalRedundantNoPaths Sample.frameModel = .ok g) := by
  refine ⟨by decide, by decide, rfl, ⟨_, rfl⟩⟩

/-! ## MocoAccelerationTrackingGoal::initializeOnModelImpl called again -/

/-- C25, at the failing input: the goal configured with `/A` and the table of the
columns `/A` and `/B` is initialised twice on the model that has both
frames.  Both calls return.  After the second, two frame paths are resolved
and the spline set has six splines, but four model frames and four weights
are cached, and `calcIntegrandImpl` reads the spline with index 6, outside
the spline set. -/
theorem C25_second_initialization_breaks_lengths :
    MocoAccelerationTrackingGoal.initializeOnModelImpl Sample.environment Sample.goalOnePath
        Sample.frameModel = .ok Sample.goalOnePathInitialized ∧
    MocoAccelerationTrackingGoal.initializeOnModelImpl Sample.environment
        Sample.goalOnePathInitialized Sample.frameModel = .ok Sample.goalOnePathTwice ∧
    Sample.goalOnePathTwice.m_frame_paths.length = 2 ∧
    Sample.goalOnePathTwice.m_model_frames.length = 4 ∧
    Sample.goalOnePathTwice.m_acceleration_weights.length = 4 ∧
    Sample.goalOnePathTwice.m_ref_splines.length = 6 ∧
    Sample.goalOnePathTwice.m_ref_splines[3 * 2 + 0]? = none ∧
    Sample.goalOnePathTwice.calcIntegrandImpl Sample.calcValue Sample.state = none := by
  refine ⟨rfl, rfl, ?_, ?_, ?_, ?_, ?_, ?_⟩ <;> decide

/-! ## MocoAccelerationTrackingGoal::initializeOnModelImpl: two reference sources -/

/-- With a reference file configured and the `assert`s compiled out, the
in-memory table plays no part in resolving the reference. -/
theorem resolveReference_of_file (env : GoalEnvironment) (g : MocoAccelerationTrackingGoal)
    (hfile : g.acceleration_reference_file ≠ "") (hassert : env.assertionsEnabled = false) :
    MocoAccelerationTrackingGoal.resolveReference env g =
      (MocoAccelerationTrackingGoal.resolveReference env
        { g with m_acceleration_table := TimeSeriesTableVec3.empty }).map
        (fun r => ({ r.1 with m_acceleration_table := g.m_acceleration_table }, r.2)) := by
  simp only [MocoAccelerationTrackingGoal.resolveReference, hfile, hassert, ne_eq,
    not_false_eq_true, or_true, if_true, Bool.false_eq_true, false_and, if_false]
  cases env.readTableFromFile g.acceleration_reference_file with
  | error e => rfl
  | ok t =>
    simp only
    split
    · rfl
    · cases MocoAccelerationTrackingGoal.selectColumns t t.getColumnLabels g.frame_paths
          (g.m_frame_paths, TimeSeriesTableVec3.ofIndependentColumn t.getIndependentColumn) with
      | error e => rfl
      | ok r => rfl

/-- For a goal configured with both an in-memory reference table that has at
least one column and a non-empty reference-file path, `initializeOnModelImpl`
has no `throw` for the two sources: with the `assert`s compiled in it stops
at the failed `assert` of line 38, and with them compiled out the in-memory
table plays no part and the call goes on as for the same goal with the
reference file alone. -/
theorem initializeOnModelImpl_of_both_sources (env : GoalEnvironment)
    (g : MocoAccelerationTrackingGoal) (model : FrameModel)
    (htable : g.m_acceleration_table.getNumColumns ≠ 0)
    (hfile : g.acceleration_reference_file ≠ "") :
    (env.assertionsEnabled = true →
      MocoAccelerationTrackingGoal.initializeOnModelImpl env g model = .error .assertion) ∧
    (env.assertionsEnabled = false →
      MocoAccelerationTrackingGoal.initializeOnModelImpl env g model =
        (MocoAccelerationTrackingGoal.initializeOnModelImpl env
          { g with m_acceleration_table := TimeSeriesTableVec3.empty } model).map
          (fun r => { r with m_acceleration_table := g.m_acceleration_table })) := by
  constructor
  · intro hassert
    simp [MocoAccelerationTrackingGoal.initializeOnModelImpl,
      MocoAccelerationTrackingGoal.resolveReference, hfile, hassert, htable]
  · intro hassert
    unfold MocoAccelerationTrackingGoal.initializeOnModelImpl
    rw [resolveReference_of_file env g hfile hassert]
    cases MocoAccelerationTrackingGoal.resolveReference env
        { g with m_acceleration_table := TimeSeriesTableVec3.empty } with
    | error e => rfl
    | ok r =>
      obtain ⟨g1, t⟩ := r
      simp only [Except.map]
      cases MocoAccelerationTrackingGoal.checkRedundantLabels t.getColumnLabels with
      | error e => rfl
      | ok u =>
        simp only
        cases MocoAccelerationTrackingGoal.cacheFrames model g1.acceleration_weights
            g1.m_frame_paths (g1.m_model_frames, g1.m_acceleration_weights) with
        | error e => rfl
        | ok c => rfl

/-- C23, at the failing input: the goal configured with both the sample table
in memory (two columns) and the reference file `ref.sto`, in a build whose
`assert`s are compiled out.  `initializeOnModelImpl` returns without any
error: it reads the file, ignores the in-memory table and completes the
initialisation on the table of the file, whose only column is `/B`, with its
three splines and its one cached frame, against the comment of line 36
("Should not be able to supply any two simultaneously"). -/
theorem C23_dual_source_accepted_without_assert :
    Sample.goalBothSources.m_acceleration_table.getNumColumns = 2 ∧
    Sample.goalBothSources.acceleration_reference_file = "ref.sto" ∧
    Sample.environmentWithFile.assertionsEnabled = false ∧
    (∃ g, MocoAccelerationTrackingGoal.initializeOnModelImpl Sample.environmentWithFile
        Sample.goalBothSources Sample.frameModel = .ok g ∧
      g.m_frame_paths = ["/B"] ∧
      g.m_ref_splines.length = 3 ∧
      g.m_model_frames.length = 1) := by
  refine ⟨by decide, rfl, rfl, ⟨_, rfl, by decide, by decide, by decide⟩⟩

/-! ## MocoAccelerationTrackingGoal::initializeOnModelImpl: the caches -/

theorem selectColumns_members (tableToUse : TimeSeriesTableVec3) (labels : List String)
    (paths : List String) (start result : List String × TimeSeriesTableVec3)
    (hsel : MocoAccelerationTrackingGoal.selectColumns tableToUse labels paths start =
      .ok result) :
    result.1 = start.1 ++ paths := by
  induction paths generalizing start with
  | nil =>
    simp only [MocoAccelerationTrackingGoal.selectColumns, Except.ok.injEq] at hsel
    simp [← hsel]
  | cons path rest ih =>
    obtain ⟨framePaths, table⟩ := start
    simp only [MocoAccelerationTrackingGoal.selectColumns] at hsel
    split at hsel
    · cases hsel
    · have := ih _ hsel
      simpa using this

/-- Resolving the reference changes no member of the goal other than
`m_frame_paths`. -/
theorem resolveReference_members (env : GoalEnvironment) (g g1 : MocoAccelerationTrackingGoal)
    (t : TimeSeriesTableVec3)
    (hres : MocoAccelerationTrackingGoal.resolveReference env g = .ok (g1, t)) :
    g1 = { g with m_frame_paths := g1.m_frame_paths } := by
  unfold MocoAccelerationTrackingGoal.resolveReference at hres
  simp only at hres
  split at hres
  · split at hres
    · cases hres
    · split at hres
      · simp only [Except.ok.injEq, Prod.mk.injEq] at hres
        rw [← hres.1]
      · split at hres
        · cases hres
        · simp only [Except.ok.injEq, Prod.mk.injEq] at hres
          rw [← hres.1]
  · simp only [Except.ok.injEq, Prod.mk.injEq] at hres
    rw [← hres.1]

theorem cacheFrames_ok (model : FrameModel) (weights : List (String × ℚ))
    (paths : List String) (start result : List String × List ℚ)
    (hcache : MocoAccelerationTrackingGoal.cacheFrames model weights paths start = .ok result) :
    result = (start.1 ++ paths,
      start.2 ++ paths.map (MocoAccelerationTrackingGoal.weightFor weights)) ∧
    ∀ path ∈ paths, path ∈ model.framePaths := by
  induction paths generalizing start with
  | nil =>
    simp only [MocoAccelerationTrackingGoal.cacheFrames, Except.ok.injEq] at hcache
    simp [← hcache]
  | cons path rest ih =>
    obtain ⟨frames, ws⟩ := start
    simp only [MocoAccelerationTrackingGoal.cacheFrames] at hcache
    split at hcache
    · cases hcache
    · rename_i hmem
      obtain ⟨hres, hall⟩ := ih _ hcache
      refine ⟨by simpa using hres, ?_⟩
      intro q hq
      rcases List.mem_cons.mp hq with rfl | hq
      · exact not_not.mp hmem
      · exact hall q hq

/-- The steps behind a call of `initializeOnModelImpl` that returns. -/
theorem initializeOnModelImpl_ok_inv (env : GoalEnvironment)
    (g g2 : MocoAccelerationTrackingGoal) (model : FrameModel)
    (hinit : MocoAccelerationTrackingGoal.initializeOnModelImpl env g model = .ok g2) :
    ∃ g1 t, MocoAccelerationTrackingGoal.resolveReference env g = .ok (g1, t) ∧
      t.getColumnLabels.Nodup ∧
      (∀ path ∈ g1.m_frame_paths, path ∈ model.framePaths) ∧
      g2 = { g with
        m_frame_paths := g1.m_frame_paths
        m_model_frames := g.m_model_frames ++ g1.m_frame_paths
        m_acceleration_weights := g.m_acceleration_weights ++
          g1.m_frame_paths.map (MocoAccelerationTrackingGoal.weightFor g.acceleration_weights)
        m_ref_splines := splinesOfTable t
        numIntegrals := 1
        numOutputs := 1 } := by
  unfold MocoAccelerationTrackingGoal.initializeOnModelImpl at hinit
  split at hinit
  · cases hinit
  · rename_i g1 t hres
    split at hinit
    · cases hinit
    · rename_i hcheck
      split at hinit
      · cases hinit
      · rename_i frames ws hcache
        have hnodup : t.getColumnLabels.Nodup := by
          unfold MocoAccelerationTrackingGoal.checkRedundantLabels at hcheck
          split at hcheck
          · assumption
          · cases hcheck
        obtain ⟨hpair, hall⟩ := cacheFrames_ok _ _ _ _ _ hcache
        simp only [Prod.mk.injEq] at hpair
        obtain ⟨hframes, hws⟩ := hpair
        have hg1 := resolveReference_members env g g1 t hres
        refine ⟨g1, t, hres, hnodup, hall, ?_⟩
        rw [← Except.ok.inj hinit, hframes, hws, hg1]

/-- C26.  After a call of `initializeOnModelImpl` that returns, made on a goal
whose cached weights are empty (a first initialisation), with resolved frame
paths p_0 .. p_{n-1}: there are n cached weights, and the cached weight at
index i is the weight of the entry named p_i of `acceleration_weights` when
the set contains one, and 1 otherwise. -/
theorem C26_cached_weights (env : GoalEnvironment) (g g2 : MocoAccelerationTrackingGoal)
    (model : FrameModel) (hfresh : g.m_acceleration_weights = [])
    (hinit : MocoAccelerationTrackingGoal.initializeOnModelImpl env g model = .ok g2) :
    g2.m_acceleration_weights.length = g2.m_frame_paths.length ∧
    g2.acceleration_weights = g.acceleration_weights ∧
    ∀ (i : Nat) (path : String), g2.m_frame_paths[i]? = some path →
      ∃ weight, g2.m_acceleration_weights[i]? = some weight ∧
        (∀ w, g.acceleration_weights.find? (fun w => w.1 = path) = some w → weight = w.2) ∧
        ((∀ w ∈ g.acceleration_weights, w.1 ≠ path) → weight = 1) := by
  obtain ⟨g1, t, _, _, _, rfl⟩ := initializeOnModelImpl_ok_inv env g g2 model hinit
  refine ⟨by simp [hfresh], rfl, ?_⟩
  intro i path hpath
  change g1.m_frame_paths[i]? = some path at hpath
  refine ⟨MocoAccelerationTrackingGoal.weightFor g.acceleration_weights path, ?_, ?_, ?_⟩
  · show (g.m_acceleration_weights ++ _)[i]? = _
    simp [hfresh, hpath]
  · intro w hw
    simp [MocoAccelerationTrackingGoal.weightFor, hw]
  · intro hnone
    have hfind : g.acceleration_weights.find? (fun w => w.1 = path) = none := by
      rw [List.find?_eq_none]
      intro w hw
      simpa using hnone w hw
    simp [MocoAccelerationTrackingGoal.weightFor, hfind]

/-- C26, at the goal configured with `/A`, here with the weight 2 for `/A`:
after the first initialisation on the sample frame model the resolved frame
paths are `/A` and `/B` and the cached weights are 2 and 1. -/
theorem C26_cached_weights_witness :
    ∃ g2, MocoAccelerationTrackingGoal.initializeOnModelImpl Sample.environment
        { Sample.goalOnePath with acceleration_weights := [("/A", 2)] } Sample.frameModel =
          .ok g2 ∧
      g2.m_frame_paths = ["/A", "/B"] ∧ g2.m_acceleration_weights = [2, 1] ∧
      g2.m_acceleration_weights.length = g2.m_frame_paths.length :=
  ⟨_, rfl, by decide, by decide,
    (C26_cached_weights Sample.environment
      { Sample.goalOnePath with acceleration_weights := [("/A", 2)] } _ Sample.frameModel
      rfl rfl).1⟩

/-- With n frames, n weights and 3n splines cached, the integrand is the sum of
the weighted squared errors of the frames. -/
theorem calcIntegrandImpl_eq_sum (calcValue : Spline → ℚ → ℚ)
    (g : MocoAccelerationTrackingGoal) (state : State) (n : Nat)
    (hframes : g.m_model_frames.length = n)
    (hweights : g.m_acceleration_weights.length = n)
    (hsplines : g.m_ref_splines.length = 3 * n) :
    g.calcIntegrandImpl calcValue state =
      some (((List.range n).map (fun i => g.weightedSquaredError calcValue state i)).sum) := by
  unfold MocoAccelerationTrackingGoal.calcIntegrandImpl
  rw [integrandLoop_eq calcValue g state g.m_model_frames 0 0
    (by intro j _; simp) (by omega) (by omega), hframes]
  simp

/-! ## The integrand as a sum over tracked frames -/

theorem flatMap_three_getElem? {α β : Type} (fx fy fz : α → β) (l : List α) (i : Nat) :
    (l.flatMap (fun a => [fx a, fy a, fz a]))[3 * i]? = l[i]?.map fx ∧
    (l.flatMap (fun a => [fx a, fy a, fz a]))[3 * i + 1]? = l[i]?.map fy ∧
    (l.flatMap (fun a => [fx a, fy a, fz a]))[3 * i + 2]? = l[i]?.map fz := by
  induction l generalizing i with
  | nil => simp
  | cons a rest ih =>
    cases i with
    | zero => simp [List.flatMap_cons]
    | succ i =>
      obtain ⟨h0, h1, h2⟩ := ih i
      have e0 : 3 * (i + 1) = (3 * i) + 1 + 1 + 1 := by omega
      have e1 : 3 * (i + 1) + 1 = (3 * i + 1) + 1 + 1 + 1 := by omega
      have e2 : 3 * (i + 1) + 2 = (3 * i + 2) + 1 + 1 + 1 := by omega
      simp only [List.flatMap_cons, List.cons_append, List.nil_append]
      refine ⟨?_, ?_, ?_⟩
      · rw [e0]
        simpa using h0
      · rw [e1]
        simpa using h1
      · rw [e2]
        simpa using h2

theorem flatMap_three_length {α β : Type} (fx fy fz : α → β) (l : List α) :
    (l.flatMap (fun a => [fx a, fy a, fz a])).length = 3 * l.length := by
  induction l with
  | nil => rfl
  | cons a rest ih =>
    simp only [List.flatMap_cons, List.length_append, List.length_cons, List.length_nil, ih]
    omega

/-- In the goal that holds the given tracked frames, the weighted squared
error at an index is the error of the tracked frame at that index. -/
theorem weightedSquaredError_withTrackedFrames (calcValue : Spline → ℚ → ℚ)
    (g : MocoAccelerationTrackingGoal) (state : State) (frames : List TrackedFrame) (i : Nat)
    (f : TrackedFrame) (hf : frames[i]? = some f) :
    (g.withTrackedFrames frames).weightedSquaredError calcValue state i =
      MocoAccelerationTrackingGoal.trackedError calcValue state f := by
  obtain ⟨h0, h1, h2⟩ := flatMap_three_getElem? TrackedFrame.splineX TrackedFrame.splineY
    TrackedFrame.splineZ frames i
  simp only [MocoAccelerationTrackingGoal.weightedSquaredError,
    MocoAccelerationTrackingGoal.weightAt, MocoAccelerationTrackingGoal.accelerationAt,
    MocoAccelerationTrackingGoal.referenceValue, MocoAccelerationTrackingGoal.withTrackedFrames,
    MocoAccelerationTrackingGoal.trackedError, h0, h1, h2, hf, List.getD_eq_getElem?_getD,
    List.getElem?_map, Option.map_some', Option.getD_some]

/-- The integrand of the goal that holds the given tracked frames is the sum of
the errors of the tracked frames. -/
theorem calcIntegrandImpl_withTrackedFrames (calcValue : Spline → ℚ → ℚ)
    (g : MocoAccelerationTrackingGoal) (state : State) (frames : List TrackedFrame) :
    (g.withTrackedFrames frames).calcIntegrandImpl calcValue state =
      some ((frames.map (MocoAccelerationTrackingGoal.trackedError calcValue state)).sum) := by
  have hmain := calcIntegrandImpl_eq_sum calcValue (g.withTrackedFrames frames) state
    frames.length
    (by simp [MocoAccelerationTrackingGoal.withTrackedFrames])
    (by simp [MocoAccelerationTrackingGoal.withTrackedFrames])
    (flatMap_three_length TrackedFrame.splineX TrackedFrame.splineY TrackedFrame.splineZ frames)
  rw [hmain]
  congr 2
  apply List.ext_getElem?
  intro i
  by_cases hi : i < frames.length
  · have hf : frames[i]? = some frames[i] := List.getElem?_eq_getElem hi
    simp only [List.getElem?_map, List.getElem?_range hi, Option.map_some', hf]
    rw [weightedSquaredError_withTrackedFrames calcValue g state frames i _ hf]
  · have h1 : ((List.range frames.length).map
        (fun i => (g.withTrackedFrames frames).weightedSquaredError calcValue state i))[i]? =
          none := List.getElem?_eq_none (by simp; omega)
    have h2 : (frames.map (MocoAccelerationTrackingGoal.trackedError calcValue state))[i]? =
        none := List.getElem?_eq_none (by simp; omega)
    rw [h1, h2]

/-- C27.  Over exact arithmetic, for the goal whose caches hold a list of tracked
frames (each frame with its weight and its three splines): permuting the
tracked frames leaves the integrand unchanged; a tracked frame whose weight
is 0 contributes 0; and the integrand with such a frame among the tracked
frames equals the integrand of the same goal with that frame removed. -/
theorem C27_integrand_order_independent (calcValue : Spline → ℚ → ℚ)
    (g : MocoAccelerationTrackingGoal) (state : State) :
    (∀ frames1 frames2 : List TrackedFrame, frames1.Perm frames2 →
      (g.withTrackedFrames frames1).calcIntegrandImpl calcValue state =
        (g.withTrackedFrames frames2).calcIntegrandImpl calcValue state) ∧
    (∀ f : TrackedFrame, f.weight = 0 →
      MocoAccelerationTrackingGoal.trackedError calcValue state f = 0) ∧
    (∀ (before : List TrackedFrame) (f : TrackedFrame) (after : List TrackedFrame),
      f.weight = 0 →
      (g.withTrackedFrames (before ++ f :: after)).calcIntegrandImpl calcValue state =
        (g.withTrackedFrames (before ++ after)).calcIntegrandImpl calcValue state) := by
  have hzero : ∀ f : TrackedFrame, f.weight = 0 →
      MocoAccelerationTrackingGoal.trackedError calcValue state f = 0 := by
    intro f hf
    simp [MocoAccelerationTrackingGoal.trackedError, hf]
  refine ⟨?_, hzero, ?_⟩
  · intro frames1 frames2 hperm
    rw [calcIntegrandImpl_withTrackedFrames, calcIntegrandImpl_withTrackedFrames]
    congr 1
    exact List.Perm.sum_eq (List.Perm.map _ hperm)
  · intro before f after hf
    rw [calcIntegrandImpl_withTrackedFrames, calcIntegrandImpl_withTrackedFrames]
    congr 1
    simp [hzero f hf]

/-- C27, at the tracked frames `/A` (weight 2), `/B` (weight 1) and `/C`
(weight 0) and the sample state: the integrand is 11 in the order A, B, C,
in the order C, B, A, and without `/C`. -/
theorem C27_integrand_order_independent_witness :
    (Sample.goalReady.withTrackedFrames
        [Sample.trackedA, Sample.trackedB, Sample.trackedC]).calcIntegrandImpl
        Sample.calcValue Sample.state =
      (Sample.goalReady.withTrackedFrames
        [Sample.trackedC, Sample.trackedB, Sample.trackedA]).calcIntegrandImpl
        Sample.calcValue Sample.state ∧
    (Sample.goalReady.withTrackedFrames
        [Sample.trackedA, Sample.trackedB, Sample.trackedC]).calcIntegrandImpl
        Sample.calcValue Sample.state =
      (Sample.goalReady.withTrackedFrames
        [Sample.trackedA, Sample.trackedB]).calcIntegrandImpl
        Sample.calcValue Sample.state ∧
    (Sample.goalReady.withTrackedFrames
        [Sample.trackedA, Sample.trackedB]).calcIntegrandImpl
        Sample.calcValue Sample.state = some 11 :=
  ⟨(C27_integrand_order_independent Sample.calcValue Sample.goalReady Sample.state).1
      [Sample.trackedA, Sample.trackedB, Sample.trackedC]
      [Sample.trackedC, Sample.trackedB, Sample.trackedA] (by decide),
    (C27_integrand_order_independent Sample.calcValue Sample.goalReady Sample.state).2.2
      [Sample.trackedA, Sample.trackedB] Sample.trackedC [] rfl,
    by
      rw [calcIntegrandImpl_withTrackedFrames]
      simp only [List.map_cons, List.map_nil, List.sum_cons, List.sum_nil,
        MocoAccelerationTrackingGoal.trackedError, Sample.trackedA, Sample.trackedB,
        Sample.state, Sample.calcValue, List.headD_cons]
      have hBA : ¬ ("/B" = "/A") := by decide
      simp only [hBA, if_false, if_true]
      norm_num⟩

end OpenSim
